import Mathlib

/-!
# KEDR core (kernel/kedr/core.c): a shallow embedding

The embedding follows `core.c` function by function.

* A C string is a list of characters (no embedded NUL).
* `struct module *` is `Option Nat`: `none` is NULL (the kernel proper).
* The list `kedr_objects` and each `obj->funcs` are Lean lists in list order
  (`list_add` inserts at the head).  A `struct kedr_object *` into
  `kedr_objects` is the position of the object in the list.
* Every call that leaves the file (ftrace, the allocator, the module
  reference count, `mutex_lock_killable`, the symbol iterator, ...) is
  recorded in a log, in the order in which the calls return.  The result of
  a call that has one is given by an environment `Env`, a function of the
  log so far and of the call.  `pr_info`/`pr_err`/`pr_warning`, `kfree`,
  `mutex_lock` and `mutex_unlock` are not recorded: every operation is run
  sequentially, as under `kedr_mutex`.
* The address returned by `kzalloc` for a `struct kedr_func` identifies its
  embedded `struct ftrace_ops` (field `ops`).  The diagnostic string
  `func->info` is allocated (the allocation can fail) but its text is not kept.
-/

namespace Kedr

/-! ## Data model -/

/-- C strings. -/
abbrev CStr := List Char

/-- Values of `struct module *`; `none` is NULL. -/
abbrev Module := Option Nat

/-- Errno values (include/uapi/asm-generic/errno-base.h). -/
def ENOMEM : Int := 12

/-- Errno value. -/
def EBUSY : Int := 16

/-- Errno value. -/
def EINVAL : Int := 22

/-- States of a function record: `enum kedr_func_state`. -/
inductive kedr_func_state where
  | KEDR_FUNC_DISABLED
  | KEDR_FUNC_ENABLED
  | KEDR_FUNC_UNREGISTERED
deriving DecidableEq, Repr

open kedr_func_state

/-- The event handlers of core.c; a value of `void *handler`. -/
inductive Handler where
  | kedr_handle_alloc
  | kedr_handle_free
  | kedr_handle_krealloc_pre
  | kedr_handle_krealloc_post
  | kedr_handle___krealloc
deriving DecidableEq, Repr

/-- Record of one stub: `struct kedr_func`. -/
structure kedr_func where
  ops : Int
  handler : Handler
  addr : Nat
  state : kedr_func_state
deriving DecidableEq, Repr

/-- Record of one module (or of the kernel proper): `struct kedr_object`. -/
structure kedr_object where
  mod : Module
  funcs : List kedr_func
deriving DecidableEq, Repr

/-- The two mutexes that are taken with `mutex_lock_killable`. -/
inductive Lock where
  | kedr_mutex
  | module_mutex
deriving DecidableEq, Repr

/-- Calls that leave core.c. -/
inductive Call where
  | ftrace_set_filter_ip (ops : Int) (ip : Nat) (remove : Int) (reset : Int)
  | register_ftrace_function (ops : Int)
  | unregister_ftrace_function (ops : Int)
  | kzalloc
  | mutex_lock_killable (lock : Lock)
  | kallsyms_on_each_symbol (data : Module)
  | try_module_get
  | module_put
  | synchronize_sched
  | kedr_create_modmap
  | kedr_free_modmap
  | kedr_modmap_on_coming (m : Module)
deriving DecidableEq, Repr

/-- A call together with the value it returned (0 for a void call). -/
abbrev Event := Call × Int

/-- The log of the calls made so far. -/
abbrev Trace := List Event

/-- The world outside core.c: the result of a call, given the log so far. -/
abbrev Env := Trace → Call → Int

/-- The globals of core.c (`kedr_objects`, `kedr_enabled`) and the log. -/
structure State where
  kedr_objects : List kedr_object
  kedr_enabled : Bool
  trace : Trace
deriving DecidableEq, Repr

/-- A call with a result: ask the environment, record the call. -/
def extcall (env : Env) (c : Call) (tr : Trace) : Int × Trace :=
  (env tr c, tr ++ [(c, env tr c)])

/-- A call without a result: record it. -/
def voidcall (c : Call) (tr : Trace) : Trace :=
  tr ++ [(c, 0)]

/-- Apply `f` to the element at position `i` (an update through a pointer). -/
def modifyAt {α : Type} (f : α → α) : List α → Nat → List α
  | [], _ => []
  | x :: xs, 0 => f x :: xs
  | x :: xs, i + 1 => x :: modifyAt f xs i

/-! ## Object and function records -/

/-- The C function `kedr_find_object`: the first object of the list with `obj->mod == mod`. -/
def kedr_find_object : List kedr_object → Module → Option Nat
  | [], _ => none
  | obj :: rest, mod =>
    if obj.mod = mod then some 0
    else (kedr_find_object rest mod).map (· + 1)

/-- The C function `kedr_create_object`: allocate an object and `list_add` it to
`kedr_objects`; NULL when `kzalloc` fails. -/
def kedr_create_object (env : Env) (mod : Module) (st : State) : Option Nat × State :=
  let (p, tr1) := extcall env Call.kzalloc st.trace
  if p ≠ 0 then
    (some 0, { st with kedr_objects := { mod := mod, funcs := [] } :: st.kedr_objects,
                       trace := tr1 })
  else
    (none, { st with trace := tr1 })

/-- The C function `kedr_create_func`: allocate the record, then its info string; NULL when
either allocation fails. -/
def kedr_create_func (env : Env) (handler : Handler) (addr : Nat) (tr : Trace) :
    Option kedr_func × Trace :=
  let (p, tr1) := extcall env Call.kzalloc tr
  if p = 0 then (none, tr1)
  else
    let (info, tr2) := extcall env Call.kzalloc tr1
    if info = 0 then (none, tr2)
    else
      (some { ops := p, handler := handler, addr := addr, state := KEDR_FUNC_DISABLED }, tr2)

/-- The C function `kedr_get_ftrace_location`: the default definition of core.c. -/
def kedr_get_ftrace_location (faddr : Nat) : Nat := faddr

/-- The C function `kedr_func_detach`. -/
def kedr_func_detach (env : Env) (func : kedr_func) (tr : Trace) : Int × kedr_func × Trace :=
  if func.state ≠ KEDR_FUNC_ENABLED then (-EINVAL, func, tr)
  else
    let ftrace_loc := kedr_get_ftrace_location func.addr
    if ftrace_loc = 0 then (-EINVAL, func, tr)
    else if func.state ≠ KEDR_FUNC_UNREGISTERED then
      let (ret, tr1) := extcall env (Call.unregister_ftrace_function func.ops) tr
      if ret ≠ 0 then (ret, func, tr1)
      else
        let (ret2, tr2) := extcall env (Call.ftrace_set_filter_ip func.ops ftrace_loc 1 0) tr1
        (ret2, { func with state := KEDR_FUNC_UNREGISTERED }, tr2)
    else
      let (ret2, tr2) := extcall env (Call.ftrace_set_filter_ip func.ops ftrace_loc 1 0) tr
      (ret2, { func with state := KEDR_FUNC_UNREGISTERED }, tr2)

/-- The C function `kedr_func_attach`. -/
def kedr_func_attach (env : Env) (func : kedr_func) (tr : Trace) : Int × kedr_func × Trace :=
  if func.state ≠ KEDR_FUNC_DISABLED then (-EINVAL, func, tr)
  else
    let ftrace_loc := kedr_get_ftrace_location func.addr
    if ftrace_loc = 0 then (-EINVAL, func, tr)
    else
      let (ret, tr1) := extcall env (Call.ftrace_set_filter_ip func.ops ftrace_loc 0 0) tr
      if ret ≠ 0 then (-EINVAL, func, tr1)
      else
        let (ret2, tr2) := extcall env (Call.register_ftrace_function func.ops) tr1
        if ret2 ≠ 0 then
          (-EINVAL, func, (extcall env (Call.ftrace_set_filter_ip func.ops ftrace_loc 1 0) tr2).2)
        else
          (0, { func with state := KEDR_FUNC_ENABLED }, tr2)

/-- The loop of `kedr_cleanup_object` over `obj->funcs`: detach, unlink and
destroy each function; stop at the first failing detach. -/
def kedr_cleanup_funcs (env : Env) : List kedr_func → Trace → Int × List kedr_func × Trace
  | [], tr => (0, [], tr)
  | func :: rest, tr =>
    let (ret, func1, tr1) := kedr_func_detach env func tr
    if ret ≠ 0 then (ret, func1 :: rest, tr1)
    else kedr_cleanup_funcs env rest tr1

/-- The C function `kedr_cleanup_object`. -/
def kedr_cleanup_object (env : Env) (obj : kedr_object) (tr : Trace) :
    Int × kedr_object × Trace :=
  let (ret, funcs1, tr1) := kedr_cleanup_funcs env obj.funcs tr
  (ret, { obj with funcs := funcs1 }, tr1)

/-- The C function `kedr_destroy_all_objects`: clean up, unlink and free each object; stop at
the first object whose cleanup fails. -/
def kedr_destroy_all_objects (env : Env) : List kedr_object → Trace →
    Int × List kedr_object × Trace
  | [], tr => (0, [], tr)
  | obj :: rest, tr =>
    let (ret, obj1, tr1) := kedr_cleanup_object env obj tr
    if ret ≠ 0 then (ret, obj1 :: rest, tr1)
    else kedr_destroy_all_objects env rest tr1

/-! ## Discovery -/

/-- An entry of the handler table: `struct kedr_handler_table_item`. -/
structure kedr_handler_table_item where
  event_name : CStr
  handler : Handler
deriving DecidableEq, Repr

/-- The table `handler_table` of core.c. -/
def handler_table : List kedr_handler_table_item :=
  [ { event_name := "alloc".toList, handler := Handler.kedr_handle_alloc },
    { event_name := "free".toList, handler := Handler.kedr_handle_free },
    { event_name := "krealloc_pre".toList, handler := Handler.kedr_handle_krealloc_pre },
    { event_name := "krealloc_post".toList, handler := Handler.kedr_handle_krealloc_post },
    { event_name := "__krealloc".toList, handler := Handler.kedr_handle___krealloc } ]

/-- The test `strcmp(a, b) == 0`. -/
def strcmp_eq (a b : CStr) : Bool := decide (a = b)

/-- The test `strncmp(a, b, n) == 0`: the first `n` characters agree. -/
def strncmp_eq (a b : CStr) (n : Nat) : Bool := decide (a.take n = b.take n)

/-- The loop of `find_handler` over the items of the table. -/
def find_handler_loop (event_name : CStr) : List kedr_handler_table_item → Option Handler
  | [] => none
  | item :: rest =>
    if strcmp_eq event_name item.event_name then some item.handler
    else find_handler_loop event_name rest

/-- The C function `find_handler`; `none` is NULL. -/
def find_handler (event_name : CStr) : Option Handler :=
  find_handler_loop event_name handler_table

/-- The constant `stub_prefix` of `kedr_kallsyms_callback`. -/
def stub_prefix : CStr := "kedr_stub_handle_".toList

/-- The constant `prefix_len`: `ARRAY_SIZE(stub_prefix) - 1`. -/
def prefix_len : Nat := ( stub_prefix).length

/-- The end of `kedr_kallsyms_callback`, once `obj` is known: create the
function record and `list_add` it to `obj->funcs`. -/
def kedr_callback_add_func (env : Env) (handler : Handler) (addr : Nat) (i : Nat)
    (st : State) : Int × State :=
  match kedr_create_func env handler addr st.trace with
  | (none, tr1) => (-ENOMEM, { st with trace := tr1 })
  | (some f, tr1) =>
    (0, { st with
            kedr_objects :=
              modifyAt (fun o => { o with funcs := f :: o.funcs }) st.kedr_objects i,
            trace := tr1 })

/-- The C function `kedr_kallsyms_callback(data, name, mod, addr)`. -/
def kedr_kallsyms_callback (env : Env) (data : Module) (name : CStr) (mod : Module)
    (addr : Nat) (st : State) : Int × State :=
  if data ≠ none ∧ data ≠ mod then (0, st)
  else if ¬ strncmp_eq name ( stub_prefix) prefix_len then (0, st)
  else
    match find_handler (name.drop prefix_len) with
    | none => (0, st)
    | some handler =>
      match kedr_find_object st.kedr_objects mod with
      | some i => kedr_callback_add_func env handler addr i st
      | none =>
        match kedr_create_object env mod st with
        | (none, st1) => (-ENOMEM, st1)
        | (some i, st1) => kedr_callback_add_func env handler addr i st1

/-- A symbol of the kernel or of a module, as passed to the callback. -/
structure Symbol where
  name : CStr
  mod : Module
  addr : Nat
deriving DecidableEq, Repr

/-- Modelled from the spec: the symbol-space iterator (the kernel's
`kallsyms_on_each_symbol`, not part of core.c) calls the callback once per
symbol and stops at the first non-zero result, which it returns. -/
def kallsyms_loop (fn : CStr → Module → Nat → State → Int × State) :
    List Symbol → State → Int × State
  | [], st => (0, st)
  | s :: rest, st =>
    let (ret, st1) := fn s.name s.mod s.addr st
    if ret ≠ 0 then (ret, st1)
    else kallsyms_loop fn rest st1

/-- Modelled from the spec: `kallsyms_on_each_symbol(fn, data)` over the symbol
space `syms`; the call is recorded with its result when it returns. -/
def kallsyms_on_each_symbol (fn : CStr → Module → Nat → State → Int × State)
    (data : Module) (syms : List Symbol) (st : State) : Int × State :=
  let (ret, st1) := kallsyms_loop fn syms st
  (ret, { st1 with trace := st1.trace ++ [(Call.kallsyms_on_each_symbol data, ret)] })

/-! ## Attaching and detaching the handlers -/

/-- The C function `kedr_detach_handlers`. -/
def kedr_detach_handlers (env : Env) (mod : Module) (st : State) : Int × State :=
  if mod = none then
    let (ret, objs1, tr1) := kedr_destroy_all_objects env st.kedr_objects st.trace
    (ret, { st with kedr_objects := objs1, trace := tr1 })
  else
    match kedr_find_object st.kedr_objects mod with
    | none => (0, st)
    | some i =>
      match st.kedr_objects[i]? with
      | none => (0, st)
      | some obj =>
        let (ret, obj1, tr1) := kedr_cleanup_object env obj st.trace
        if ret ≠ 0 then
          (ret, { st with kedr_objects := st.kedr_objects.set i obj1, trace := tr1 })
        else
          (0, { st with kedr_objects := st.kedr_objects.eraseIdx i, trace := tr1 })

/-- The loop of `kedr_attach_all_for_object` over `obj->funcs`: attach each
function that is in state DISABLED; stop at the first failure. -/
def kedr_attach_funcs (env : Env) : List kedr_func → Trace → Int × List kedr_func × Trace
  | [], tr => (0, [], tr)
  | func :: rest, tr =>
    if func.state ≠ KEDR_FUNC_DISABLED then
      let (ret, rest1, tr1) := kedr_attach_funcs env rest tr
      (ret, func :: rest1, tr1)
    else
      let (ret, func1, tr1) := kedr_func_attach env func tr
      if ret ≠ 0 then (ret, func1 :: rest, tr1)
      else
        let (ret2, rest1, tr2) := kedr_attach_funcs env rest tr1
        (ret2, func1 :: rest1, tr2)

/-- The C function `kedr_attach_all_for_object`. -/
def kedr_attach_all_for_object (env : Env) (obj : kedr_object) (tr : Trace) :
    Int × kedr_object × Trace :=
  let (ret, funcs1, tr1) := kedr_attach_funcs env obj.funcs tr
  (ret, { obj with funcs := funcs1 }, tr1)

/-- The loop of `kedr_attach_handlers` over `kedr_objects` (case mod == NULL):
stop at the first object for which attaching fails. -/
def kedr_attach_objects (env : Env) : List kedr_object → Trace →
    Int × List kedr_object × Trace
  | [], tr => (0, [], tr)
  | obj :: rest, tr =>
    let (ret, obj1, tr1) := kedr_attach_all_for_object env obj tr
    if ret ≠ 0 then (ret, obj1 :: rest, tr1)
    else
      let (ret2, rest1, tr2) := kedr_attach_objects env rest tr1
      (ret2, obj1 :: rest1, tr2)

/-- The attach step of `kedr_attach_handlers`, after the symbols were scanned. -/
def kedr_attach_step (env : Env) (mod : Module) (st : State) : Int × State :=
  if mod ≠ none then
    match kedr_find_object st.kedr_objects mod with
    | none => (0, st)
    | some i =>
      match st.kedr_objects[i]? with
      | none => (0, st)
      | some obj =>
        let (ret, obj1, tr1) := kedr_attach_all_for_object env obj st.trace
        (ret, { st with kedr_objects := st.kedr_objects.set i obj1, trace := tr1 })
  else
    let (ret, objs1, tr1) := kedr_attach_objects env st.kedr_objects st.trace
    (ret, { st with kedr_objects := objs1, trace := tr1 })

/-- The C function `kedr_attach_handlers(mod)` over the symbol space `syms`. -/
def kedr_attach_handlers (env : Env) (syms : List Symbol) (mod : Module) (st : State) :
    Int × State :=
  if mod ≠ none ∧ (kedr_find_object st.kedr_objects mod).isSome then (-EBUSY, st)
  else
    let (ret, tr1) := extcall env (Call.mutex_lock_killable Lock.module_mutex) st.trace
    if ret ≠ 0 then (ret, { st with trace := tr1 })
    else
      let (ret1, st1) :=
        kallsyms_on_each_symbol (kedr_kallsyms_callback env mod) mod syms
          { st with trace := tr1 }
      if ret1 ≠ 0 then (ret1, st1)
      else
        let (ret2, st2) := kedr_attach_step env mod st1
        if ret2 ≠ 0 then (ret2, (kedr_detach_handlers env mod st2).2)
        else (ret2, st2)

/-! ## Module notifications and the global switch -/

/-- Value of `enum module_state` (include/linux/module.h). -/
def MODULE_STATE_LIVE : Nat := 0

/-- Value of `enum module_state`. -/
def MODULE_STATE_COMING : Nat := 1

/-- Value of `enum module_state`. -/
def MODULE_STATE_GOING : Nat := 2

/-- The C function `kedr_module_notify(nb, action, data)`; `this_module` is THIS_MODULE and
`syms` the symbol space at the time of the notification. -/
def kedr_module_notify (env : Env) (this_module : Module) (syms : List Symbol)
    (action : Nat) (data : Module) (st : State) : Int × State :=
  if data = this_module then (0, st)
  else if ¬ st.kedr_enabled then (0, st)
  else if action = MODULE_STATE_COMING then
    kedr_attach_handlers env syms data
      { st with trace := voidcall (Call.kedr_modmap_on_coming data) st.trace }
  else if action = MODULE_STATE_LIVE then (0, st)
  else if action = MODULE_STATE_GOING then kedr_detach_handlers env data st
  else (0, st)

/-- The C function `kedr_enable` over the symbol space `syms`. -/
def kedr_enable (env : Env) (syms : List Symbol) (st : State) : Int × State :=
  let (ret, tr1) := extcall env (Call.mutex_lock_killable Lock.kedr_mutex) st.trace
  if ret ≠ 0 then (ret, { st with trace := tr1 })
  else if st.kedr_enabled then (ret, { st with trace := tr1 })
  else
    let (got, tr2) := extcall env Call.try_module_get tr1
    if got = 0 then (-EBUSY, { st with trace := tr2 })
    else
      let (ret1, st1) := kedr_attach_handlers env syms none { st with trace := tr2 }
      if ret1 ≠ 0 then (ret1, { st1 with trace := voidcall Call.module_put st1.trace })
      else
        (ret1, { st1 with kedr_enabled := true,
                          trace := voidcall Call.kedr_create_modmap st1.trace })

/-- The C function `kedr_disable`. -/
def kedr_disable (env : Env) (st : State) : Int × State :=
  if ¬ st.kedr_enabled then (0, st)
  else
    let (ret, st1) := kedr_detach_handlers env none st
    if ret ≠ 0 then (ret, st1)
    else
      (ret, { st1 with
                kedr_enabled := false,
                trace := voidcall Call.module_put
                  (voidcall Call.kedr_free_modmap (voidcall Call.synchronize_sched st1.trace)) })

/-- The initial values of the globals, with an empty log. -/
def init_state : State := { kedr_objects := [], kedr_enabled := false, trace := [] }

/-! ## Notions used to state the properties -/

/-- All function records of the registry, object by object, in list order. -/
def all_funcs : List kedr_object → List kedr_func
  | [] => []
  | obj :: rest => obj.funcs ++ all_funcs rest

/-- Detach the given records one after the other, starting with log `tr`:
the log after the last detach when every `kedr_func_detach` returned 0, and
`none` as soon as one of them fails. -/
def detach_each (env : Env) : List kedr_func → Trace → Option Trace
  | [], tr => some tr
  | func :: rest, tr =>
    if (kedr_func_detach env func tr).1 = 0 then
      detach_each env rest (kedr_func_detach env func tr).2.2
    else none

/-- The calls of a successful detach of each of the given records, in order:
unregister the `ops`, then remove the filter of the address. -/
def detach_log : List kedr_func → Trace
  | [] => []
  | func :: rest =>
    (Call.unregister_ftrace_function func.ops, 0) ::
      (Call.ftrace_set_filter_ip func.ops func.addr 1 0, 0) :: detach_log rest

/-- The handler that the specification assigns to a symbol name: that of the
entry of the handler table whose event name, put after the stub prefix,
is exactly the name; `none` when there is no such entry. -/
def expected_handler (name : CStr) : Option Handler :=
  (handler_table.find? (fun item => decide (name = stub_prefix ++ item.event_name))).map
    (fun item => item.handler)

/-- Whether a symbol of module `mod` is in the scope `data` of a scan: every
symbol when `data` is NULL, the symbols of the module `data` otherwise. -/
def in_scope (data : Module) (mod : Module) : Bool :=
  decide (data = none ∨ data = mod)

/-- What is observed of a function record: address, handler and state. -/
def func_view (f : kedr_func) : Nat × Handler × kedr_func_state :=
  (f.addr, f.handler, f.state)

/-- The record expected for one symbol: none when the symbol is out of scope
or is not a stub with a handler, otherwise a record in state DISABLED with
the address of the symbol and the handler of its event name. -/
def expected_one (data : Module) (s : Symbol) : Option (Nat × Handler × kedr_func_state) :=
  if in_scope data s.mod then
    (expected_handler s.name).map (fun h => (s.addr, h, KEDR_FUNC_DISABLED))
  else none

/-- The records expected for the module `m`, in the order of the symbols. -/
def expected_funcs (data : Module) (syms : List Symbol) (m : Module) :
    List (Nat × Handler × kedr_func_state) :=
  (syms.filter (fun s => decide (s.mod = m))).filterMap (expected_one data)

/-- The function records of the object of module `m` (`obj->funcs` of the
object that `kedr_find_object` returns), empty when there is no object. -/
def funcs_of : List kedr_object → Module → List kedr_func
  | [], _ => []
  | obj :: rest, m => if obj.mod = m then obj.funcs else funcs_of rest m

/-- The registry after a function record was added for module `mod`: to the
object of the module when there is one, to a new object at the head of the
list otherwise. -/
def registry_add (objs : List kedr_object) (mod : Module) (f : kedr_func) :
    List kedr_object :=
  match kedr_find_object objs mod with
  | some i => modifyAt (fun o => { o with funcs := f :: o.funcs }) objs i
  | none => { mod := mod, funcs := [f] } :: objs

/-! ## Environments and inputs used in the concrete checks -/

/-- An environment in which every call succeeds: allocations and
`try_module_get` return 1, every other call returns 0. -/
def env_accept : Env := fun _ c =>
  match c with
  | Call.kzalloc => 1
  | Call.try_module_get => 1
  | _ => 0

/-- As `env_accept`, but `register_ftrace_function` fails with -16. -/
def env_reject_register : Env := fun _ c =>
  match c with
  | Call.kzalloc => 1
  | Call.try_module_get => 1
  | Call.register_ftrace_function _ => -16
  | _ => 0

/-- As `env_accept`, but `mutex_lock_killable` is interrupted (-EINTR). -/
def env_interrupted : Env := fun _ c =>
  match c with
  | Call.kzalloc => 1
  | Call.try_module_get => 1
  | Call.mutex_lock_killable _ => -4
  | _ => 0

/-- A function record as `kedr_create_func` leaves it. -/
def func_fresh : kedr_func :=
  { ops := 1, handler := Handler.kedr_handle_alloc, addr := 4096, state := KEDR_FUNC_DISABLED }

/-- A function record in state ENABLED. -/
def func_enabled : kedr_func := { func_fresh with state := KEDR_FUNC_ENABLED }

/-- A function record in state UNREGISTERED. -/
def func_unregistered : kedr_func := { func_fresh with state := KEDR_FUNC_UNREGISTERED }

/-- A second function record in state ENABLED. -/
def func_enabled2 : kedr_func :=
  { ops := 2, handler := Handler.kedr_handle_free, addr := 8192, state := KEDR_FUNC_ENABLED }

/-- An enabled registry with the objects of two modules, one attached
function each. -/
def st_two_units : State :=
  { kedr_objects := [{ mod := some 1, funcs := [func_enabled] },
                     { mod := some 2, funcs := [func_enabled2] }],
    kedr_enabled := true,
    trace := [] }

/-- An environment in which allocations return fresh non-zero addresses and
`register_ftrace_function` succeeds once: every later registration fails
with -16.  Every other call succeeds. -/
def env_second_register_fails : Env := fun tr c =>
  match c with
  | Call.kzalloc => tr.length + 1
  | Call.try_module_get => 1
  | Call.register_ftrace_function _ =>
    if tr.any (fun e =>
        match e.1 with
        | Call.register_ftrace_function _ => true
        | _ => false) then -16 else 0
  | _ => 0

/-- The symbols of a module at address 7: two stubs and an unrelated symbol. -/
def syms_mod7 : List Symbol :=
  [{ name := "kedr_stub_handle_alloc".toList, mod := some 7, addr := 4096 },
   { name := "foo".toList, mod := some 7, addr := 12288 },
   { name := "kedr_stub_handle_free".toList, mod := some 7, addr := 8192 }]

/-- A symbol space with the stub `kedr_stub_handle_alloc` at address 4096 and
an unrelated symbol `foo`, both of the module at address 7. -/
def syms_scenario : List Symbol :=
  [{ name := "kedr_stub_handle_alloc".toList, mod := some 7, addr := 4096 },
   { name := "foo".toList, mod := some 7, addr := 12288 }]

/-- As `env_accept`, but setting a filter (remove = 0) fails with -12. -/
def env_reject_filter_set : Env := fun _ c =>
  match c with
  | Call.kzalloc => 1
  | Call.try_module_get => 1
  | Call.ftrace_set_filter_ip _ _ 0 _ => -12
  | _ => 0

/-- As `env_accept`, but removing a filter (remove = 1) fails with -1. -/
def env_reject_filter_removal : Env := fun _ c =>
  match c with
  | Call.kzalloc => 1
  | Call.try_module_get => 1
  | Call.ftrace_set_filter_ip _ _ 1 _ => -1
  | _ => 0

/-- The `ops` argument of a call to ftrace; `none` for every other call. -/
def call_ops : Call → Option Int
  | Call.ftrace_set_filter_ip ops _ _ _ => some ops
  | Call.register_ftrace_function ops => some ops
  | Call.unregister_ftrace_function ops => some ops
  | _ => none

/-- What identifies a function record whatever its state: its `ops`, its
handler and the address of the stub. -/
def func_id (f : kedr_func) : Int × Handler × Nat :=
  (f.ops, f.handler, f.addr)

/-- An object with three attached functions. -/
def obj_three : kedr_object :=
  { mod := some 1,
    funcs := [func_enabled, func_enabled2,
              { ops := 3, handler := Handler.kedr_handle_free, addr := 12288,
                state := KEDR_FUNC_ENABLED }] }

/-- An enabled registry that holds `obj_three` only. -/
def st_three : State :=
  { kedr_objects := [obj_three], kedr_enabled := true, trace := [] }

/-- An environment in which `unregister_ftrace_function` succeeds once: every
later call to it fails with -16.  Every other call succeeds. -/
def env_second_unregister_fails : Env := fun tr c =>
  match c with
  | Call.kzalloc => 1
  | Call.try_module_get => 1
  | Call.unregister_ftrace_function _ =>
    if tr.any (fun e =>
        match e.1 with
        | Call.unregister_ftrace_function _ => true
        | _ => false) then -16 else 0
  | _ => 0

/-- A function record that was never attached, at a different address. -/
def func_fresh2 : kedr_func :=
  { ops := 2, handler := Handler.kedr_handle_free, addr := 8192, state := KEDR_FUNC_DISABLED }

/-- An enabled registry whose only object, for module 1, holds an attached
function followed by a function in state DISABLED. -/
def st_stuck : State :=
  { kedr_objects := [{ mod := some 1, funcs := [func_enabled, func_fresh2] }],
    kedr_enabled := true,
    trace := [] }

/-- An operation on the registry: the global switch turned on (over a symbol
space) or off, or a notification about a module (with the symbol space at
that time); MODULE_STATE_COMING is `unit_appeared`, MODULE_STATE_GOING is
`unit_disappearing`. -/
inductive Op where
  | enable (syms : List Symbol)
  | disable
  | notify (syms : List Symbol) (action : Nat) (data : Module)

/-- The state after one operation. -/
def step (env : Env) (this_module : Module) (op : Op) (st : State) : State :=
  match op with
  | Op.enable syms => (kedr_enable env syms st).2
  | Op.disable => (kedr_disable env st).2
  | Op.notify syms action data =>
    (kedr_module_notify env this_module syms action data st).2

/-- The state after a sequence of operations, the first of the list first. -/
def run (env : Env) (this_module : Module) : List Op → State → State
  | [], st => st
  | op :: rest, st => run env this_module rest (step env this_module op st)

/-- The identities of all function records of the registry, in list order. -/
def registry_ids (objs : List kedr_object) : List (Int × Handler × Nat) :=
  (all_funcs objs).map func_id

/-- The calls of a successful attach of each of the given records, in order:
set the filter of the address, then register the `ops`. -/
def attach_log : List kedr_func → Trace
  | [] => []
  | func :: rest =>
    (Call.ftrace_set_filter_ip func.ops func.addr 0 0, 0) ::
      (Call.register_ftrace_function func.ops, 0) :: attach_log rest

/-- The `ops` of the calls to `register_ftrace_function` of a log that
returned 0, in the order of the log. -/
def registered_ops (tr : Trace) : List Int :=
  tr.filterMap (fun e =>
    match e.1 with
    | Call.register_ftrace_function ops => if e.2 = 0 then some ops else none
    | _ => none)

/-- The `ops` of the calls to `unregister_ftrace_function` of a log, in the
order of the log. -/
def unregistered_ops (tr : Trace) : List Int :=
  tr.filterMap (fun e =>
    match e.1 with
    | Call.unregister_ftrace_function ops => some ops
    | _ => none)

/-- The record `f` once attached. -/
def set_enabled (f : kedr_func) : kedr_func :=
  { f with state := KEDR_FUNC_ENABLED }

/-- C8: `kedr_func_attach` on a record in state ENABLED returns -EINVAL, the
record is unchanged and the log is unchanged (no call to ftrace). -/
theorem attach_enabled_rejected (env : Env) (func : kedr_func) (tr : Trace)
    (h : func.state = KEDR_FUNC_ENABLED) :
    kedr_func_attach env func tr = (-EINVAL, func, tr) := by
  simp [kedr_func_attach, h]

/-- C8 at a concrete record. -/
theorem attach_enabled_rejected_witness :
    func_enabled.state = KEDR_FUNC_ENABLED ∧
      kedr_func_attach env_accept func_enabled [] = (-EINVAL, func_enabled, []) :=
  ⟨rfl, attach_enabled_rejected env_accept func_enabled [] rfl⟩

/-- C9: `kedr_func_detach` on a record in state DISABLED returns -EINVAL, the
record is unchanged (still DISABLED) and the log is unchanged (no call to
ftrace). -/
theorem detach_disabled_rejected (env : Env) (func : kedr_func) (tr : Trace)
    (h : func.state = KEDR_FUNC_DISABLED) :
    kedr_func_detach env func tr = (-EINVAL, func, tr) ∧
      (kedr_func_detach env func tr).2.1.state = KEDR_FUNC_DISABLED := by
  simp [kedr_func_detach, h]

/-- C9 at a concrete record. -/
theorem detach_disabled_rejected_witness :
    func_fresh.state = KEDR_FUNC_DISABLED ∧
      (kedr_func_detach env_accept func_fresh [] = (-EINVAL, func_fresh, []) ∧
        (kedr_func_detach env_accept func_fresh []).2.1.state = KEDR_FUNC_DISABLED) :=
  ⟨rfl, detach_disabled_rejected env_accept func_fresh [] rfl⟩

/-- C2 (what the code does): `kedr_func_detach` on a record in state
UNREGISTERED returns -EINVAL without any call to ftrace: the removal of the
filter is not retried, whatever the environment. -/
theorem detach_unregistered_rejected (env : Env) (func : kedr_func) (tr : Trace)
    (h : func.state = KEDR_FUNC_UNREGISTERED) :
    kedr_func_detach env func tr = (-EINVAL, func, tr) := by
  simp [kedr_func_detach, h]

/-- C2 at a concrete record, with ftrace accepting every call. -/
theorem detach_unregistered_rejected_witness :
    func_unregistered.state = KEDR_FUNC_UNREGISTERED ∧
      kedr_func_detach env_accept func_unregistered [] = (-EINVAL, func_unregistered, []) :=
  ⟨rfl, detach_unregistered_rejected env_accept func_unregistered [] rfl⟩

/-- C4: for a record in state DISABLED with a non-zero address and an
environment in which setting the filter, registering and unregistering
succeed, attach followed by detach leaves the record in state UNREGISTERED
(nothing else of it changed), attach returns 0, and the calls made are
exactly: set the filter, register, unregister, remove the filter, in this
order, each on the `ops` and address of the record; detach returns what the
removal of the filter returned. -/
theorem attach_then_detach (env : Env) (func : kedr_func) (tr : Trace)
    (hstate : func.state = KEDR_FUNC_DISABLED) (haddr : func.addr ≠ 0)
    (hset : ∀ t ops ip, env t (Call.ftrace_set_filter_ip ops ip 0 0) = 0)
    (hreg : ∀ t ops, env t (Call.register_ftrace_function ops) = 0)
    (hunreg : ∀ t ops, env t (Call.unregister_ftrace_function ops) = 0) :
    (kedr_func_attach env func tr).1 = 0 ∧
      ∃ r : Int,
        kedr_func_detach env (kedr_func_attach env func tr).2.1
            (kedr_func_attach env func tr).2.2 =
          (r, { func with state := KEDR_FUNC_UNREGISTERED },
            tr ++ [(Call.ftrace_set_filter_ip func.ops func.addr 0 0, 0),
                   (Call.register_ftrace_function func.ops, 0),
                   (Call.unregister_ftrace_function func.ops, 0),
                   (Call.ftrace_set_filter_ip func.ops func.addr 1 0, r)]) := by
  simp [kedr_func_attach, kedr_func_detach, kedr_get_ftrace_location, extcall, hstate, haddr,
    hset, hreg, hunreg]

/-- C4 at a concrete record. -/
theorem attach_then_detach_witness :
    (kedr_func_attach env_accept func_fresh []).1 = 0 ∧
      ∃ r : Int,
        kedr_func_detach env_accept (kedr_func_attach env_accept func_fresh []).2.1
            (kedr_func_attach env_accept func_fresh []).2.2 =
          (r, { func_fresh with state := KEDR_FUNC_UNREGISTERED },
            [] ++ [(Call.ftrace_set_filter_ip func_fresh.ops func_fresh.addr 0 0, 0),
                   (Call.register_ftrace_function func_fresh.ops, 0),
                   (Call.unregister_ftrace_function func_fresh.ops, 0),
                   (Call.ftrace_set_filter_ip func_fresh.ops func_fresh.addr 1 0, r)]) :=
  attach_then_detach env_accept func_fresh [] rfl (by decide) (fun _ _ _ => rfl)
    (fun _ _ => rfl) (fun _ _ => rfl)

/-! ## Cleanup of objects -/

theorem detach_each_append (env : Env) (a b : List kedr_func) (tr : Trace) :
    detach_each env (a ++ b) tr = (detach_each env a tr).bind (detach_each env b) := by
  induction a generalizing tr with
  | nil => simp [detach_each]
  | cons f fs ih =>
    simp only [List.cons_append, detach_each]
    split
    · exact ih _
    · rfl

theorem cleanup_funcs_ok (env : Env) (fs : List kedr_func) (tr tr1 : Trace)
    (h : detach_each env fs tr = some tr1) :
    kedr_cleanup_funcs env fs tr = (0, [], tr1) := by
  induction fs generalizing tr with
  | nil => simp [detach_each] at h; simp [kedr_cleanup_funcs, h]
  | cons f fs ih =>
    simp only [detach_each] at h
    split at h
    · rename_i h0
      simp only [kedr_cleanup_funcs, h0, ne_eq, not_true_eq_false, if_false]
      exact ih _ h
    · cases h

theorem cleanup_funcs_fail (env : Env) (fs : List kedr_func) (tr : Trace)
    (h : detach_each env fs tr = none) :
    ∃ pre f post tr1, fs = pre ++ f :: post ∧ detach_each env pre tr = some tr1 ∧
      (kedr_func_detach env f tr1).1 ≠ 0 ∧
      kedr_cleanup_funcs env fs tr =
        ((kedr_func_detach env f tr1).1, (kedr_func_detach env f tr1).2.1 :: post,
          (kedr_func_detach env f tr1).2.2) := by
  induction fs generalizing tr with
  | nil => simp [detach_each] at h
  | cons f fs ih =>
    simp only [detach_each] at h
    split at h
    · rename_i h0
      obtain ⟨pre, g, post, tr1, hfs, hpre, hne, hcl⟩ := ih _ h
      refine ⟨f :: pre, g, post, tr1, by simp [hfs], by simp [detach_each, h0, hpre], hne, ?_⟩
      simp only [kedr_cleanup_funcs, h0, ne_eq, not_true_eq_false, if_false]
      exact hcl
    · rename_i h0
      refine ⟨[], f, fs, tr, by simp, by simp [detach_each], h0, ?_⟩
      simp [kedr_cleanup_funcs, h0]

theorem destroy_all_ok (env : Env) (objs : List kedr_object) (tr tr1 : Trace)
    (h : detach_each env (all_funcs objs) tr = some tr1) :
    kedr_destroy_all_objects env objs tr = (0, [], tr1) := by
  induction objs generalizing tr with
  | nil => simp [all_funcs, detach_each] at h; simp [kedr_destroy_all_objects, h]
  | cons o os ih =>
    simp only [all_funcs, detach_each_append] at h
    cases h1 : detach_each env o.funcs tr with
    | none => simp [h1] at h
    | some t =>
      simp only [h1, Option.some_bind] at h
      simp only [kedr_destroy_all_objects, kedr_cleanup_object, cleanup_funcs_ok env _ _ _ h1,
        ne_eq, not_true_eq_false, if_false]
      exact ih _ h

theorem destroy_all_fail (env : Env) (objs : List kedr_object) (tr : Trace)
    (h : detach_each env (all_funcs objs) tr = none) :
    ∃ pre f post tr1, all_funcs objs = pre ++ f :: post ∧
      detach_each env pre tr = some tr1 ∧
      (kedr_func_detach env f tr1).1 ≠ 0 ∧
      (kedr_destroy_all_objects env objs tr).1 = (kedr_func_detach env f tr1).1 ∧
      (kedr_destroy_all_objects env objs tr).2.1 ≠ [] ∧
      (kedr_destroy_all_objects env objs tr).2.2 = (kedr_func_detach env f tr1).2.2 := by
  induction objs generalizing tr with
  | nil => simp [all_funcs, detach_each] at h
  | cons o os ih =>
    simp only [all_funcs, detach_each_append] at h
    cases h1 : detach_each env o.funcs tr with
    | none =>
      obtain ⟨pre, f, post, tr1, hfs, hpre, hne, hcl⟩ := cleanup_funcs_fail env _ _ h1
      refine ⟨pre, f, post ++ all_funcs os, tr1, by simp [all_funcs, hfs], hpre, hne, ?_⟩
      simp [kedr_destroy_all_objects, kedr_cleanup_object, hcl, hne]
    | some t =>
      simp only [h1, Option.some_bind] at h
      obtain ⟨pre, f, post, tr1, hfs, hpre, hne, hret, hobjs, htr⟩ := ih _ h
      refine ⟨o.funcs ++ pre, f, post, tr1, by simp [all_funcs, hfs],
        by simp [detach_each_append, h1, hpre], hne, ?_⟩
      simp only [kedr_destroy_all_objects, kedr_cleanup_object, cleanup_funcs_ok env _ _ _ h1,
        ne_eq, not_true_eq_false, if_false]
      exact ⟨hret, hobjs, htr⟩

/-! ## The global switch -/

/-- C7: from a state with `kedr_enabled` set, `kedr_disable` clears the flag
if and only if every function record of every object, detached in list
order, is detached successfully; in that case it returns 0 and
`kedr_objects` is empty afterwards; otherwise the flag is still set and the
value returned is the non-zero result of the first failing
`kedr_func_detach`. -/
theorem disable_iff_all_detached (env : Env) (st : State) (hen : st.kedr_enabled = true) :
    ((kedr_disable env st).2.kedr_enabled = false ↔
        (detach_each env (all_funcs st.kedr_objects) st.trace).isSome) ∧
      ((detach_each env (all_funcs st.kedr_objects) st.trace).isSome →
        (kedr_disable env st).1 = 0 ∧ (kedr_disable env st).2.kedr_objects = []) ∧
      (detach_each env (all_funcs st.kedr_objects) st.trace = none →
        (kedr_disable env st).2.kedr_enabled = true ∧
        ∃ pre f post tr1, all_funcs st.kedr_objects = pre ++ f :: post ∧
          detach_each env pre st.trace = some tr1 ∧
          (kedr_func_detach env f tr1).1 ≠ 0 ∧
          (kedr_disable env st).1 = (kedr_func_detach env f tr1).1) := by
  cases h : detach_each env (all_funcs st.kedr_objects) st.trace with
  | some t =>
    have hd := destroy_all_ok env _ _ _ h
    simp [kedr_disable, kedr_detach_handlers, hen, hd]
  | none =>
    obtain ⟨pre, f, post, tr1, hfs, hpre, hne, hret, _, _⟩ := destroy_all_fail env _ _ h
    have hne2 : (kedr_destroy_all_objects env st.kedr_objects st.trace).1 ≠ 0 := by
      rw [hret]; exact hne
    have hdis : kedr_disable env st =
        ((kedr_destroy_all_objects env st.kedr_objects st.trace).1,
          { st with
              kedr_objects := (kedr_destroy_all_objects env st.kedr_objects st.trace).2.1,
              trace := (kedr_destroy_all_objects env st.kedr_objects st.trace).2.2 }) := by
      simp [kedr_disable, kedr_detach_handlers, hen, hne2]
    rw [hdis]
    refine ⟨by simp [hen], by simp, fun _ => ⟨hen, pre, f, post, tr1, hfs, hpre, hne, hret⟩⟩

/-- C7 at a registry with two objects, every call accepted. -/
theorem disable_iff_all_detached_witness :
    st_two_units.kedr_enabled = true ∧
      (((kedr_disable env_accept st_two_units).2.kedr_enabled = false ↔
          (detach_each env_accept (all_funcs st_two_units.kedr_objects)
            st_two_units.trace).isSome) ∧
        ((detach_each env_accept (all_funcs st_two_units.kedr_objects)
            st_two_units.trace).isSome →
          (kedr_disable env_accept st_two_units).1 = 0 ∧
            (kedr_disable env_accept st_two_units).2.kedr_objects = []) ∧
        (detach_each env_accept (all_funcs st_two_units.kedr_objects)
            st_two_units.trace = none →
          (kedr_disable env_accept st_two_units).2.kedr_enabled = true ∧
          ∃ pre f post tr1, all_funcs st_two_units.kedr_objects = pre ++ f :: post ∧
            detach_each env_accept pre st_two_units.trace = some tr1 ∧
            (kedr_func_detach env_accept f tr1).1 ≠ 0 ∧
            (kedr_disable env_accept st_two_units).1 = (kedr_func_detach env_accept f tr1).1)) :=
  ⟨rfl, disable_iff_all_detached env_accept st_two_units rfl⟩

/-- C10 as stated fails: with `kedr_enabled` set, `kedr_enable` returns the
error of `mutex_lock_killable` when the wait for `kedr_mutex` is interrupted. -/
theorem enable_when_enabled_interrupted :
    st_two_units.kedr_enabled = true ∧
      (kedr_enable env_interrupted [] st_two_units).1 = -4 ∧
      (kedr_enable env_interrupted [] st_two_units).1 ≠ 0 := by
  decide

/-- C10, amended: with `kedr_enabled` set and `kedr_mutex` acquired,
`kedr_enable` returns 0, `kedr_objects` and the flag are unchanged and the
only call made is the acquisition of the mutex (no ftrace call, no scan of
the symbols, no `try_module_get`); when the acquisition fails its error is
returned, again with nothing else done.  With `kedr_enabled` clear,
`kedr_disable` returns 0 and changes nothing: no call at all. -/
theorem toggle_idempotent (env : Env) (syms : List Symbol) (st_on st_off : State)
    (hon : st_on.kedr_enabled = true) (hoff : st_off.kedr_enabled = false) :
    kedr_enable env syms st_on =
        (env st_on.trace (Call.mutex_lock_killable Lock.kedr_mutex),
          { st_on with
              trace := st_on.trace ++
                [(Call.mutex_lock_killable Lock.kedr_mutex,
                  env st_on.trace (Call.mutex_lock_killable Lock.kedr_mutex))] }) ∧
      (env st_on.trace (Call.mutex_lock_killable Lock.kedr_mutex) = 0 →
        (kedr_enable env syms st_on).1 = 0) ∧
      kedr_disable env st_off = (0, st_off) := by
  refine ⟨?_, ?_, ?_⟩
  · by_cases h : env st_on.trace (Call.mutex_lock_killable Lock.kedr_mutex) = 0
    · simp [kedr_enable, extcall, hon, h]
    · simp [kedr_enable, extcall, h]
  · intro h
    simp [kedr_enable, extcall, hon, h]
  · simp [kedr_disable, hoff]

/-- C10, amended, at a concrete enabled registry and at the initial state. -/
theorem toggle_idempotent_witness :
    st_two_units.kedr_enabled = true ∧ init_state.kedr_enabled = false ∧
      (kedr_enable env_accept [] st_two_units =
          (env_accept st_two_units.trace (Call.mutex_lock_killable Lock.kedr_mutex),
            { st_two_units with
                trace := st_two_units.trace ++
                  [(Call.mutex_lock_killable Lock.kedr_mutex,
                    env_accept st_two_units.trace
                      (Call.mutex_lock_killable Lock.kedr_mutex))] }) ∧
        (env_accept st_two_units.trace (Call.mutex_lock_killable Lock.kedr_mutex) = 0 →
          (kedr_enable env_accept [] st_two_units).1 = 0) ∧
        kedr_disable env_accept init_state = (0, init_state)) :=
  ⟨rfl, rfl, toggle_idempotent env_accept [] st_two_units init_state rfl rfl⟩

/-! ## A failed attach pass and its rollback -/

theorem detach_not_enabled (env : Env) (f : kedr_func) (tr : Trace)
    (h : f.state ≠ KEDR_FUNC_ENABLED) :
    kedr_func_detach env f tr = (-EINVAL, f, tr) := by
  simp [kedr_func_detach, h]

theorem neg_EINVAL_ne_zero : (-EINVAL : Int) ≠ 0 := by decide

theorem attach_fail_unchanged (env : Env) (f : kedr_func) (tr : Trace)
    (h : (kedr_func_attach env f tr).1 ≠ 0) :
    (kedr_func_attach env f tr).2.1 = f := by
  unfold kedr_func_attach at h ⊢
  split
  · rfl
  · simp only
    split
    · rfl
    · split
      · rfl
      · split
        · rfl
        · rename_i h1 h2 h3 h4
          simp [h1, h2, h3, h4] at h

theorem attach_funcs_fail (env : Env) (fs : List kedr_func) (tr : Trace)
    (h : (kedr_attach_funcs env fs tr).1 ≠ 0) :
    ∃ f ∈ (kedr_attach_funcs env fs tr).2.1, f.state = KEDR_FUNC_DISABLED := by
  induction fs generalizing tr with
  | nil => simp [kedr_attach_funcs] at h
  | cons f fs ih =>
    by_cases hs : f.state = KEDR_FUNC_DISABLED
    · by_cases ha : (kedr_func_attach env f tr).1 = 0
      · simp only [kedr_attach_funcs, hs, ne_eq, not_true_eq_false, if_false, ha] at h ⊢
        obtain ⟨g, hg, hgs⟩ := ih _ h
        exact ⟨g, List.mem_cons_of_mem _ hg, hgs⟩
      · have hu := attach_fail_unchanged env f tr ha
        simp only [kedr_attach_funcs, hs, ne_eq, not_true_eq_false, if_false, ha,
          not_false_eq_true, if_true]
        exact ⟨f, by simp [hu], hs⟩
    · simp only [kedr_attach_funcs, hs, ne_eq, not_false_eq_true, if_true] at h ⊢
      obtain ⟨g, hg, hgs⟩ := ih _ h
      exact ⟨g, List.mem_cons_of_mem _ hg, hgs⟩

theorem cleanup_funcs_keeps (env : Env) (fs : List kedr_func) (tr : Trace)
    (h : ∃ f ∈ fs, f.state = KEDR_FUNC_DISABLED) :
    (kedr_cleanup_funcs env fs tr).1 ≠ 0 ∧
      ∃ f ∈ (kedr_cleanup_funcs env fs tr).2.1, f.state = KEDR_FUNC_DISABLED := by
  induction fs generalizing tr with
  | nil => simp at h
  | cons f fs ih =>
    obtain ⟨g, hg, hgs⟩ := h
    by_cases hs : f.state = KEDR_FUNC_DISABLED
    · have hd := detach_not_enabled env f tr (by simp [hs])
      simp only [kedr_cleanup_funcs, hd, ne_eq, neg_EINVAL_ne_zero, not_false_eq_true, if_true]
      exact ⟨trivial, f, by simp, hs⟩
    · have hgin : g ∈ fs := by
        rcases List.mem_cons.mp hg with rfl | hin
        · exact absurd hgs hs
        · exact hin
      by_cases hd : (kedr_func_detach env f tr).1 = 0
      · simp only [kedr_cleanup_funcs, hd, ne_eq, not_true_eq_false, if_false]
        exact ih _ ⟨g, hgin, hgs⟩
      · simp only [kedr_cleanup_funcs, hd, ne_eq, not_false_eq_true, if_true]
        exact ⟨trivial, g, List.mem_cons_of_mem _ hgin, hgs⟩

theorem destroy_all_keeps (env : Env) (objs : List kedr_object) (tr : Trace)
    (h : ∃ o ∈ objs, ∃ f ∈ o.funcs, f.state = KEDR_FUNC_DISABLED) :
    (kedr_destroy_all_objects env objs tr).1 ≠ 0 ∧
      ∃ o ∈ (kedr_destroy_all_objects env objs tr).2.1,
        ∃ f ∈ o.funcs, f.state = KEDR_FUNC_DISABLED := by
  induction objs generalizing tr with
  | nil => simp at h
  | cons o os ih =>
    obtain ⟨p, hp, hpf⟩ := h
    by_cases hc : (kedr_cleanup_funcs env o.funcs tr).1 = 0
    · have hpin : p ∈ os := by
        rcases List.mem_cons.mp hp with rfl | hin
        · exact absurd hc (cleanup_funcs_keeps env _ tr hpf).1
        · exact hin
      simp only [kedr_destroy_all_objects, kedr_cleanup_object, hc, ne_eq, not_true_eq_false,
        if_false]
      exact ih _ ⟨p, hpin, hpf⟩
    · simp only [kedr_destroy_all_objects, kedr_cleanup_object, hc, ne_eq, not_false_eq_true,
        if_true]
      refine ⟨trivial, ?_⟩
      rcases List.mem_cons.mp hp with rfl | hin
      · exact ⟨_, List.mem_cons_self _ _, (cleanup_funcs_keeps env _ tr hpf).2⟩
      · exact ⟨p, List.mem_cons_of_mem _ hin, hpf⟩

theorem attach_objects_fail (env : Env) (objs : List kedr_object) (tr : Trace)
    (h : (kedr_attach_objects env objs tr).1 ≠ 0) :
    ∃ o ∈ (kedr_attach_objects env objs tr).2.1,
      ∃ f ∈ o.funcs, f.state = KEDR_FUNC_DISABLED := by
  induction objs generalizing tr with
  | nil => simp [kedr_attach_objects] at h
  | cons o os ih =>
    by_cases ha : (kedr_attach_funcs env o.funcs tr).1 = 0
    · simp only [kedr_attach_objects, kedr_attach_all_for_object, ha, ne_eq,
        not_true_eq_false, if_false] at h ⊢
      obtain ⟨p, hp, hpf⟩ := ih _ h
      exact ⟨p, List.mem_cons_of_mem _ hp, hpf⟩
    · simp only [kedr_attach_objects, kedr_attach_all_for_object, ha, ne_eq,
        not_false_eq_true, if_true]
      exact ⟨_, List.mem_cons_self _ _, attach_funcs_fail env _ tr ha⟩

theorem find_object_some (objs : List kedr_object) (m : Module) (i : Nat)
    (h : kedr_find_object objs m = some i) :
    ∃ o, objs[i]? = some o ∧ o.mod = m := by
  induction objs generalizing i with
  | nil => simp [kedr_find_object] at h
  | cons o os ih =>
    simp only [kedr_find_object] at h
    split at h
    · rename_i hm
      cases h
      exact ⟨o, by simp, hm⟩
    · cases hr : kedr_find_object os m with
      | none => simp [hr] at h
      | some j =>
        simp only [hr, Option.map_some] at h
        cases h
        obtain ⟨p, hp, hpm⟩ := ih j hr
        exact ⟨p, by simpa using hp, hpm⟩

theorem find_object_set (objs : List kedr_object) (m : Module) (i : Nat)
    (o o1 : kedr_object) (hget : objs[i]? = some o) (hmod : o1.mod = o.mod) :
    kedr_find_object (objs.set i o1) m = kedr_find_object objs m := by
  induction objs generalizing i with
  | nil => simp at hget
  | cons p ps ih =>
    cases i with
    | zero =>
      simp only [List.getElem?_cons_zero, Option.some.injEq] at hget
      subst hget
      simp [kedr_find_object, hmod]
    | succ j =>
      simp only [List.getElem?_cons_succ] at hget
      simp only [List.set_cons_succ, kedr_find_object, ih j hget]

theorem getElem_set_same (objs : List kedr_object) (i : Nat) (o o1 : kedr_object)
    (hget : objs[i]? = some o) : (objs.set i o1)[i]? = some o1 := by
  induction objs generalizing i with
  | nil => simp at hget
  | cons p ps ih =>
    cases i with
    | zero => simp
    | succ j =>
      simp only [List.getElem?_cons_succ] at hget
      simpa using ih j hget

theorem rollback_keeps_unit (env : Env) (m : Nat) (st : State) (i : Nat) (obj : kedr_object)
    (hfind : kedr_find_object st.kedr_objects (some m) = some i)
    (hobj : st.kedr_objects[i]? = some obj)
    (hdis : ∃ f ∈ obj.funcs, f.state = KEDR_FUNC_DISABLED) :
    (kedr_detach_handlers env (some m) st).1 ≠ 0 ∧
      ∃ obj1, kedr_find_object (kedr_detach_handlers env (some m) st).2.kedr_objects (some m)
          = some i ∧
        (kedr_detach_handlers env (some m) st).2.kedr_objects[i]? = some obj1 ∧
        ∃ f ∈ obj1.funcs, f.state = KEDR_FUNC_DISABLED := by
  obtain ⟨hne, hkeep⟩ := cleanup_funcs_keeps env obj.funcs st.trace hdis
  simp only [kedr_detach_handlers, hfind, hobj, kedr_cleanup_object, hne, ne_eq,
    not_false_eq_true, if_true, reduceCtorEq, if_false]
  refine ⟨trivial, _, ?_, getElem_set_same _ _ _ _ hobj, hkeep⟩
  exact (find_object_set _ (some m) i obj
    { mod := obj.mod, funcs := (kedr_cleanup_funcs env obj.funcs st.trace).2.1 }
    hobj rfl).trans hfind

theorem attach_step_fail (env : Env) (m : Nat) (st : State)
    (h : (kedr_attach_step env (some m) st).1 ≠ 0) :
    ∃ i obj, kedr_find_object (kedr_attach_step env (some m) st).2.kedr_objects (some m)
        = some i ∧
      (kedr_attach_step env (some m) st).2.kedr_objects[i]? = some obj ∧
      ∃ f ∈ obj.funcs, f.state = KEDR_FUNC_DISABLED := by
  cases hf : kedr_find_object st.kedr_objects (some m) with
  | none => simp [kedr_attach_step, hf] at h
  | some i =>
    obtain ⟨o, ho, _⟩ := find_object_some _ _ _ hf
    simp only [kedr_attach_step, hf, ho, kedr_attach_all_for_object, ne_eq, reduceCtorEq,
      not_false_eq_true, if_true] at h ⊢
    refine ⟨i, _, ?_, getElem_set_same _ _ _ _ ho, attach_funcs_fail env _ _ h⟩
    exact (find_object_set _ (some m) i o
      { mod := o.mod, funcs := (kedr_attach_funcs env o.funcs st.trace).2.1 }
      ho rfl).trans hf

/-- C1 (what the code does): when `kedr_attach_handlers(mod)` for a module
without a prior object fails in its attach step (the module mutex was
acquired and the scan of the symbols succeeded), the rollback leaves the
object of the module in `kedr_objects`, and that object still holds a
function record in state DISABLED: `kedr_cleanup_object` stops at the record
that failed to attach, so the object is never unlinked. -/
theorem attach_failure_keeps_unit_record (env : Env) (syms : List Symbol) (m : Nat)
    (st : State)
    (hnew : kedr_find_object st.kedr_objects (some m) = none)
    (hlock : env st.trace (Call.mutex_lock_killable Lock.module_mutex) = 0)
    (hscan : (kallsyms_on_each_symbol (kedr_kallsyms_callback env (some m)) (some m) syms
        { st with trace := st.trace ++
            [(Call.mutex_lock_killable Lock.module_mutex, 0)] }).1 = 0)
    (hfail : (kedr_attach_handlers env syms (some m) st).1 ≠ 0) :
    ∃ i obj,
      kedr_find_object (kedr_attach_handlers env syms (some m) st).2.kedr_objects (some m)
        = some i ∧
      (kedr_attach_handlers env syms (some m) st).2.kedr_objects[i]? = some obj ∧
      ∃ f ∈ obj.funcs, f.state = KEDR_FUNC_DISABLED := by
  simp only [kedr_attach_handlers, hnew, extcall, hlock, hscan, ne_eq, Option.isSome_none,
    Bool.false_eq_true, and_false, if_false, not_true_eq_false] at hfail ⊢
  split at hfail
  · rename_i h2
    simp only [h2, not_false_eq_true, if_true]
    obtain ⟨i, obj, hfind, hobj, hdis⟩ := attach_step_fail env m _ h2
    obtain ⟨_, obj1, hfind1, hobj1, hdis1⟩ := rollback_keeps_unit env m _ i obj hfind hobj hdis
    exact ⟨i, obj1, hfind1, hobj1, hdis1⟩
  · rename_i h2
    exact absurd hfail h2

/-- C1 at a module with two stubs (n = 2) where the second function in list
order fails to register (k = 2): the first function is detached and
destroyed, but the object of the module stays in `kedr_objects` with the
function that failed to attach. -/
theorem attach_failure_keeps_unit_record_witness :
    (kedr_attach_handlers env_second_register_fails syms_mod7 (some 7) init_state).1 = -22 ∧
      (kedr_attach_handlers env_second_register_fails syms_mod7 (some 7)
          init_state).2.kedr_objects =
        [{ mod := some 7,
           funcs := [{ ops := 3, handler := Handler.kedr_handle_alloc, addr := 4096,
                       state := KEDR_FUNC_DISABLED }] }] ∧
      ∃ i obj,
        kedr_find_object (kedr_attach_handlers env_second_register_fails syms_mod7 (some 7)
            init_state).2.kedr_objects (some 7) = some i ∧
        (kedr_attach_handlers env_second_register_fails syms_mod7 (some 7)
            init_state).2.kedr_objects[i]? = some obj ∧
        ∃ f ∈ obj.funcs, f.state = KEDR_FUNC_DISABLED :=
  ⟨by decide, by decide,
    attach_failure_keeps_unit_record env_second_register_fails syms_mod7 7 init_state
      (by decide) (by decide) (by decide) (by decide)⟩

theorem create_func_of_alloc (env : Env) (hmem : ∀ tr, env tr Call.kzalloc ≠ 0)
    (handler : Handler) (addr : Nat) (tr : Trace) :
    kedr_create_func env handler addr tr =
      (some { ops := env tr Call.kzalloc, handler := handler, addr := addr,
              state := KEDR_FUNC_DISABLED },
        tr ++ [(Call.kzalloc, env tr Call.kzalloc)] ++
          [(Call.kzalloc, env (tr ++ [(Call.kzalloc, env tr Call.kzalloc)]) Call.kzalloc)]) := by
  simp [kedr_create_func, extcall, hmem]

theorem create_object_of_alloc (env : Env) (hmem : ∀ tr, env tr Call.kzalloc ≠ 0)
    (mod : Module) (st : State) :
    kedr_create_object env mod st =
      (some 0, { st with kedr_objects := { mod := mod, funcs := [] } :: st.kedr_objects,
                         trace := st.trace ++ [(Call.kzalloc, env st.trace Call.kzalloc)] }) := by
  simp [kedr_create_object, extcall, hmem]

theorem callback_ok_of_alloc (env : Env) (hmem : ∀ tr, env tr Call.kzalloc ≠ 0)
    (data : Module) (name : CStr) (mod : Module) (addr : Nat) (st : State) :
    (kedr_kallsyms_callback env data name mod addr st).1 = 0 := by
  unfold kedr_kallsyms_callback
  split
  · rfl
  · split
    · rfl
    · split
      · rfl
      · split
        · simp [kedr_callback_add_func, create_func_of_alloc env hmem]
        · simp [kedr_callback_add_func, create_func_of_alloc env hmem,
            create_object_of_alloc env hmem]

theorem kallsyms_loop_ok_of_alloc (env : Env) (hmem : ∀ tr, env tr Call.kzalloc ≠ 0)
    (data : Module) (syms : List Symbol) (st : State) :
    (kallsyms_loop (kedr_kallsyms_callback env data) syms st).1 = 0 := by
  induction syms generalizing st with
  | nil => rfl
  | cons s rest ih =>
    simp only [kallsyms_loop, callback_ok_of_alloc env hmem, ne_eq, not_true_eq_false,
      if_false]
    exact ih _

theorem attach_handlers_all_fail (env : Env) (syms : List Symbol) (st : State)
    (hfail : (kedr_attach_handlers env syms none st).1 ≠ 0)
    (hlock : env st.trace (Call.mutex_lock_killable Lock.module_mutex) = 0)
    (hscan : (kallsyms_loop (kedr_kallsyms_callback env none) syms
        { st with trace := st.trace ++
            [(Call.mutex_lock_killable Lock.module_mutex, 0)] }).1 = 0) :
    ∃ o ∈ (kedr_attach_handlers env syms none st).2.kedr_objects,
      ∃ f ∈ o.funcs, f.state = KEDR_FUNC_DISABLED := by
  simp only [kedr_attach_handlers, extcall, hlock, kallsyms_on_each_symbol, hscan, ne_eq,
    not_true_eq_false, false_and, if_false] at hfail ⊢
  split at hfail
  · rename_i h2
    simp only [h2, not_false_eq_true, if_true]
    simp only [kedr_attach_step, ne_eq, not_true_eq_false, if_false] at h2 ⊢
    have hd := attach_objects_fail env _ _ h2
    simp only [kedr_detach_handlers, if_true]
    exact (destroy_all_keeps env _ _ hd).2
  · rename_i h2
    exact absurd hfail h2

theorem create_object_enabled (env : Env) (mod : Module) (st : State) :
    (kedr_create_object env mod st).2.kedr_enabled = st.kedr_enabled := by
  simp only [kedr_create_object, extcall]
  split <;> rfl

theorem callback_add_func_enabled (env : Env) (handler : Handler) (addr : Nat) (i : Nat)
    (st : State) :
    (kedr_callback_add_func env handler addr i st).2.kedr_enabled = st.kedr_enabled := by
  unfold kedr_callback_add_func
  split <;> rfl

theorem callback_enabled (env : Env) (data : Module) (name : CStr) (mod : Module)
    (addr : Nat) (st : State) :
    (kedr_kallsyms_callback env data name mod addr st).2.kedr_enabled = st.kedr_enabled := by
  unfold kedr_kallsyms_callback
  split
  · rfl
  · split
    · rfl
    · split
      · rfl
      · split
        · exact callback_add_func_enabled _ _ _ _ _
        · have hc := create_object_enabled env mod st
          split
          · rename_i heq
            rw [heq] at hc
            exact hc
          · rename_i heq
            rw [heq] at hc
            rw [callback_add_func_enabled]
            exact hc

theorem kallsyms_loop_enabled (env : Env) (data : Module) (syms : List Symbol) (st : State) :
    (kallsyms_loop (kedr_kallsyms_callback env data) syms st).2.kedr_enabled
      = st.kedr_enabled := by
  induction syms generalizing st with
  | nil => rfl
  | cons s rest ih =>
    simp only [kallsyms_loop]
    split
    · exact callback_enabled env data _ _ _ st
    · rw [ih]
      exact callback_enabled env data _ _ _ st

theorem detach_handlers_enabled (env : Env) (mod : Module) (st : State) :
    (kedr_detach_handlers env mod st).2.kedr_enabled = st.kedr_enabled := by
  unfold kedr_detach_handlers
  split
  · rfl
  · split
    · rfl
    · split
      · rfl
      · simp only
        split <;> rfl

theorem attach_step_enabled (env : Env) (mod : Module) (st : State) :
    (kedr_attach_step env mod st).2.kedr_enabled = st.kedr_enabled := by
  unfold kedr_attach_step
  split
  · split
    · rfl
    · split <;> rfl
  · rfl

theorem attach_handlers_enabled (env : Env) (syms : List Symbol) (mod : Module) (st : State) :
    (kedr_attach_handlers env syms mod st).2.kedr_enabled = st.kedr_enabled := by
  unfold kedr_attach_handlers
  split
  · rfl
  · simp only [extcall]
    split
    · rfl
    · simp only [kallsyms_on_each_symbol]
      split
      · simp [kallsyms_loop_enabled]
      · split
        · rw [detach_handlers_enabled, attach_step_enabled]
          simp [kallsyms_loop_enabled]
        · rw [attach_step_enabled]
          simp [kallsyms_loop_enabled]

/-- C3 (what the code does): when `kedr_enable`, called with `kedr_enabled`
clear, fails although every lock was acquired, the reference to the module
was taken and every allocation succeeded (so the failure is that of a
function that did not attach), `kedr_enabled` is still clear but
`kedr_objects` is not unwound: it still holds an object with a function
record in state DISABLED. -/
theorem enable_failure_keeps_records (env : Env) (syms : List Symbol) (st : State)
    (hoff : st.kedr_enabled = false)
    (hlock : ∀ tr l, env tr (Call.mutex_lock_killable l) = 0)
    (href : ∀ tr, env tr Call.try_module_get ≠ 0)
    (hmem : ∀ tr, env tr Call.kzalloc ≠ 0)
    (hfail : (kedr_enable env syms st).1 ≠ 0) :
    (kedr_enable env syms st).2.kedr_enabled = false ∧
      ∃ o ∈ (kedr_enable env syms st).2.kedr_objects,
        ∃ f ∈ o.funcs, f.state = KEDR_FUNC_DISABLED := by
  simp only [kedr_enable, extcall, hlock, hoff, href, ne_eq, not_true_eq_false, if_false,
    Bool.false_eq_true] at hfail ⊢
  split at hfail
  · rename_i h1
    simp only [h1, not_false_eq_true, if_true]
    refine ⟨?_, attach_handlers_all_fail env syms _ h1 (hlock _ _)
      (kallsyms_loop_ok_of_alloc env hmem _ _ _)⟩
    rw [attach_handlers_enabled]
  · rename_i h1
    exact absurd hfail h1

/-- C3 at the initial state: the only stub of the symbol space fails to
register.  `kedr_enable` fails, `kedr_enabled` stays clear, and the object
with its function record (state DISABLED) stays in `kedr_objects`. -/
theorem enable_failure_keeps_records_witness :
    (kedr_enable env_reject_register syms_mod7 init_state).1 = -22 ∧
      (kedr_enable env_reject_register syms_mod7 init_state).2.kedr_objects =
        [{ mod := some 7,
           funcs := [{ ops := 1, handler := Handler.kedr_handle_free, addr := 8192,
                       state := KEDR_FUNC_DISABLED },
                     { ops := 1, handler := Handler.kedr_handle_alloc, addr := 4096,
                       state := KEDR_FUNC_DISABLED }] }] ∧
      ((kedr_enable env_reject_register syms_mod7 init_state).2.kedr_enabled = false ∧
        ∃ o ∈ (kedr_enable env_reject_register syms_mod7 init_state).2.kedr_objects,
          ∃ f ∈ o.funcs, f.state = KEDR_FUNC_DISABLED) :=
  ⟨by decide, by decide,
    enable_failure_keeps_records env_reject_register syms_mod7 init_state rfl
      (fun _ _ => rfl) (fun _ => by simp [env_reject_register])
      (fun _ => by simp [env_reject_register]) (by decide)⟩

/-! ## A module goes away -/

theorem cleanup_funcs_enabled (env : Env) (fs : List kedr_func) (tr : Trace)
    (hfs : ∀ f ∈ fs, f.state = KEDR_FUNC_ENABLED ∧ f.addr ≠ 0)
    (hunreg : ∀ t ops, env t (Call.unregister_ftrace_function ops) = 0)
    (hrem : ∀ t ops ip, env t (Call.ftrace_set_filter_ip ops ip 1 0) = 0) :
    kedr_cleanup_funcs env fs tr = (0, [], tr ++ detach_log fs) := by
  induction fs generalizing tr with
  | nil => simp [kedr_cleanup_funcs, detach_log]
  | cons f fs ih =>
    obtain ⟨hs, ha⟩ := hfs f (List.mem_cons_self _ _)
    have hd : kedr_func_detach env f tr =
        (0, { f with state := KEDR_FUNC_UNREGISTERED },
          tr ++ [(Call.unregister_ftrace_function f.ops, 0)] ++
            [(Call.ftrace_set_filter_ip f.ops f.addr 1 0, 0)]) := by
      simp [kedr_func_detach, kedr_get_ftrace_location, extcall, hs, ha, hunreg, hrem]
    simp only [kedr_cleanup_funcs, hd, ne_eq, not_true_eq_false, if_false]
    rw [ih _ (fun g hg => hfs g (List.mem_cons_of_mem _ hg))]
    simp [detach_log]

theorem find_object_nodup (objs : List kedr_object) (m : Module) (obj1 : kedr_object)
    (hnodup : (objs.map (fun o => o.mod)).Nodup) (hmem : obj1 ∈ objs) (hmod : obj1.mod = m) :
    ∃ i, kedr_find_object objs m = some i ∧ objs[i]? = some obj1 ∧
      objs.eraseIdx i = objs.filter (fun o => decide (o.mod ≠ m)) := by
  induction objs with
  | nil => simp at hmem
  | cons p ps ih =>
    simp only [List.map_cons, List.nodup_cons, List.mem_map, not_exists, not_and] at hnodup
    obtain ⟨hp, hps⟩ := hnodup
    by_cases hpm : p.mod = m
    · have hpe : obj1 = p := by
        rcases List.mem_cons.mp hmem with h | h
        · exact h
        · exact absurd (hmod.trans hpm.symm) (hp obj1 h)
      refine ⟨0, by simp [kedr_find_object, hpm], by simp [hpe], ?_⟩
      have hall : ∀ o ∈ ps, decide (o.mod ≠ m) = true := by
        intro o ho
        have := hp o ho
        simp only [ne_eq, decide_not, Bool.not_eq_true', decide_eq_false_iff_not]
        rw [← hpm]
        exact this
      simp only [List.eraseIdx_cons_zero]
      rw [List.filter_cons_of_neg (by simp [hpm])]
      exact (List.filter_eq_self.mpr hall).symm
    · have hin : obj1 ∈ ps := by
        rcases List.mem_cons.mp hmem with h | h
        · exact absurd (h ▸ hmod) hpm
        · exact h
      obtain ⟨i, hfind, hget, her⟩ := ih hps hin
      refine ⟨i + 1, by simp [kedr_find_object, hpm, hfind], by simpa using hget, ?_⟩
      simp only [List.eraseIdx_cons_succ, her]
      rw [List.filter_cons_of_pos (by simp [hpm])]

theorem find_object_filter_ne (objs : List kedr_object) (m : Module) :
    kedr_find_object (objs.filter (fun o => decide (o.mod ≠ m))) m = none := by
  induction objs with
  | nil => rfl
  | cons p ps ih =>
    by_cases hpm : p.mod = m
    · rw [List.filter_cons_of_neg (by simp [hpm])]
      exact ih
    · rw [List.filter_cons_of_pos (by simp [hpm])]
      simp only [kedr_find_object, hpm, if_false, ih, Option.map_none']

/-- C6: in an enabled registry without two objects of the same module, let
`obj1` be the object of the module `m1` (not THIS_MODULE), all of whose
functions are attached (state ENABLED, non-zero address), and let ftrace
accept unregistering and removing a filter.  Then the notification
MODULE_STATE_GOING for `m1` returns 0; afterwards `kedr_objects` is the old
list without `obj1`, every other object (in particular that of a second
module, with its functions and their states) being unchanged and still in
the list; no object for `m1` is found any more; `kedr_enabled` is unchanged;
and the calls made are exactly the unregister and filter removal of each
function of `obj1`, in list order. -/
theorem going_removes_only_unit (env : Env) (this_module : Module) (syms : List Symbol)
    (st : State) (m1 : Nat) (obj1 : kedr_object)
    (hen : st.kedr_enabled = true)
    (hthis : some m1 ≠ this_module)
    (hnodup : (st.kedr_objects.map (fun o => o.mod)).Nodup)
    (hmem : obj1 ∈ st.kedr_objects) (hmod : obj1.mod = some m1)
    (hfuncs : ∀ f ∈ obj1.funcs, f.state = KEDR_FUNC_ENABLED ∧ f.addr ≠ 0)
    (hunreg : ∀ t ops, env t (Call.unregister_ftrace_function ops) = 0)
    (hrem : ∀ t ops ip, env t (Call.ftrace_set_filter_ip ops ip 1 0) = 0) :
    kedr_module_notify env this_module syms MODULE_STATE_GOING (some m1) st =
        (0, { st with
                kedr_objects := st.kedr_objects.filter (fun o => decide (o.mod ≠ some m1)),
                trace := st.trace ++ detach_log obj1.funcs }) ∧
      kedr_find_object
        (kedr_module_notify env this_module syms MODULE_STATE_GOING (some m1)
          st).2.kedr_objects (some m1) = none ∧
      ∀ obj2 ∈ st.kedr_objects, obj2.mod ≠ some m1 →
        obj2 ∈ (kedr_module_notify env this_module syms MODULE_STATE_GOING (some m1)
          st).2.kedr_objects := by
  obtain ⟨i, hfind, hget, her⟩ := find_object_nodup _ _ _ hnodup hmem hmod
  have hmain : kedr_module_notify env this_module syms MODULE_STATE_GOING (some m1) st =
      (0, { st with
              kedr_objects := st.kedr_objects.filter (fun o => decide (o.mod ≠ some m1)),
              trace := st.trace ++ detach_log obj1.funcs }) := by
    simp [kedr_module_notify, hthis, hen, MODULE_STATE_GOING, MODULE_STATE_COMING,
      MODULE_STATE_LIVE, kedr_detach_handlers, hfind, hget, kedr_cleanup_object,
      cleanup_funcs_enabled env _ _ hfuncs hunreg hrem, her]
  rw [hmain]
  refine ⟨rfl, find_object_filter_ne _ _, ?_⟩
  intro obj2 h2 hne
  simp only [List.mem_filter]
  exact ⟨h2, by simp [hne]⟩

/-- C6 at the registry with the objects of modules 1 and 2: module 1 goes. -/
theorem going_removes_only_unit_witness :
    kedr_module_notify env_accept (some 99) [] MODULE_STATE_GOING (some 1) st_two_units =
        (0, { st_two_units with
                kedr_objects :=
                  st_two_units.kedr_objects.filter (fun o => decide (o.mod ≠ some 1)),
                trace := st_two_units.trace ++
                  detach_log ({ mod := some 1, funcs := [func_enabled] } : kedr_object).funcs }) ∧
      kedr_find_object
        (kedr_module_notify env_accept (some 99) [] MODULE_STATE_GOING (some 1)
          st_two_units).2.kedr_objects (some 1) = none ∧
      ∀ obj2 ∈ st_two_units.kedr_objects, obj2.mod ≠ some 1 →
        obj2 ∈ (kedr_module_notify env_accept (some 99) [] MODULE_STATE_GOING (some 1)
          st_two_units).2.kedr_objects :=
  going_removes_only_unit env_accept (some 99) [] st_two_units 1
    { mod := some 1, funcs := [func_enabled] } rfl (by decide) (by decide) (by decide) rfl
    (by decide) (fun _ _ => rfl) (fun _ _ _ => rfl)

/-! ## Discovery -/

theorem find_loop_of_take (pre name : CStr) (tbl : List kedr_handler_table_item)
    (htake : name.take pre.length = pre) :
    find_handler_loop (name.drop pre.length) tbl =
      (tbl.find? (fun item => decide (name = pre ++ item.event_name))).map
        (fun item => item.handler) := by
  have hname : name = pre ++ name.drop pre.length := by
    conv_lhs => rw [← List.take_append_drop pre.length name, htake]
  induction tbl with
  | nil => rfl
  | cons it rest ih =>
    by_cases hev : name.drop pre.length = it.event_name
    · have : name = pre ++ it.event_name := by rw [← hev]; exact hname
      simp [find_handler_loop, strcmp_eq, hev, List.find?_cons, ← this]
    · have : ¬ name = pre ++ it.event_name := by
        intro hc
        apply hev
        have h2 : pre ++ name.drop pre.length = pre ++ it.event_name := hname ▸ hc
        exact List.append_cancel_left h2
      simp only [find_handler_loop, strcmp_eq, hev, decide_False, Bool.false_eq_true, if_false,
        List.find?_cons, this, ih]

theorem find_none_of_take (pre name : CStr) (tbl : List kedr_handler_table_item)
    (htake : name.take pre.length ≠ pre) :
    tbl.find? (fun item => decide (name = pre ++ item.event_name)) = none := by
  rw [List.find?_eq_none]
  intro it _
  simp only [decide_eq_true_eq]
  intro hc
  apply htake
  rw [hc]
  simp

theorem code_match_eq (name : CStr) :
    (if strncmp_eq name ( stub_prefix) prefix_len then find_handler (name.drop prefix_len)
      else none) = expected_handler name := by
  have hp : ( stub_prefix).take prefix_len = stub_prefix := by
    simp [prefix_len]
  by_cases htake : name.take prefix_len = stub_prefix
  · have h1 : strncmp_eq name ( stub_prefix) prefix_len = true := by
      simp [strncmp_eq, hp, htake]
    rw [if_pos h1]
    exact find_loop_of_take ( stub_prefix) name handler_table htake
  · have h1 : ¬ strncmp_eq name ( stub_prefix) prefix_len = true := by
      simp [strncmp_eq, hp, htake]
    rw [if_neg h1]
    unfold expected_handler
    rw [find_none_of_take ( stub_prefix) name handler_table htake]
    rfl

theorem callback_add_func_effect (env : Env) (handler : Handler) (addr : Nat) (i : Nat)
    (st : State) (h0 : (kedr_callback_add_func env handler addr i st).1 = 0) :
    ∃ f, func_view f = (addr, handler, KEDR_FUNC_DISABLED) ∧
      (kedr_callback_add_func env handler addr i st).2.kedr_objects =
        modifyAt (fun o => { o with funcs := f :: o.funcs }) st.kedr_objects i := by
  by_cases hp : env st.trace Call.kzalloc = 0
  · simp [kedr_callback_add_func, kedr_create_func, extcall, hp, ENOMEM] at h0
  · by_cases hi : env (st.trace ++ [(Call.kzalloc, env st.trace Call.kzalloc)]) Call.kzalloc = 0
    · simp [kedr_callback_add_func, kedr_create_func, extcall, hp, hi, ENOMEM] at h0
    · simp only [kedr_callback_add_func, kedr_create_func, extcall, hp, hi, if_false]
      exact ⟨{ ops := env st.trace Call.kzalloc, handler := handler, addr := addr,
               state := KEDR_FUNC_DISABLED }, rfl, rfl⟩

theorem callback_effect (env : Env) (data : Module) (s : Symbol) (st : State)
    (h0 : (kedr_kallsyms_callback env data s.name s.mod s.addr st).1 = 0) :
    match expected_one data s with
    | none =>
      (kedr_kallsyms_callback env data s.name s.mod s.addr st).2.kedr_objects
        = st.kedr_objects
    | some v =>
      ∃ f, func_view f = v ∧
        (kedr_kallsyms_callback env data s.name s.mod s.addr st).2.kedr_objects
          = registry_add st.kedr_objects s.mod f := by
  have hm := code_match_eq s.name
  unfold expected_one in_scope
  unfold kedr_kallsyms_callback at h0 ⊢
  by_cases hsc : data ≠ none ∧ data ≠ s.mod
  · have : ¬ (data = none ∨ data = s.mod) := by
      intro hc
      rcases hc with hc | hc
      · exact hsc.1 hc
      · exact hsc.2 hc
    simp [hsc, this]
  · have hin : data = none ∨ data = s.mod := by
      by_cases hd : data = none
      · exact Or.inl hd
      · by_cases hd2 : data = s.mod
        · exact Or.inr hd2
        · exact absurd ⟨hd, hd2⟩ hsc
    simp only [hsc, if_false, hin, decide_True, if_true] at h0 ⊢
    by_cases hpre : strncmp_eq s.name ( stub_prefix) prefix_len = true
    · rw [if_pos hpre] at hm
      simp only [hpre, not_true_eq_false, if_false] at h0 ⊢
      rw [← hm]
      cases hh : find_handler (List.drop prefix_len s.name) with
      | none => simp
      | some handler =>
        simp only [hh, Option.map_some'] at h0 ⊢
        cases hf : kedr_find_object st.kedr_objects s.mod with
        | some i =>
          simp only [hf] at h0 ⊢
          obtain ⟨f, hv, hobjs⟩ := callback_add_func_effect env handler s.addr i st h0
          exact ⟨f, hv, by simp [registry_add, hf, hobjs]⟩
        | none =>
          simp only [hf] at h0 ⊢
          by_cases hk : env st.trace Call.kzalloc = 0
          · simp [kedr_create_object, extcall, hk, ENOMEM] at h0
          · simp only [kedr_create_object, extcall, hk, ne_eq, not_false_eq_true,
              if_true] at h0 ⊢
            obtain ⟨f, hv, hobjs⟩ := callback_add_func_effect env handler s.addr 0 _ h0
            exact ⟨f, hv, by simp [registry_add, hf, hobjs, modifyAt]⟩
    · rw [if_neg hpre] at hm
      simp [hpre, ← hm]

theorem find_object_none (objs : List kedr_object) (m : Module)
    (h : kedr_find_object objs m = none) :
    funcs_of objs m = [] ∧ m ∉ objs.map (fun o => o.mod) := by
  induction objs with
  | nil => simp [funcs_of]
  | cons p ps ih =>
    by_cases hpm : p.mod = m
    · simp [kedr_find_object, hpm] at h
    · simp only [kedr_find_object, hpm, if_false, Option.map_eq_none'] at h
      obtain ⟨h1, h2⟩ := ih h
      refine ⟨by simp [funcs_of, hpm, h1], ?_⟩
      simp only [List.map_cons, List.mem_cons, not_or]
      exact ⟨fun hc => hpm hc.symm, h2⟩

theorem funcs_of_modifyAt (objs : List kedr_object) (mod m : Module) (i : Nat) (f : kedr_func)
    (hfind : kedr_find_object objs mod = some i) :
    funcs_of (modifyAt (fun o => { o with funcs := f :: o.funcs }) objs i) m =
      if mod = m then f :: funcs_of objs m else funcs_of objs m := by
  induction objs generalizing i with
  | nil => simp [kedr_find_object] at hfind
  | cons p ps ih =>
    by_cases hpm : p.mod = mod
    · simp only [kedr_find_object, hpm, if_true, Option.some.injEq] at hfind
      subst hfind
      by_cases hm : mod = m
      · simp [modifyAt, funcs_of, hpm, hm]
      · simp [modifyAt, funcs_of, hpm, hm]
    · simp only [kedr_find_object, hpm, if_false] at hfind
      cases hr : kedr_find_object ps mod with
      | none => simp [hr] at hfind
      | some j =>
        simp only [hr, Option.map_some', Option.some.injEq] at hfind
        subst hfind
        simp only [modifyAt, funcs_of]
        by_cases hp2 : p.mod = m
        · have : ¬ mod = m := fun hc => hpm (hp2.trans hc.symm)
          simp [hp2, this]
        · simp only [hp2, if_false]
          exact ih j hr

theorem map_mod_modifyAt (objs : List kedr_object) (i : Nat) (f : kedr_func) :
    (modifyAt (fun o => { o with funcs := f :: o.funcs }) objs i).map (fun o => o.mod) =
      objs.map (fun o => o.mod) := by
  induction objs generalizing i with
  | nil => rfl
  | cons p ps ih =>
    cases i with
    | zero => rfl
    | succ j => simp [modifyAt, ih j]

theorem nonempty_modifyAt (objs : List kedr_object) (i : Nat) (f : kedr_func)
    (hne : ∀ o ∈ objs, o.funcs ≠ []) :
    ∀ o ∈ modifyAt (fun o => { o with funcs := f :: o.funcs }) objs i, o.funcs ≠ [] := by
  induction objs generalizing i with
  | nil => simp [modifyAt]
  | cons p ps ih =>
    cases i with
    | zero =>
      intro o ho
      simp only [modifyAt, List.mem_cons] at ho
      rcases ho with rfl | ho
      · simp
      · exact hne o (List.mem_cons_of_mem _ ho)
    | succ j =>
      intro o ho
      simp only [modifyAt, List.mem_cons] at ho
      rcases ho with rfl | ho
      · exact hne _ (List.mem_cons_self _ _)
      · exact ih j (fun q hq => hne q (List.mem_cons_of_mem _ hq)) o ho

theorem registry_add_spec (objs : List kedr_object) (mod : Module) (f : kedr_func)
    (hnd : (objs.map (fun o => o.mod)).Nodup) (hne : ∀ o ∈ objs, o.funcs ≠ []) :
    (∀ m, funcs_of (registry_add objs mod f) m =
        if mod = m then f :: funcs_of objs m else funcs_of objs m) ∧
      ((registry_add objs mod f).map (fun o => o.mod)).Nodup ∧
      ∀ o ∈ registry_add objs mod f, o.funcs ≠ [] := by
  unfold registry_add
  cases hf : kedr_find_object objs mod with
  | some i =>
    simp only
    refine ⟨fun m => funcs_of_modifyAt objs mod m i f hf, ?_, nonempty_modifyAt objs i f hne⟩
    rw [map_mod_modifyAt]
    exact hnd
  | none =>
    obtain ⟨h1, h2⟩ := find_object_none objs mod hf
    simp only
    refine ⟨?_, ?_, ?_⟩
    · intro m
      by_cases hm : mod = m
      · subst hm
        simp [funcs_of, h1]
      · simp [funcs_of, hm]
    · simp only [List.map_cons, List.nodup_cons]
      exact ⟨h2, hnd⟩
    · intro o ho
      rcases List.mem_cons.mp ho with rfl | ho
      · simp
      · exact hne o ho

theorem funcs_of_nil_find (objs : List kedr_object) (m : Module)
    (hne : ∀ o ∈ objs, o.funcs ≠ []) (h : funcs_of objs m = []) :
    kedr_find_object objs m = none := by
  induction objs with
  | nil => rfl
  | cons p ps ih =>
    by_cases hpm : p.mod = m
    · simp only [funcs_of, hpm, if_true] at h
      exact absurd h (hne p (List.mem_cons_self _ _))
    · simp only [funcs_of, hpm, if_false] at h
      simp [kedr_find_object, hpm, ih (fun q hq => hne q (List.mem_cons_of_mem _ hq)) h]

theorem expected_funcs_cons (data : Module) (s : Symbol) (rest : List Symbol) (m : Module) :
    expected_funcs data (s :: rest) m =
      (if s.mod = m then (expected_one data s).toList else []) ++
        expected_funcs data rest m := by
  unfold expected_funcs
  by_cases hm : s.mod = m
  · rw [List.filter_cons_of_pos (by simp [hm])]
    cases he : expected_one data s <;> simp [List.filterMap_cons, he, hm]
  · rw [List.filter_cons_of_neg (by simp [hm])]
    simp [hm]

theorem discovery_inv (env : Env) (data : Module) (syms : List Symbol) (st : State)
    (h0 : (kallsyms_loop (kedr_kallsyms_callback env data) syms st).1 = 0)
    (hnd : (st.kedr_objects.map (fun o => o.mod)).Nodup)
    (hne : ∀ o ∈ st.kedr_objects, o.funcs ≠ []) :
    (∀ m, (funcs_of (kallsyms_loop (kedr_kallsyms_callback env data) syms
          st).2.kedr_objects m).map func_view =
        (expected_funcs data syms m).reverse ++ (funcs_of st.kedr_objects m).map func_view) ∧
      ((kallsyms_loop (kedr_kallsyms_callback env data) syms st).2.kedr_objects.map
        (fun o => o.mod)).Nodup ∧
      ∀ o ∈ (kallsyms_loop (kedr_kallsyms_callback env data) syms st).2.kedr_objects,
        o.funcs ≠ [] := by
  induction syms generalizing st with
  | nil => exact ⟨by simp [kallsyms_loop, expected_funcs], hnd, hne⟩
  | cons s rest ih =>
    by_cases hc : (kedr_kallsyms_callback env data s.name s.mod s.addr st).1 = 0
    · simp only [kallsyms_loop, hc, ne_eq, not_true_eq_false, if_false] at h0 ⊢
      have hce := callback_effect env data s st hc
      cases he : expected_one data s with
      | none =>
        simp only [he] at hce
        obtain ⟨h1, h2, h3⟩ := ih _ h0 (by rw [hce]; exact hnd) (by rw [hce]; exact hne)
        refine ⟨?_, h2, h3⟩
        intro m
        rw [h1 m, hce, expected_funcs_cons, he]
        simp
      | some v =>
        simp only [he] at hce
        obtain ⟨f, hv, hobjs⟩ := hce
        obtain ⟨r1, r2, r3⟩ := registry_add_spec st.kedr_objects s.mod f hnd hne
        obtain ⟨h1, h2, h3⟩ := ih _ h0 (by rw [hobjs]; exact r2) (by rw [hobjs]; exact r3)
        refine ⟨?_, h2, h3⟩
        intro m
        rw [h1 m, hobjs, r1 m, expected_funcs_cons, he]
        by_cases hm : s.mod = m
        · simp [hm, hv]
        · simp [hm]
    · simp only [kallsyms_loop, hc, ne_eq, not_false_eq_true, if_true] at h0

theorem funcs_of_mem (objs : List kedr_object) (o : kedr_object)
    (hnd : (objs.map (fun q => q.mod)).Nodup) (ho : o ∈ objs) :
    funcs_of objs o.mod = o.funcs := by
  induction objs with
  | nil => simp at ho
  | cons p ps ih =>
    simp only [List.map_cons, List.nodup_cons, List.mem_map, not_exists, not_and] at hnd
    rcases List.mem_cons.mp ho with rfl | hin
    · simp [funcs_of]
    · have hpm : ¬ p.mod = o.mod := fun hc => hnd.1 o hin hc.symm
      simp only [funcs_of, hpm, if_false]
      exact ih hnd.2 hin

theorem funcs_of_ne_nil (objs : List kedr_object) (m : Module) (h : funcs_of objs m ≠ []) :
    ∃ o ∈ objs, o.mod = m := by
  induction objs with
  | nil => simp [funcs_of] at h
  | cons p ps ih =>
    by_cases hpm : p.mod = m
    · exact ⟨p, List.mem_cons_self _ _, hpm⟩
    · simp only [funcs_of, hpm, if_false] at h
      obtain ⟨o, ho, hom⟩ := ih h
      exact ⟨o, List.mem_cons_of_mem _ ho, hom⟩

theorem handler_table_event_names :
    ∀ a ∈ handler_table, ∀ b ∈ handler_table, a.event_name = b.event_name → a = b := by
  decide

theorem expected_handler_iff (name : CStr) (h : Handler) :
    expected_handler name = some h ↔
      ∃ item ∈ handler_table, name = stub_prefix ++ item.event_name ∧ item.handler = h := by
  unfold expected_handler
  constructor
  · intro hx
    simp only [Option.map_eq_some'] at hx
    obtain ⟨item, hfind, hh⟩ := hx
    have hmem := List.mem_of_find?_eq_some hfind
    have hp := List.find?_some hfind
    simp only [decide_eq_true_eq] at hp
    exact ⟨item, hmem, hp, hh⟩
  · rintro ⟨item, hmem, hname, hh⟩
    cases hfind : handler_table.find?
        (fun it => decide (name = stub_prefix ++ it.event_name)) with
    | none =>
      rw [List.find?_eq_none] at hfind
      have := hfind item hmem
      simp [hname] at this
    | some it2 =>
      have hmem2 := List.mem_of_find?_eq_some hfind
      have hp := List.find?_some hfind
      simp only [decide_eq_true_eq] at hp
      have hev : it2.event_name = item.event_name :=
        List.append_cancel_left (hp.symm.trans hname)
      have := handler_table_event_names it2 hmem2 item hmem hev
      simp [this, hh]

/-- C5: a scan of the symbols `syms` with scope `data` that starts from an
empty `kedr_objects` and returns 0 leaves a registry in which (a) the
function records of each object are, up to their order, exactly the records
expected for the in-scope stub symbols of the module of that object (address
of the symbol, handler of its event name, state DISABLED), one record per
symbol, and no object is empty; (b) no two objects are for the same module;
(c) a module has an object exactly when one of its in-scope symbols is a stub
with a handler; where (d) a symbol name has a handler exactly when it is the
stub prefix followed by the event name of an entry of the handler table, and
the handler is that of the entry. -/
theorem discovery_creates_records (env : Env) (data : Module) (syms : List Symbol)
    (st : State) (hempty : st.kedr_objects = [])
    (hok : (kallsyms_on_each_symbol (kedr_kallsyms_callback env data) data syms st).1 = 0) :
    (∀ o ∈ (kallsyms_on_each_symbol (kedr_kallsyms_callback env data) data syms
          st).2.kedr_objects,
        List.Perm (o.funcs.map func_view) (expected_funcs data syms o.mod) ∧ o.funcs ≠ []) ∧
      ((kallsyms_on_each_symbol (kedr_kallsyms_callback env data) data syms
          st).2.kedr_objects.map (fun o => o.mod)).Nodup ∧
      (∀ m, (∃ o ∈ (kallsyms_on_each_symbol (kedr_kallsyms_callback env data) data syms
            st).2.kedr_objects, o.mod = m) ↔ expected_funcs data syms m ≠ []) ∧
      (∀ name h, expected_handler name = some h ↔
        ∃ item ∈ handler_table, name = stub_prefix ++ item.event_name ∧ item.handler = h) := by
  have h0 : (kallsyms_loop (kedr_kallsyms_callback env data) syms st).1 = 0 := hok
  obtain ⟨h1, h2, h3⟩ := discovery_inv env data syms st h0 (by simp [hempty])
    (by simp [hempty])
  simp only [hempty, funcs_of, List.map_nil, List.append_nil] at h1
  have hobjs : (kallsyms_on_each_symbol (kedr_kallsyms_callback env data) data syms
      st).2.kedr_objects =
      (kallsyms_loop (kedr_kallsyms_callback env data) syms st).2.kedr_objects := rfl
  rw [hobjs]
  refine ⟨?_, h2, ?_, expected_handler_iff⟩
  · intro o ho
    refine ⟨?_, h3 o ho⟩
    have := h1 o.mod
    rw [funcs_of_mem _ o h2 ho] at this
    rw [this]
    exact List.reverse_perm _
  · intro m
    constructor
    · rintro ⟨o, ho, rfl⟩
      intro hc
      have := h1 o.mod
      rw [funcs_of_mem _ o h2 ho, hc] at this
      simp only [List.reverse_nil, List.map_eq_nil_iff] at this
      exact h3 o ho this
    · intro hne
      apply funcs_of_ne_nil
      intro hc
      have := h1 m
      rw [hc] at this
      simp only [List.map_nil] at this
      exact hne (List.reverse_eq_nil_iff.mp this.symm)

/-- C5 at the symbol space with one stub and the symbol `foo`: the scan
yields one object, for module 7, with one record (handler for `alloc`,
address 4096, state DISABLED). -/
theorem discovery_creates_records_witness :
    init_state.kedr_objects = [] ∧
      (kallsyms_on_each_symbol (kedr_kallsyms_callback env_accept none) none syms_scenario
        init_state).1 = 0 ∧
      (kallsyms_on_each_symbol (kedr_kallsyms_callback env_accept none) none syms_scenario
          init_state).2.kedr_objects =
        [{ mod := some 7,
           funcs := [{ ops := 1, handler := Handler.kedr_handle_alloc, addr := 4096,
                       state := KEDR_FUNC_DISABLED }] }] ∧
      expected_handler "foo".toList = none ∧
      ((∀ o ∈ (kallsyms_on_each_symbol (kedr_kallsyms_callback env_accept none) none
            syms_scenario init_state).2.kedr_objects,
          List.Perm (o.funcs.map func_view) (expected_funcs none syms_scenario o.mod) ∧
            o.funcs ≠ []) ∧
        ((kallsyms_on_each_symbol (kedr_kallsyms_callback env_accept none) none syms_scenario
            init_state).2.kedr_objects.map (fun o => o.mod)).Nodup ∧
        (∀ m, (∃ o ∈ (kallsyms_on_each_symbol (kedr_kallsyms_callback env_accept none) none
              syms_scenario init_state).2.kedr_objects, o.mod = m) ↔
            expected_funcs none syms_scenario m ≠ []) ∧
        (∀ name h, expected_handler name = some h ↔
          ∃ item ∈ handler_table, name = stub_prefix ++ item.event_name ∧
            item.handler = h)) :=
  ⟨rfl, by decide, by decide, by decide,
    discovery_creates_records env_accept none syms_scenario init_state rfl (by decide)⟩

/-! ## A module that is already known; results of a failed attach -/

/-- C11: when `kedr_objects` already holds an object for the module `m` (a
real module, not NULL), `kedr_attach_handlers(m)` returns -EBUSY and leaves
the state as it was: no object is changed or added and the log is unchanged
(no lock taken, no scan of the symbols, no ftrace call).  Reached through
the notification MODULE_STATE_COMING in an enabled registry, for a module
other than THIS_MODULE, the only call made is `kedr_modmap_on_coming`. -/
theorem attach_known_module_rejected (env : Env) (this_module : Module)
    (syms : List Symbol) (m : Nat) (st : State) (i : Nat)
    (hfind : kedr_find_object st.kedr_objects (some m) = some i) :
    kedr_attach_handlers env syms (some m) st = (-EBUSY, st) ∧
      (st.kedr_enabled = true → some m ≠ this_module →
        kedr_module_notify env this_module syms MODULE_STATE_COMING (some m) st =
          (-EBUSY, { st with
                       trace := st.trace ++ [(Call.kedr_modmap_on_coming (some m), 0)] })) := by
  refine ⟨by simp [kedr_attach_handlers, hfind], ?_⟩
  intro hen hthis
  simp [kedr_module_notify, hthis, hen, MODULE_STATE_COMING, kedr_attach_handlers, hfind,
    voidcall]

/-- C11 at the registry with the objects of modules 1 and 2: module 1 is
announced again. -/
theorem attach_known_module_rejected_witness :
    kedr_find_object st_two_units.kedr_objects (some 1) = some 0 ∧
      (kedr_attach_handlers env_accept syms_mod7 (some 1) st_two_units
          = (-EBUSY, st_two_units) ∧
        (st_two_units.kedr_enabled = true → some 1 ≠ (some 99 : Module) →
          kedr_module_notify env_accept (some 99) syms_mod7 MODULE_STATE_COMING (some 1)
              st_two_units =
            (-EBUSY, { st_two_units with
                         trace := st_two_units.trace ++
                           [(Call.kedr_modmap_on_coming (some 1), 0)] }))) :=
  ⟨by decide, attach_known_module_rejected env_accept (some 99) syms_mod7 1 st_two_units 0
    (by decide)⟩

/-- C12 as stated fails: when setting the filter fails with -12, and when
registering fails with -16, `kedr_func_attach` returns -22 (-EINVAL), not
the code of ftrace. -/
theorem attach_error_not_verbatim :
    func_fresh.state = KEDR_FUNC_DISABLED ∧ func_fresh.addr ≠ 0 ∧
      env_reject_filter_set [] (Call.ftrace_set_filter_ip func_fresh.ops func_fresh.addr 0 0)
        = -12 ∧
      (kedr_func_attach env_reject_filter_set func_fresh []).1 = -22 ∧
      env_reject_register [] (Call.ftrace_set_filter_ip func_fresh.ops func_fresh.addr 0 0)
        = 0 ∧
      env_reject_register [(Call.ftrace_set_filter_ip func_fresh.ops func_fresh.addr 0 0, 0)]
        (Call.register_ftrace_function func_fresh.ops) = -16 ∧
      (kedr_func_attach env_reject_register func_fresh []).1 = -22 := by
  decide

/-- C12, amended: for a record in state DISABLED with a non-zero address and
a non-zero code `e`, if setting the filter fails with `e`, or setting the
filter succeeds and registering fails with `e`, then `kedr_func_attach`
returns -EINVAL whatever `e` is, and the record is unchanged. -/
theorem attach_error_is_einval (env : Env) (func : kedr_func) (tr : Trace) (e : Int)
    (hstate : func.state = KEDR_FUNC_DISABLED) (haddr : func.addr ≠ 0) (he : e ≠ 0)
    (hfail : env tr (Call.ftrace_set_filter_ip func.ops func.addr 0 0) = e ∨
      (env tr (Call.ftrace_set_filter_ip func.ops func.addr 0 0) = 0 ∧
        env (tr ++ [(Call.ftrace_set_filter_ip func.ops func.addr 0 0, 0)])
          (Call.register_ftrace_function func.ops) = e)) :
    (kedr_func_attach env func tr).1 = -EINVAL ∧ (kedr_func_attach env func tr).2.1 = func := by
  rcases hfail with h | ⟨h1, h2⟩
  · simp [kedr_func_attach, kedr_get_ftrace_location, extcall, hstate, haddr, h, he]
  · simp [kedr_func_attach, kedr_get_ftrace_location, extcall, hstate, haddr, h1, h2, he]

/-- C12, amended, at a concrete record whose registration fails with -16. -/
theorem attach_error_is_einval_witness :
    (kedr_func_attach env_reject_register func_fresh []).1 = -EINVAL ∧
      (kedr_func_attach env_reject_register func_fresh []).2.1 = func_fresh :=
  attach_error_is_einval env_reject_register func_fresh [] (-16) rfl (by decide) (by decide)
    (Or.inr ⟨rfl, rfl⟩)

/-- C13: for a record in state DISABLED with a non-zero address, when setting
the filter succeeds and registering fails, `kedr_func_attach` makes exactly
three calls: set the filter, register (failing), remove the filter of the
same address, whose result does not matter; it returns -EINVAL (non-zero)
and the record is unchanged, so still DISABLED.  For every such record and
every environment the state after attach is ENABLED if and only if attach
returned 0. -/
theorem attach_register_failure (env : Env) (func : kedr_func) (tr : Trace)
    (hstate : func.state = KEDR_FUNC_DISABLED) (haddr : func.addr ≠ 0) :
    (env tr (Call.ftrace_set_filter_ip func.ops func.addr 0 0) = 0 →
      env (tr ++ [(Call.ftrace_set_filter_ip func.ops func.addr 0 0, 0)])
          (Call.register_ftrace_function func.ops) ≠ 0 →
      ∃ e r : Int, e ≠ 0 ∧
        kedr_func_attach env func tr =
          (-EINVAL, func,
            tr ++ [(Call.ftrace_set_filter_ip func.ops func.addr 0 0, 0),
                   (Call.register_ftrace_function func.ops, e),
                   (Call.ftrace_set_filter_ip func.ops func.addr 1 0, r)]) ∧
        (-EINVAL : Int) ≠ 0 ∧ func.state = KEDR_FUNC_DISABLED) ∧
      ((kedr_func_attach env func tr).2.1.state = KEDR_FUNC_ENABLED ↔
        (kedr_func_attach env func tr).1 = 0) := by
  constructor
  · intro hset hreg
    refine ⟨env (tr ++ [(Call.ftrace_set_filter_ip func.ops func.addr 0 0, 0)])
        (Call.register_ftrace_function func.ops),
      env (tr ++ [(Call.ftrace_set_filter_ip func.ops func.addr 0 0, 0)] ++
          [(Call.register_ftrace_function func.ops,
            env (tr ++ [(Call.ftrace_set_filter_ip func.ops func.addr 0 0, 0)])
              (Call.register_ftrace_function func.ops))])
        (Call.ftrace_set_filter_ip func.ops func.addr 1 0),
      hreg, ?_, by decide, hstate⟩
    simp [kedr_func_attach, kedr_get_ftrace_location, extcall, hstate, haddr, hset, hreg]
  · unfold kedr_func_attach
    simp only [hstate, ne_eq, not_true_eq_false, if_false, kedr_get_ftrace_location, haddr,
      extcall]
    split
    · simp [hstate, EINVAL]
    · split
      · simp [hstate, EINVAL]
      · simp

/-- C13 at a concrete record whose registration fails with -16. -/
theorem attach_register_failure_witness :
    (env_reject_register [] (Call.ftrace_set_filter_ip func_fresh.ops func_fresh.addr 0 0)
        = 0 →
      env_reject_register
          ([] ++ [(Call.ftrace_set_filter_ip func_fresh.ops func_fresh.addr 0 0, 0)])
          (Call.register_ftrace_function func_fresh.ops) ≠ 0 →
      ∃ e r : Int, e ≠ 0 ∧
        kedr_func_attach env_reject_register func_fresh [] =
          (-EINVAL, func_fresh,
            [] ++ [(Call.ftrace_set_filter_ip func_fresh.ops func_fresh.addr 0 0, 0),
                   (Call.register_ftrace_function func_fresh.ops, e),
                   (Call.ftrace_set_filter_ip func_fresh.ops func_fresh.addr 1 0, r)]) ∧
        (-EINVAL : Int) ≠ 0 ∧ func_fresh.state = KEDR_FUNC_DISABLED) ∧
      ((kedr_func_attach env_reject_register func_fresh []).2.1.state = KEDR_FUNC_ENABLED ↔
        (kedr_func_attach env_reject_register func_fresh []).1 = 0) :=
  attach_register_failure env_reject_register func_fresh [] rfl (by decide)

/-! ## Detaching all functions of an object -/

theorem detach_ok_spec (env : Env) (f : kedr_func) (tr : Trace)
    (h : (kedr_func_detach env f tr).1 = 0) :
    f.state = KEDR_FUNC_ENABLED ∧ f.addr ≠ 0 ∧
      kedr_func_detach env f tr =
        (0, { f with state := KEDR_FUNC_UNREGISTERED },
          tr ++ [(Call.unregister_ftrace_function f.ops, 0),
                 (Call.ftrace_set_filter_ip f.ops f.addr 1 0, 0)]) := by
  by_cases hs : f.state = KEDR_FUNC_ENABLED
  · by_cases ha : f.addr = 0
    · simp [kedr_func_detach, kedr_get_ftrace_location, hs, ha, EINVAL] at h
    · by_cases hu : env tr (Call.unregister_ftrace_function f.ops) = 0
      · simp only [kedr_func_detach, kedr_get_ftrace_location, hs, ha, extcall, hu, ne_eq,
          not_true_eq_false, if_false, reduceCtorEq, not_false_eq_true, if_true] at h
        refine ⟨hs, ha, ?_⟩
        simp [kedr_func_detach, kedr_get_ftrace_location, hs, ha, extcall, hu, h]
      · simp [kedr_func_detach, kedr_get_ftrace_location, hs, ha, extcall, hu] at h
  · simp [kedr_func_detach, hs, EINVAL] at h

theorem detach_effect (env : Env) (f : kedr_func) (tr : Trace) :
    func_id (kedr_func_detach env f tr).2.1 = func_id f ∧
      (f.state ≠ KEDR_FUNC_ENABLED → (kedr_func_detach env f tr).2.1 = f) ∧
      ∃ ext, (kedr_func_detach env f tr).2.2 = tr ++ ext ∧
        ∀ e ∈ ext, call_ops e.1 = some f.ops := by
  by_cases hs : f.state = KEDR_FUNC_ENABLED
  · by_cases ha : f.addr = 0
    · have hd : kedr_func_detach env f tr = (-EINVAL, f, tr) := by
        simp [kedr_func_detach, kedr_get_ftrace_location, hs, ha]
      rw [hd]
      exact ⟨rfl, fun _ => rfl, [], by simp, by simp⟩
    · by_cases hu : env tr (Call.unregister_ftrace_function f.ops) = 0
      · have hd : kedr_func_detach env f tr =
            (env (tr ++ [(Call.unregister_ftrace_function f.ops, 0)])
                (Call.ftrace_set_filter_ip f.ops f.addr 1 0),
              { f with state := KEDR_FUNC_UNREGISTERED },
              tr ++ ([(Call.unregister_ftrace_function f.ops, 0)] ++
                [(Call.ftrace_set_filter_ip f.ops f.addr 1 0,
                  env (tr ++ [(Call.unregister_ftrace_function f.ops, 0)])
                    (Call.ftrace_set_filter_ip f.ops f.addr 1 0))])) := by
          simp [kedr_func_detach, kedr_get_ftrace_location, hs, ha, extcall, hu]
        rw [hd]
        refine ⟨rfl, fun hc => absurd hs hc, _, rfl, ?_⟩
        intro e he
        simp only [List.singleton_append, List.mem_cons, List.mem_singleton] at he
        rcases he with rfl | he
        · rfl
        · rcases he with rfl | he
          · rfl
          · cases he
      · have hd : kedr_func_detach env f tr =
            (env tr (Call.unregister_ftrace_function f.ops), f,
              tr ++ [(Call.unregister_ftrace_function f.ops,
                env tr (Call.unregister_ftrace_function f.ops))]) := by
          simp [kedr_func_detach, kedr_get_ftrace_location, hs, ha, extcall, hu]
        rw [hd]
        refine ⟨rfl, fun _ => rfl, _, rfl, ?_⟩
        intro e he
        simp only [List.mem_singleton] at he
        subst he
        rfl
  · rw [detach_not_enabled env f tr hs]
    exact ⟨rfl, fun _ => rfl, [], by simp, by simp⟩

theorem detach_each_log (env : Env) (fs : List kedr_func) (tr tr1 : Trace)
    (h : detach_each env fs tr = some tr1) :
    (∀ f ∈ fs, f.state = KEDR_FUNC_ENABLED ∧ f.addr ≠ 0) ∧ tr1 = tr ++ detach_log fs := by
  induction fs generalizing tr with
  | nil =>
    simp only [detach_each, Option.some.injEq] at h
    simp [detach_log, h]
  | cons f fs ih =>
    simp only [detach_each] at h
    split at h
    · rename_i h0
      obtain ⟨hs, ha, hd⟩ := detach_ok_spec env f tr h0
      rw [hd] at h
      obtain ⟨h1, h2⟩ := ih _ h
      refine ⟨?_, ?_⟩
      · intro g hg
        rcases List.mem_cons.mp hg with rfl | hg
        · exact ⟨hs, ha⟩
        · exact h1 g hg
      · rw [h2]
        simp [detach_log]
    · cases h

theorem cleanup_funcs_fail_none (env : Env) (fs : List kedr_func) (tr : Trace)
    (h : (kedr_cleanup_funcs env fs tr).1 ≠ 0) : detach_each env fs tr = none := by
  cases hd : detach_each env fs tr with
  | none => rfl
  | some t =>
    rw [cleanup_funcs_ok env fs tr t hd] at h
    exact absurd rfl h

/-- C14: let `obj` be the object that `kedr_find_object` returns for module
`m`, and let `kedr_cleanup_object(obj)` fail.  Then `obj->funcs` splits into
the functions `pre` before the failing one, the failing function `f` and the
functions `post` after it, such that: every function of `pre` was detached
with result 0 (the log grows by the unregister and the filter removal of each,
in order) and is no longer in the list; the value returned is the result of
`kedr_func_detach` on `f`; the list left in the object is `f` (same `ops`,
handler and address) followed by `post` unchanged and in the same order; the
calls made after those for `pre` are calls on the `ops` of `f` only; and
`kedr_detach_handlers(m)` returns the same error and leaves the object, with
that list, at its place in `kedr_objects`. -/
theorem detach_all_stops_at_failure (env : Env) (st : State) (m : Nat) (i : Nat)
    (obj : kedr_object)
    (hfind : kedr_find_object st.kedr_objects (some m) = some i)
    (hobj : st.kedr_objects[i]? = some obj)
    (hfail : (kedr_cleanup_object env obj st.trace).1 ≠ 0) :
    ∃ pre f post tr1 ext,
      obj.funcs = pre ++ f :: post ∧
      detach_each env pre st.trace = some tr1 ∧
      tr1 = st.trace ++ detach_log pre ∧
      (kedr_func_detach env f tr1).1 ≠ 0 ∧
      func_id (kedr_func_detach env f tr1).2.1 = func_id f ∧
      (kedr_func_detach env f tr1).2.2 = tr1 ++ ext ∧
      (∀ e ∈ ext, call_ops e.1 = some f.ops) ∧
      kedr_cleanup_object env obj st.trace =
        ((kedr_func_detach env f tr1).1,
          { obj with funcs := (kedr_func_detach env f tr1).2.1 :: post }, tr1 ++ ext) ∧
      kedr_detach_handlers env (some m) st =
        ((kedr_func_detach env f tr1).1,
          { st with
              kedr_objects := st.kedr_objects.set i
                { obj with funcs := (kedr_func_detach env f tr1).2.1 :: post },
              trace := tr1 ++ ext }) := by
  have hfail1 : (kedr_cleanup_funcs env obj.funcs st.trace).1 ≠ 0 := hfail
  obtain ⟨pre, f, post, tr1, hfs, hpre, hne, hcl⟩ :=
    cleanup_funcs_fail env _ _ (cleanup_funcs_fail_none env _ _ hfail1)
  obtain ⟨hid, _, ext, hext, hops⟩ := detach_effect env f tr1
  have hco : kedr_cleanup_object env obj st.trace =
      ((kedr_func_detach env f tr1).1,
        { obj with funcs := (kedr_func_detach env f tr1).2.1 :: post }, tr1 ++ ext) := by
    simp only [kedr_cleanup_object, hcl, hext]
  refine ⟨pre, f, post, tr1, ext, hfs, hpre, (detach_each_log env pre _ _ hpre).2, hne, hid,
    hext, hops, hco, ?_⟩
  simp only [kedr_detach_handlers, hfind, hobj, hco, hne, ne_eq, not_false_eq_true, if_true,
    reduceCtorEq, if_false]

/-- C14 at an object with three attached functions, where unregistering the
second one fails: the first function is gone, the second and third stay. -/
theorem detach_all_stops_at_failure_witness :
    kedr_detach_handlers env_second_unregister_fails (some 1) st_three =
        (-16, { st_three with
                  kedr_objects := [{ obj_three with funcs := obj_three.funcs.drop 1 }],
                  trace := [(Call.unregister_ftrace_function 1, 0),
                            (Call.ftrace_set_filter_ip 1 4096 1 0, 0),
                            (Call.unregister_ftrace_function 2, -16)] }) ∧
      ∃ pre f post tr1 ext,
        obj_three.funcs = pre ++ f :: post ∧
        detach_each env_second_unregister_fails pre st_three.trace = some tr1 ∧
        tr1 = st_three.trace ++ detach_log pre ∧
        (kedr_func_detach env_second_unregister_fails f tr1).1 ≠ 0 ∧
        func_id (kedr_func_detach env_second_unregister_fails f tr1).2.1 = func_id f ∧
        (kedr_func_detach env_second_unregister_fails f tr1).2.2 = tr1 ++ ext ∧
        (∀ e ∈ ext, call_ops e.1 = some f.ops) ∧
        kedr_cleanup_object env_second_unregister_fails obj_three st_three.trace =
          ((kedr_func_detach env_second_unregister_fails f tr1).1,
            { obj_three with
                funcs := (kedr_func_detach env_second_unregister_fails f tr1).2.1 :: post },
            tr1 ++ ext) ∧
        kedr_detach_handlers env_second_unregister_fails (some 1) st_three =
          ((kedr_func_detach env_second_unregister_fails f tr1).1,
            { st_three with
                kedr_objects := st_three.kedr_objects.set 0
                  { obj_three with
                      funcs :=
                        (kedr_func_detach env_second_unregister_fails f tr1).2.1 :: post },
                trace := tr1 ++ ext }) :=
  ⟨by decide,
    detach_all_stops_at_failure env_second_unregister_fails st_three 1 0 obj_three
      (by decide) (by decide) (by decide)⟩

/-! ## The order of the steps of `kedr_disable` -/

theorem cleanup_funcs_stuck (env : Env) (fs : List kedr_func) (tr : Trace) (f : kedr_func)
    (hf : f ∈ fs) (hs : f.state ≠ KEDR_FUNC_ENABLED) :
    (kedr_cleanup_funcs env fs tr).1 ≠ 0 ∧ f ∈ (kedr_cleanup_funcs env fs tr).2.1 := by
  induction fs generalizing tr with
  | nil => simp at hf
  | cons g gs ih =>
    by_cases hd : (kedr_func_detach env g tr).1 = 0
    · have hgs := (detach_ok_spec env g tr hd).1
      have hin : f ∈ gs := by
        rcases List.mem_cons.mp hf with rfl | hin
        · exact absurd hgs hs
        · exact hin
      simp only [kedr_cleanup_funcs, hd, ne_eq, not_true_eq_false, if_false]
      exact ih _ hin
    · simp only [kedr_cleanup_funcs, hd, ne_eq, not_false_eq_true, if_true]
      refine ⟨trivial, ?_⟩
      rcases List.mem_cons.mp hf with rfl | hin
      · rw [(detach_effect env f tr).2.1 hs]
        exact List.mem_cons_self _ _
      · exact List.mem_cons_of_mem _ hin

theorem destroy_all_stuck (env : Env) (objs : List kedr_object) (tr : Trace) (m : Module)
    (f : kedr_func) (h : ∃ o ∈ objs, o.mod = m ∧ f ∈ o.funcs)
    (hs : f.state ≠ KEDR_FUNC_ENABLED) :
    (kedr_destroy_all_objects env objs tr).1 ≠ 0 ∧
      ∃ o ∈ (kedr_destroy_all_objects env objs tr).2.1, o.mod = m ∧ f ∈ o.funcs := by
  induction objs generalizing tr with
  | nil => simp at h
  | cons o os ih =>
    obtain ⟨p, hp, hpm, hpf⟩ := h
    by_cases hc : (kedr_cleanup_funcs env o.funcs tr).1 = 0
    · have hpin : p ∈ os := by
        rcases List.mem_cons.mp hp with rfl | hin
        · exact absurd hc (cleanup_funcs_stuck env _ tr f hpf hs).1
        · exact hin
      simp only [kedr_destroy_all_objects, kedr_cleanup_object, hc, ne_eq, not_true_eq_false,
        if_false]
      exact ih _ ⟨p, hpin, hpm, hpf⟩
    · simp only [kedr_destroy_all_objects, kedr_cleanup_object, hc, ne_eq, not_false_eq_true,
        if_true]
      refine ⟨trivial, ?_⟩
      rcases List.mem_cons.mp hp with rfl | hin
      · exact ⟨_, List.mem_cons_self _ _, hpm, (cleanup_funcs_stuck env _ tr f hpf hs).2⟩
      · exact ⟨p, List.mem_cons_of_mem _ hin, hpm, hpf⟩

theorem detach_handlers_stuck (env : Env) (m : Nat) (st : State) (i : Nat) (obj : kedr_object)
    (f : kedr_func)
    (hfind : kedr_find_object st.kedr_objects (some m) = some i)
    (hobj : st.kedr_objects[i]? = some obj)
    (hf : f ∈ obj.funcs) (hs : f.state ≠ KEDR_FUNC_ENABLED) :
    (kedr_detach_handlers env (some m) st).1 ≠ 0 ∧
      (kedr_detach_handlers env (some m) st).2.kedr_enabled = st.kedr_enabled ∧
      ∃ obj1, kedr_find_object (kedr_detach_handlers env (some m) st).2.kedr_objects (some m)
          = some i ∧
        (kedr_detach_handlers env (some m) st).2.kedr_objects[i]? = some obj1 ∧
        f ∈ obj1.funcs := by
  obtain ⟨hne, hkeep⟩ := cleanup_funcs_stuck env obj.funcs st.trace f hf hs
  simp only [kedr_detach_handlers, hfind, hobj, kedr_cleanup_object, hne, ne_eq,
    not_false_eq_true, if_true, reduceCtorEq, if_false]
  refine ⟨trivial, trivial, _, ?_, getElem_set_same _ _ _ _ hobj, hkeep⟩
  exact (find_object_set _ (some m) i obj
    { mod := obj.mod, funcs := (kedr_cleanup_funcs env obj.funcs st.trace).2.1 }
    hobj rfl).trans hfind

theorem notify_going_eq (env : Env) (this_module : Module) (syms : List Symbol)
    (data : Module) (st : State) :
    kedr_module_notify env this_module syms MODULE_STATE_GOING data st =
      if data = this_module then (0, st)
      else if ¬ st.kedr_enabled then (0, st)
      else kedr_detach_handlers env data st := by
  simp [kedr_module_notify, MODULE_STATE_GOING, MODULE_STATE_COMING, MODULE_STATE_LIVE]

theorem going_stuck (env : Env) (this_module : Module) (syms : List Symbol) (m : Nat)
    (st : State) (i : Nat) (obj : kedr_object) (f : kedr_func)
    (hfind : kedr_find_object st.kedr_objects (some m) = some i)
    (hobj : st.kedr_objects[i]? = some obj)
    (hf : f ∈ obj.funcs) (hs : f.state ≠ KEDR_FUNC_ENABLED) :
    (st.kedr_enabled = true → some m ≠ this_module →
        (kedr_module_notify env this_module syms MODULE_STATE_GOING (some m) st).1 ≠ 0) ∧
      (kedr_module_notify env this_module syms MODULE_STATE_GOING (some m) st).2.kedr_enabled
        = st.kedr_enabled ∧
      ∃ obj1,
        kedr_find_object
          (kedr_module_notify env this_module syms MODULE_STATE_GOING (some m)
            st).2.kedr_objects (some m) = some i ∧
        (kedr_module_notify env this_module syms MODULE_STATE_GOING (some m)
          st).2.kedr_objects[i]? = some obj1 ∧
        f ∈ obj1.funcs := by
  obtain ⟨h1, h2, h3⟩ := detach_handlers_stuck env m st i obj f hfind hobj hf hs
  rw [notify_going_eq]
  by_cases ht : some m = this_module
  · rw [if_pos ht]
    exact ⟨fun _ hc => absurd ht hc, rfl, obj, hfind, hobj, hf⟩
  · rw [if_neg ht]
    by_cases he : st.kedr_enabled = true
    · rw [if_neg (not_not.mpr he)]
      exact ⟨fun _ _ => h1, h2, h3⟩
    · rw [if_pos he]
      exact ⟨fun hc => absurd hc he, rfl, obj, hfind, hobj, hf⟩

theorem disable_stuck (env : Env) (st : State) (m : Module) (f : kedr_func)
    (hen : st.kedr_enabled = true)
    (h : ∃ o ∈ st.kedr_objects, o.mod = m ∧ f ∈ o.funcs)
    (hs : f.state ≠ KEDR_FUNC_ENABLED) :
    (kedr_disable env st).1 ≠ 0 ∧ (kedr_disable env st).2.kedr_enabled = true ∧
      ∃ o ∈ (kedr_disable env st).2.kedr_objects, o.mod = m ∧ f ∈ o.funcs := by
  obtain ⟨hne, hkeep⟩ := destroy_all_stuck env st.kedr_objects st.trace m f h hs
  have hdis : kedr_disable env st =
      ((kedr_destroy_all_objects env st.kedr_objects st.trace).1,
        { st with
            kedr_objects := (kedr_destroy_all_objects env st.kedr_objects st.trace).2.1,
            trace := (kedr_destroy_all_objects env st.kedr_objects st.trace).2.2 }) := by
    simp [kedr_disable, kedr_detach_handlers, hen, hne]
  rw [hdis]
  exact ⟨hne, hen, hkeep⟩

/-- C20: let the object `obj` that `kedr_find_object` returns for module `m`
hold a function `f` that is not in state ENABLED (DISABLED or UNREGISTERED).
Then, for every environment: (a) `kedr_cleanup_object(obj)` returns an error
and `f` is still in the list of the object; (b) however often the
notification MODULE_STATE_GOING for `m` is repeated, the object is still the
one found for `m`, still holds `f`, and, when the registry is enabled and
`m` is not THIS_MODULE, the notification fails again; (c) however often
`kedr_disable` is repeated from an enabled state, it fails, `kedr_enabled`
stays set and the object of `m` with `f` stays in `kedr_objects`. -/
theorem non_enabled_blocks_detach (env : Env) (this_module : Module) (syms : List Symbol)
    (st : State) (m : Nat) (i : Nat) (obj : kedr_object) (f : kedr_func)
    (hfind : kedr_find_object st.kedr_objects (some m) = some i)
    (hobj : st.kedr_objects[i]? = some obj)
    (hf : f ∈ obj.funcs) (hs : f.state ≠ KEDR_FUNC_ENABLED) :
    (∀ tr, (kedr_cleanup_object env obj tr).1 ≠ 0 ∧
        f ∈ (kedr_cleanup_object env obj tr).2.1.funcs) ∧
      (∀ n : Nat, ∃ obj1,
        kedr_find_object
          (Nat.iterate
            (fun s => (kedr_module_notify env this_module syms MODULE_STATE_GOING (some m) s).2)
            n st).kedr_objects (some m) = some i ∧
        (Nat.iterate
          (fun s => (kedr_module_notify env this_module syms MODULE_STATE_GOING (some m) s).2)
          n st).kedr_objects[i]? = some obj1 ∧
        f ∈ obj1.funcs ∧
        (st.kedr_enabled = true → some m ≠ this_module →
          (kedr_module_notify env this_module syms MODULE_STATE_GOING (some m)
            (Nat.iterate
              (fun s =>
                (kedr_module_notify env this_module syms MODULE_STATE_GOING (some m) s).2)
              n st)).1 ≠ 0)) ∧
      (st.kedr_enabled = true → ∀ n : Nat,
        (kedr_disable env (Nat.iterate (fun s => (kedr_disable env s).2) n st)).1 ≠ 0 ∧
        (Nat.iterate (fun s => (kedr_disable env s).2) n st).kedr_enabled = true ∧
        ∃ o ∈ (Nat.iterate (fun s => (kedr_disable env s).2) n st).kedr_objects,
          o.mod = some m ∧ f ∈ o.funcs) := by
  refine ⟨fun tr => cleanup_funcs_stuck env obj.funcs tr f hf hs, ?_, ?_⟩
  · intro n
    have key : ∃ obj1,
        kedr_find_object
          (Nat.iterate
            (fun s => (kedr_module_notify env this_module syms MODULE_STATE_GOING (some m) s).2)
            n st).kedr_objects (some m) = some i ∧
        (Nat.iterate
          (fun s => (kedr_module_notify env this_module syms MODULE_STATE_GOING (some m) s).2)
          n st).kedr_objects[i]? = some obj1 ∧
        f ∈ obj1.funcs ∧
        (Nat.iterate
          (fun s => (kedr_module_notify env this_module syms MODULE_STATE_GOING (some m) s).2)
          n st).kedr_enabled = st.kedr_enabled := by
      induction n with
      | zero => exact ⟨obj, hfind, hobj, hf, rfl⟩
      | succ k ih =>
        obtain ⟨o1, a1, a2, a3, a4⟩ := ih
        rw [Function.iterate_succ_apply']
        obtain ⟨_, b2, o2, b3, b4, b5⟩ :=
          going_stuck env this_module syms m _ i o1 f a1 a2 a3 hs
        exact ⟨o2, b3, b4, b5, b2.trans a4⟩
    obtain ⟨o1, a1, a2, a3, a4⟩ := key
    refine ⟨o1, a1, a2, a3, ?_⟩
    intro hen hthis
    exact (going_stuck env this_module syms m _ i o1 f a1 a2 a3 hs).1 (a4.trans hen) hthis
  · intro hen n
    have key : (Nat.iterate (fun s => (kedr_disable env s).2) n st).kedr_enabled = true ∧
        ∃ o ∈ (Nat.iterate (fun s => (kedr_disable env s).2) n st).kedr_objects,
          o.mod = some m ∧ f ∈ o.funcs := by
      induction n with
      | zero =>
        exact ⟨hen, obj, List.getElem?_mem hobj, (find_object_some _ _ _ hfind).elim
          (fun o ho => by
            have : o = obj := Option.some.inj (ho.1.symm.trans hobj)
            exact this ▸ ho.2), hf⟩
      | succ k ih =>
        rw [Function.iterate_succ_apply']
        obtain ⟨_, b2, b3⟩ := disable_stuck env _ (some m) f ih.1 ih.2 hs
        exact ⟨b2, b3⟩
    exact ⟨(disable_stuck env _ (some m) f key.1 key.2 hs).1, key.1, key.2⟩

/-- C20 at a registry whose object for module 1 holds an attached function
and one in state DISABLED. -/
theorem non_enabled_blocks_detach_witness :
    (kedr_module_notify env_accept (some 99) [] MODULE_STATE_GOING (some 1) st_stuck).1 = -22 ∧
      (kedr_disable env_accept st_stuck).1 = -22 ∧
      (kedr_disable env_accept st_stuck).2.kedr_objects =
        [{ mod := some 1, funcs := [func_fresh2] }] ∧
      ((∀ tr, (kedr_cleanup_object env_accept
            { mod := some 1, funcs := [func_enabled, func_fresh2] } tr).1 ≠ 0 ∧
          func_fresh2 ∈ (kedr_cleanup_object env_accept
            { mod := some 1, funcs := [func_enabled, func_fresh2] } tr).2.1.funcs) ∧
        (∀ n : Nat, ∃ obj1,
          kedr_find_object
            (Nat.iterate
              (fun s =>
                (kedr_module_notify env_accept (some 99) [] MODULE_STATE_GOING (some 1) s).2)
              n st_stuck).kedr_objects (some 1) = some 0 ∧
          (Nat.iterate
            (fun s =>
              (kedr_module_notify env_accept (some 99) [] MODULE_STATE_GOING (some 1) s).2)
            n st_stuck).kedr_objects[0]? = some obj1 ∧
          func_fresh2 ∈ obj1.funcs ∧
          (st_stuck.kedr_enabled = true → some 1 ≠ (some 99 : Module) →
            (kedr_module_notify env_accept (some 99) [] MODULE_STATE_GOING (some 1)
              (Nat.iterate
                (fun s =>
                  (kedr_module_notify env_accept (some 99) [] MODULE_STATE_GOING (some 1) s).2)
                n st_stuck)).1 ≠ 0)) ∧
        (st_stuck.kedr_enabled = true → ∀ n : Nat,
          (kedr_disable env_accept
            (Nat.iterate (fun s => (kedr_disable env_accept s).2) n st_stuck)).1 ≠ 0 ∧
          (Nat.iterate (fun s => (kedr_disable env_accept s).2) n st_stuck).kedr_enabled
            = true ∧
          ∃ o ∈ (Nat.iterate (fun s => (kedr_disable env_accept s).2) n st_stuck).kedr_objects,
            o.mod = some 1 ∧ func_fresh2 ∈ o.funcs)) :=
  ⟨by decide, by decide, by decide,
    non_enabled_blocks_detach env_accept (some 99) [] st_stuck 1 0
      { mod := some 1, funcs := [func_enabled, func_fresh2] } func_fresh2
      (by decide) (by decide) (by decide) (by decide)⟩

/-! ## Invariants of the registry: one object per module -/

theorem map_mod_set (objs : List kedr_object) (i : Nat) (o o1 : kedr_object)
    (hget : objs[i]? = some o) (hmod : o1.mod = o.mod) :
    (objs.set i o1).map (fun q => q.mod) = objs.map (fun q => q.mod) := by
  induction objs generalizing i with
  | nil => simp at hget
  | cons p ps ih =>
    cases i with
    | zero =>
      simp only [List.getElem?_cons_zero, Option.some.injEq] at hget
      subst hget
      simp [hmod]
    | succ j =>
      simp only [List.getElem?_cons_succ] at hget
      simp [ih j hget]

theorem callback_add_func_mods (env : Env) (handler : Handler) (addr : Nat) (i : Nat)
    (st : State) :
    (kedr_callback_add_func env handler addr i st).2.kedr_objects.map (fun q => q.mod) =
      st.kedr_objects.map (fun q => q.mod) := by
  unfold kedr_callback_add_func
  split
  · rfl
  · exact map_mod_modifyAt _ _ _

theorem callback_nodup (env : Env) (data : Module) (name : CStr) (mod : Module) (addr : Nat)
    (st : State) (hnd : (st.kedr_objects.map (fun q => q.mod)).Nodup) :
    ((kedr_kallsyms_callback env data name mod addr st).2.kedr_objects.map
      (fun q => q.mod)).Nodup := by
  unfold kedr_kallsyms_callback
  split
  · exact hnd
  · split
    · exact hnd
    · split
      · exact hnd
      · split
        · rw [callback_add_func_mods]
          exact hnd
        · rename_i hf
          have hnew := (find_object_none _ _ hf).2
          by_cases hk : env st.trace Call.kzalloc = 0
          · simp only [kedr_create_object, extcall, hk, ne_eq, not_true_eq_false, if_false]
            exact hnd
          · simp only [kedr_create_object, extcall, hk, ne_eq, not_false_eq_true, if_true]
            rw [callback_add_func_mods]
            simp only [List.map_cons, List.nodup_cons]
            exact ⟨hnew, hnd⟩

theorem kallsyms_loop_nodup (env : Env) (data : Module) (syms : List Symbol) (st : State)
    (hnd : (st.kedr_objects.map (fun q => q.mod)).Nodup) :
    ((kallsyms_loop (kedr_kallsyms_callback env data) syms st).2.kedr_objects.map
      (fun q => q.mod)).Nodup := by
  induction syms generalizing st with
  | nil => exact hnd
  | cons s rest ih =>
    simp only [kallsyms_loop]
    split
    · exact callback_nodup env data _ _ _ st hnd
    · exact ih _ (callback_nodup env data _ _ _ st hnd)

theorem destroy_all_mods_suffix (env : Env) (objs : List kedr_object) (tr : Trace) :
    (kedr_destroy_all_objects env objs tr).2.1.map (fun q => q.mod) <:+
      objs.map (fun q => q.mod) := by
  induction objs generalizing tr with
  | nil => simp [kedr_destroy_all_objects]
  | cons o os ih =>
    simp only [kedr_destroy_all_objects, kedr_cleanup_object]
    split
    · simp
    · exact (ih _).trans (List.suffix_cons _ _)

theorem detach_handlers_nodup (env : Env) (mod : Module) (st : State)
    (hnd : (st.kedr_objects.map (fun q => q.mod)).Nodup) :
    ((kedr_detach_handlers env mod st).2.kedr_objects.map (fun q => q.mod)).Nodup := by
  by_cases hm : mod = none
  · simp only [kedr_detach_handlers, hm, if_true]
    exact (destroy_all_mods_suffix env _ _).sublist.nodup hnd
  · cases hf : kedr_find_object st.kedr_objects mod with
    | none =>
      simp only [kedr_detach_handlers, hm, if_false, hf]
      exact hnd
    | some i =>
      cases ho : st.kedr_objects[i]? with
      | none =>
        simp only [kedr_detach_handlers, hm, if_false, hf, ho]
        exact hnd
      | some obj =>
        simp only [kedr_detach_handlers, hm, if_false, hf, ho, kedr_cleanup_object]
        split
        · simp only
          rw [map_mod_set _ i obj
            { mod := obj.mod, funcs := (kedr_cleanup_funcs env obj.funcs st.trace).2.1 } ho rfl]
          exact hnd
        · exact ((List.eraseIdx_sublist _ i).map _).nodup hnd

theorem attach_objects_mods (env : Env) (objs : List kedr_object) (tr : Trace) :
    (kedr_attach_objects env objs tr).2.1.map (fun q => q.mod) =
      objs.map (fun q => q.mod) := by
  induction objs generalizing tr with
  | nil => rfl
  | cons o os ih =>
    simp only [kedr_attach_objects, kedr_attach_all_for_object]
    split
    · simp
    · simp [ih]

theorem attach_step_mods (env : Env) (mod : Module) (st : State) :
    (kedr_attach_step env mod st).2.kedr_objects.map (fun q => q.mod) =
      st.kedr_objects.map (fun q => q.mod) := by
  by_cases hm : mod = none
  · simp only [kedr_attach_step, hm, ne_eq, not_true_eq_false, if_false]
    exact attach_objects_mods env _ _
  · cases hf : kedr_find_object st.kedr_objects mod with
    | none => simp only [kedr_attach_step, hm, ne_eq, not_false_eq_true, if_true, hf]
    | some i =>
      cases ho : st.kedr_objects[i]? with
      | none => simp only [kedr_attach_step, hm, ne_eq, not_false_eq_true, if_true, hf, ho]
      | some obj =>
        simp only [kedr_attach_step, hm, ne_eq, not_false_eq_true, if_true, hf, ho,
          kedr_attach_all_for_object]
        exact map_mod_set _ i obj
          { mod := obj.mod, funcs := (kedr_attach_funcs env obj.funcs st.trace).2.1 } ho rfl

theorem attach_handlers_nodup (env : Env) (syms : List Symbol) (mod : Module) (st : State)
    (hnd : (st.kedr_objects.map (fun q => q.mod)).Nodup) :
    ((kedr_attach_handlers env syms mod st).2.kedr_objects.map (fun q => q.mod)).Nodup := by
  unfold kedr_attach_handlers
  split
  · exact hnd
  · simp only [extcall]
    split
    · exact hnd
    · have h1 : ((kallsyms_on_each_symbol (kedr_kallsyms_callback env mod) mod syms
          { st with trace := st.trace ++ [(Call.mutex_lock_killable Lock.module_mutex,
            env st.trace (Call.mutex_lock_killable Lock.module_mutex))] }).2.kedr_objects.map
          (fun q => q.mod)).Nodup :=
        kallsyms_loop_nodup env mod syms _ hnd
      split
      · exact h1
      · split
        · apply detach_handlers_nodup
          rw [attach_step_mods]
          exact h1
        · rw [attach_step_mods]
          exact h1

theorem step_nodup (env : Env) (this_module : Module) (op : Op) (st : State)
    (hnd : (st.kedr_objects.map (fun q => q.mod)).Nodup) :
    ((step env this_module op st).kedr_objects.map (fun q => q.mod)).Nodup := by
  cases op with
  | enable syms =>
    simp only [step, kedr_enable, extcall]
    split
    · exact hnd
    · split
      · exact hnd
      · split
        · exact hnd
        · split
          · exact attach_handlers_nodup env syms none _ hnd
          · exact attach_handlers_nodup env syms none _ hnd
  | disable =>
    simp only [step, kedr_disable]
    split
    · exact hnd
    · split
      · exact detach_handlers_nodup env none st hnd
      · exact detach_handlers_nodup env none st hnd
  | notify syms action data =>
    simp only [step, kedr_module_notify]
    split
    · exact hnd
    · split
      · exact hnd
      · split
        · exact attach_handlers_nodup env syms data _ hnd
        · split
          · exact hnd
          · split
            · exact detach_handlers_nodup env data st hnd
            · exact hnd

theorem run_nodup (env : Env) (this_module : Module) (ops : List Op) (st : State)
    (hnd : (st.kedr_objects.map (fun q => q.mod)).Nodup) :
    ((run env this_module ops st).kedr_objects.map (fun q => q.mod)).Nodup := by
  induction ops generalizing st with
  | nil => exact hnd
  | cons op rest ih => exact ih _ (step_nodup env this_module op st hnd)

/-- C16: in every state reached from the initial one by any sequence of
`kedr_enable`, `kedr_disable` and module notifications (MODULE_STATE_COMING,
MODULE_STATE_GOING or any other action, for any module or NULL), whatever
the environment and the symbol spaces, no two objects of `kedr_objects` have
the same `mod`; NULL, the kernel proper, counts as one identity. -/
theorem registry_one_object_per_module (env : Env) (this_module : Module) (ops : List Op) :
    ((run env this_module ops init_state).kedr_objects.map (fun o => o.mod)).Nodup :=
  run_nodup env this_module ops init_state (by simp [init_state])

/-! ## Invariants of the registry: properties of every object -/

theorem mem_modifyAt {α : Type} (g : α → α) (l : List α) (i : Nat) (x : α)
    (h : x ∈ modifyAt g l i) : x ∈ l ∨ ∃ p ∈ l, x = g p := by
  induction l generalizing i with
  | nil => simp [modifyAt] at h
  | cons a as ih =>
    cases i with
    | zero =>
      simp only [modifyAt, List.mem_cons] at h
      rcases h with rfl | h
      · exact Or.inr ⟨a, List.mem_cons_self _ _, rfl⟩
      · exact Or.inl (List.mem_cons_of_mem _ h)
    | succ j =>
      simp only [modifyAt, List.mem_cons] at h
      rcases h with rfl | h
      · exact Or.inl (List.mem_cons_self _ _)
      · rcases ih j h with h1 | ⟨p, hp, hx⟩
        · exact Or.inl (List.mem_cons_of_mem _ h1)
        · exact Or.inr ⟨p, List.mem_cons_of_mem _ hp, hx⟩

theorem destroy_all_inv (env : Env) (Q : kedr_object → Prop)
    (hclean : ∀ obj tr, Q obj → Q (kedr_cleanup_object env obj tr).2.1)
    (objs : List kedr_object) (tr : Trace) (h : ∀ o ∈ objs, Q o) :
    ∀ o ∈ (kedr_destroy_all_objects env objs tr).2.1, Q o := by
  induction objs generalizing tr with
  | nil => simp [kedr_destroy_all_objects]
  | cons p ps ih =>
    have hp := hclean p tr (h p (List.mem_cons_self _ _))
    have hps : ∀ o ∈ ps, Q o := fun o ho => h o (List.mem_cons_of_mem _ ho)
    simp only [kedr_destroy_all_objects]
    split
    · intro o ho
      rcases List.mem_cons.mp ho with rfl | ho
      · exact hp
      · exact hps o ho
    · exact ih _ hps

theorem detach_handlers_inv (env : Env) (Q : kedr_object → Prop)
    (hclean : ∀ obj tr, Q obj → Q (kedr_cleanup_object env obj tr).2.1)
    (mod : Module) (st : State) (h : ∀ o ∈ st.kedr_objects, Q o) :
    ∀ o ∈ (kedr_detach_handlers env mod st).2.kedr_objects, Q o := by
  by_cases hm : mod = none
  · simp only [kedr_detach_handlers, hm, if_true]
    exact destroy_all_inv env Q hclean _ _ h
  · cases hf : kedr_find_object st.kedr_objects mod with
    | none =>
      simp only [kedr_detach_handlers, hm, if_false, hf]
      exact h
    | some i =>
      cases ho : st.kedr_objects[i]? with
      | none =>
        simp only [kedr_detach_handlers, hm, if_false, hf, ho]
        exact h
      | some obj =>
        have hq := hclean obj st.trace (h obj (List.getElem?_mem ho))
        simp only [kedr_detach_handlers, hm, if_false, hf, ho]
        split
        · intro o hmem
          rcases List.mem_or_eq_of_mem_set hmem with h1 | h1
          · exact h o h1
          · exact h1 ▸ hq
        · intro o hmem
          exact h o (List.mem_of_mem_eraseIdx hmem)

theorem attach_objects_inv (env : Env) (Q : kedr_object → Prop)
    (hattach : ∀ obj tr, Q obj → Q (kedr_attach_all_for_object env obj tr).2.1)
    (objs : List kedr_object) (tr : Trace) (h : ∀ o ∈ objs, Q o) :
    ∀ o ∈ (kedr_attach_objects env objs tr).2.1, Q o := by
  induction objs generalizing tr with
  | nil => simp [kedr_attach_objects]
  | cons p ps ih =>
    have hp := hattach p tr (h p (List.mem_cons_self _ _))
    have hps : ∀ o ∈ ps, Q o := fun o ho => h o (List.mem_cons_of_mem _ ho)
    simp only [kedr_attach_objects]
    split
    · intro o ho
      rcases List.mem_cons.mp ho with rfl | ho
      · exact hp
      · exact hps o ho
    · intro o ho
      rcases List.mem_cons.mp ho with rfl | ho
      · exact hp
      · exact ih _ hps o ho

theorem attach_step_inv (env : Env) (Q : kedr_object → Prop)
    (hattach : ∀ obj tr, Q obj → Q (kedr_attach_all_for_object env obj tr).2.1)
    (mod : Module) (st : State) (h : ∀ o ∈ st.kedr_objects, Q o) :
    ∀ o ∈ (kedr_attach_step env mod st).2.kedr_objects, Q o := by
  by_cases hm : mod = none
  · simp only [kedr_attach_step, hm, ne_eq, not_true_eq_false, if_false]
    exact attach_objects_inv env Q hattach _ _ h
  · cases hf : kedr_find_object st.kedr_objects mod with
    | none =>
      simp only [kedr_attach_step, hm, ne_eq, not_false_eq_true, if_true, hf]
      exact h
    | some i =>
      cases ho : st.kedr_objects[i]? with
      | none =>
        simp only [kedr_attach_step, hm, ne_eq, not_false_eq_true, if_true, hf, ho]
        exact h
      | some obj =>
        have hq := hattach obj st.trace (h obj (List.getElem?_mem ho))
        simp only [kedr_attach_step, hm, ne_eq, not_false_eq_true, if_true, hf, ho]
        intro o hmem
        rcases List.mem_or_eq_of_mem_set hmem with h1 | h1
        · exact h o h1
        · exact h1 ▸ hq

theorem create_func_disabled (env : Env) (handler : Handler) (addr : Nat) (tr : Trace)
    (f : kedr_func) (tr1 : Trace) (h : kedr_create_func env handler addr tr = (some f, tr1)) :
    f.state = KEDR_FUNC_DISABLED := by
  unfold kedr_create_func at h
  simp only [extcall] at h
  split at h
  · cases h
  · split at h
    · cases h
    · simp only [Prod.mk.injEq, Option.some.injEq] at h
      rw [← h.1]

theorem callback_add_func_inv (env : Env) (Q : kedr_object → Prop)
    (hadd : ∀ obj f, Q obj → f.state = KEDR_FUNC_DISABLED →
      Q { obj with funcs := f :: obj.funcs })
    (handler : Handler) (addr : Nat) (i : Nat) (st : State)
    (h : ∀ o ∈ st.kedr_objects, Q o) :
    ∀ o ∈ (kedr_callback_add_func env handler addr i st).2.kedr_objects, Q o := by
  unfold kedr_callback_add_func
  split
  · exact h
  · rename_i f tr1 hcf
    have hd := create_func_disabled env handler addr st.trace f tr1 hcf
    intro o hmem
    rcases mem_modifyAt _ _ _ _ hmem with h1 | ⟨p, hp, rfl⟩
    · exact h o h1
    · exact hadd p f (h p hp) hd

theorem callback_inv (env : Env) (Q : kedr_object → Prop)
    (hadd : ∀ obj f, Q obj → f.state = KEDR_FUNC_DISABLED →
      Q { obj with funcs := f :: obj.funcs })
    (hnew : ∀ mod, Q { mod := mod, funcs := [] })
    (data : Module) (name : CStr) (mod : Module) (addr : Nat) (st : State)
    (h : ∀ o ∈ st.kedr_objects, Q o) :
    ∀ o ∈ (kedr_kallsyms_callback env data name mod addr st).2.kedr_objects, Q o := by
  unfold kedr_kallsyms_callback
  split
  · exact h
  · split
    · exact h
    · split
      · exact h
      · split
        · exact callback_add_func_inv env Q hadd _ _ _ st h
        · by_cases hk : env st.trace Call.kzalloc = 0
          · simp only [kedr_create_object, extcall, hk, ne_eq, not_true_eq_false, if_false]
            exact h
          · simp only [kedr_create_object, extcall, hk, ne_eq, not_false_eq_true, if_true]
            apply callback_add_func_inv env Q hadd
            intro o ho
            rcases List.mem_cons.mp ho with rfl | ho
            · exact hnew mod
            · exact h o ho

theorem kallsyms_loop_inv (env : Env) (Q : kedr_object → Prop)
    (hadd : ∀ obj f, Q obj → f.state = KEDR_FUNC_DISABLED →
      Q { obj with funcs := f :: obj.funcs })
    (hnew : ∀ mod, Q { mod := mod, funcs := [] })
    (data : Module) (syms : List Symbol) (st : State) (h : ∀ o ∈ st.kedr_objects, Q o) :
    ∀ o ∈ (kallsyms_loop (kedr_kallsyms_callback env data) syms st).2.kedr_objects, Q o := by
  induction syms generalizing st with
  | nil => exact h
  | cons s rest ih =>
    simp only [kallsyms_loop]
    split
    · exact callback_inv env Q hadd hnew data _ _ _ st h
    · exact ih _ (callback_inv env Q hadd hnew data _ _ _ st h)

theorem attach_handlers_inv (env : Env) (Q : kedr_object → Prop)
    (hclean : ∀ obj tr, Q obj → Q (kedr_cleanup_object env obj tr).2.1)
    (hattach : ∀ obj tr, Q obj → Q (kedr_attach_all_for_object env obj tr).2.1)
    (hadd : ∀ obj f, Q obj → f.state = KEDR_FUNC_DISABLED →
      Q { obj with funcs := f :: obj.funcs })
    (hnew : ∀ mod, Q { mod := mod, funcs := [] })
    (syms : List Symbol) (mod : Module) (st : State) (h : ∀ o ∈ st.kedr_objects, Q o) :
    ∀ o ∈ (kedr_attach_handlers env syms mod st).2.kedr_objects, Q o := by
  unfold kedr_attach_handlers
  split
  · exact h
  · simp only [extcall]
    split
    · exact h
    · have h1 : ∀ o ∈ (kallsyms_on_each_symbol (kedr_kallsyms_callback env mod) mod syms
          { st with trace := st.trace ++ [(Call.mutex_lock_killable Lock.module_mutex,
            env st.trace (Call.mutex_lock_killable Lock.module_mutex))] }).2.kedr_objects,
          Q o :=
        kallsyms_loop_inv env Q hadd hnew mod syms _ h
      split
      · exact h1
      · split
        · exact detach_handlers_inv env Q hclean mod _
            (attach_step_inv env Q hattach mod _ h1)
        · exact attach_step_inv env Q hattach mod _ h1

theorem step_inv (env : Env) (this_module : Module) (Q : kedr_object → Prop)
    (hclean : ∀ obj tr, Q obj → Q (kedr_cleanup_object env obj tr).2.1)
    (hattach : ∀ obj tr, Q obj → Q (kedr_attach_all_for_object env obj tr).2.1)
    (hadd : ∀ obj f, Q obj → f.state = KEDR_FUNC_DISABLED →
      Q { obj with funcs := f :: obj.funcs })
    (hnew : ∀ mod, Q { mod := mod, funcs := [] })
    (op : Op) (st : State) (h : ∀ o ∈ st.kedr_objects, Q o) :
    ∀ o ∈ (step env this_module op st).kedr_objects, Q o := by
  cases op with
  | enable syms =>
    simp only [step, kedr_enable, extcall]
    split
    · exact h
    · split
      · exact h
      · split
        · exact h
        · split
          · exact attach_handlers_inv env Q hclean hattach hadd hnew syms none _ h
          · exact attach_handlers_inv env Q hclean hattach hadd hnew syms none _ h
  | disable =>
    simp only [step, kedr_disable]
    split
    · exact h
    · split
      · exact detach_handlers_inv env Q hclean none st h
      · exact detach_handlers_inv env Q hclean none st h
  | notify syms action data =>
    simp only [step, kedr_module_notify]
    split
    · exact h
    · split
      · exact h
      · split
        · exact attach_handlers_inv env Q hclean hattach hadd hnew syms data _ h
        · split
          · exact h
          · split
            · exact detach_handlers_inv env Q hclean data st h
            · exact h

theorem run_inv (env : Env) (this_module : Module) (Q : kedr_object → Prop)
    (hclean : ∀ obj tr, Q obj → Q (kedr_cleanup_object env obj tr).2.1)
    (hattach : ∀ obj tr, Q obj → Q (kedr_attach_all_for_object env obj tr).2.1)
    (hadd : ∀ obj f, Q obj → f.state = KEDR_FUNC_DISABLED →
      Q { obj with funcs := f :: obj.funcs })
    (hnew : ∀ mod, Q { mod := mod, funcs := [] })
    (ops : List Op) (st : State) (h : ∀ o ∈ st.kedr_objects, Q o) :
    ∀ o ∈ (run env this_module ops st).kedr_objects, Q o := by
  induction ops generalizing st with
  | nil => exact h
  | cons op rest ih =>
    exact ih _ (step_inv env this_module Q hclean hattach hadd hnew op st h)

/-! ## Invariants of the registry: states of the function records -/

theorem detach_fail_unchanged (env : Env)
    (hrem : ∀ t ops ip, env t (Call.ftrace_set_filter_ip ops ip 1 0) = 0)
    (f : kedr_func) (tr : Trace) (h : (kedr_func_detach env f tr).1 ≠ 0) :
    (kedr_func_detach env f tr).2.1 = f := by
  by_cases hs : f.state = KEDR_FUNC_ENABLED
  · by_cases ha : f.addr = 0
    · simp [kedr_func_detach, kedr_get_ftrace_location, hs, ha]
    · by_cases hu : env tr (Call.unregister_ftrace_function f.ops) = 0
      · simp [kedr_func_detach, kedr_get_ftrace_location, hs, ha, extcall, hu, hrem] at h
      · simp [kedr_func_detach, kedr_get_ftrace_location, hs, ha, extcall, hu]
  · rw [detach_not_enabled env f tr hs]

theorem cleanup_funcs_suffix (env : Env)
    (hrem : ∀ t ops ip, env t (Call.ftrace_set_filter_ip ops ip 1 0) = 0)
    (fs : List kedr_func) (tr : Trace) :
    (kedr_cleanup_funcs env fs tr).2.1 <:+ fs := by
  induction fs generalizing tr with
  | nil => simp [kedr_cleanup_funcs]
  | cons g gs ih =>
    by_cases hd : (kedr_func_detach env g tr).1 = 0
    · simp only [kedr_cleanup_funcs, hd, ne_eq, not_true_eq_false, if_false]
      exact (ih _).trans (List.suffix_cons _ _)
    · simp only [kedr_cleanup_funcs, hd, ne_eq, not_false_eq_true, if_true]
      rw [detach_fail_unchanged env hrem g tr hd]

theorem attach_result_cases (env : Env) (f : kedr_func) (tr : Trace) :
    (kedr_func_attach env f tr).2.1 = f ∨
      (kedr_func_attach env f tr).2.1 = { f with state := KEDR_FUNC_ENABLED } := by
  unfold kedr_func_attach
  split
  · exact Or.inl rfl
  · simp only
    split
    · exact Or.inl rfl
    · split
      · exact Or.inl rfl
      · split
        · exact Or.inl rfl
        · exact Or.inr rfl

theorem attach_funcs_states (env : Env) (fs : List kedr_func) (tr : Trace) :
    ∀ g ∈ (kedr_attach_funcs env fs tr).2.1,
      ∃ f ∈ fs, g = f ∨ g = { f with state := KEDR_FUNC_ENABLED } := by
  induction fs generalizing tr with
  | nil => simp [kedr_attach_funcs]
  | cons f fs ih =>
    have hrest : ∀ t, ∀ g ∈ (kedr_attach_funcs env fs t).2.1,
        ∃ f1 ∈ f :: fs, g = f1 ∨ g = { f1 with state := KEDR_FUNC_ENABLED } := by
      intro t g hg
      obtain ⟨f1, hf1, hc⟩ := ih t g hg
      exact ⟨f1, List.mem_cons_of_mem _ hf1, hc⟩
    have hhead : ∃ f1 ∈ f :: fs, (kedr_func_attach env f tr).2.1 = f1 ∨
        (kedr_func_attach env f tr).2.1 = { f1 with state := KEDR_FUNC_ENABLED } :=
      ⟨f, List.mem_cons_self _ _, attach_result_cases env f tr⟩
    simp only [kedr_attach_funcs]
    split
    · intro g hg
      rcases List.mem_cons.mp hg with rfl | hg
      · exact ⟨g, List.mem_cons_self _ _, Or.inl rfl⟩
      · exact hrest _ g hg
    · split
      · intro g hg
        rcases List.mem_cons.mp hg with rfl | hg
        · exact hhead
        · exact ⟨g, List.mem_cons_of_mem _ hg, Or.inl rfl⟩
      · intro g hg
        rcases List.mem_cons.mp hg with rfl | hg
        · exact hhead
        · exact hrest _ g hg

/-- C15 as stated fails: after `kedr_enable` over a symbol space with one stub
of module 7 and the notification MODULE_STATE_GOING for that module, with an
environment in which removing a filter fails, `kedr_enabled` is set and the
object of module 7 is still in `kedr_objects` with its function record in
state UNREGISTERED. -/
theorem unregistered_linked_while_enabled :
    (run env_reject_filter_removal (some 99)
        [Op.enable syms_scenario, Op.notify [] MODULE_STATE_GOING (some 7)]
        init_state).kedr_enabled = true ∧
      (run env_reject_filter_removal (some 99)
        [Op.enable syms_scenario, Op.notify [] MODULE_STATE_GOING (some 7)]
        init_state).kedr_objects =
        [{ mod := some 7,
           funcs := [{ ops := 1, handler := Handler.kedr_handle_alloc, addr := 4096,
                       state := KEDR_FUNC_UNREGISTERED }] }] := by
  decide

/-- C15, amended: when every removal of a filter (`ftrace_set_filter_ip`
with remove = 1) succeeds, then in every state reached from the initial one
by any sequence of `kedr_enable`, `kedr_disable` and module notifications,
every function record of every object of `kedr_objects` is in state ENABLED
or DISABLED; this holds in particular when `kedr_enabled` is set. -/
theorem registry_states_enabled_or_disabled (env : Env) (this_module : Module)
    (ops : List Op)
    (hrem : ∀ t o ip, env t (Call.ftrace_set_filter_ip o ip 1 0) = 0) :
    ∀ obj ∈ (run env this_module ops init_state).kedr_objects, ∀ f ∈ obj.funcs,
      f.state = KEDR_FUNC_ENABLED ∨ f.state = KEDR_FUNC_DISABLED := by
  have key := run_inv env this_module
    (fun obj => ∀ f ∈ obj.funcs, f.state ≠ KEDR_FUNC_UNREGISTERED)
    (by
      intro obj tr hq f hf
      exact hq f ((cleanup_funcs_suffix env hrem obj.funcs tr).subset hf))
    (by
      intro obj tr hq g hg
      obtain ⟨f, hf, hc⟩ := attach_funcs_states env obj.funcs tr g hg
      rcases hc with rfl | rfl
      · exact hq g hf
      · simp)
    (by
      intro obj f hq hd g hg
      rcases List.mem_cons.mp hg with rfl | hg
      · simp [hd]
      · exact hq g hg)
    (by intro mod f hf; simp at hf)
    ops init_state (by simp [init_state])
  intro obj hobj f hf
  have hne := key obj hobj f hf
  cases hs : f.state with
  | KEDR_FUNC_DISABLED => exact Or.inr rfl
  | KEDR_FUNC_ENABLED => exact Or.inl rfl
  | KEDR_FUNC_UNREGISTERED => exact absurd hs hne

/-- C15, amended, for `kedr_enable` over the symbols of module 7, every call
accepted: the registry is enabled and holds two attached functions. -/
theorem registry_states_enabled_or_disabled_witness :
    (run env_accept (some 99) [Op.enable syms_mod7] init_state).kedr_enabled = true ∧
      (all_funcs (run env_accept (some 99) [Op.enable syms_mod7]
        init_state).kedr_objects).length = 2 ∧
      ∀ obj ∈ (run env_accept (some 99) [Op.enable syms_mod7] init_state).kedr_objects,
        ∀ f ∈ obj.funcs, f.state = KEDR_FUNC_ENABLED ∨ f.state = KEDR_FUNC_DISABLED :=
  ⟨by decide, by decide,
    registry_states_enabled_or_disabled env_accept (some 99) [Op.enable syms_mod7]
      (fun _ _ _ => rfl)⟩

/-! ## Which function records an operation removes -/

theorem cleanup_removed (env : Env) (fs : List kedr_func) (tr : Trace) :
    ∃ pre tr1, detach_each env pre tr = some tr1 ∧
      fs.map func_id = (pre ++ (kedr_cleanup_funcs env fs tr).2.1).map func_id ∧
      ((kedr_cleanup_funcs env fs tr).1 = 0 →
        (kedr_cleanup_funcs env fs tr).2.1 = [] ∧ (kedr_cleanup_funcs env fs tr).2.2 = tr1) := by
  cases hd : detach_each env fs tr with
  | some t =>
    rw [cleanup_funcs_ok env fs tr t hd]
    exact ⟨fs, t, hd, by simp, fun _ => ⟨rfl, rfl⟩⟩
  | none =>
    obtain ⟨pre, f, post, tr1, hfs, hpre, hne, hcl⟩ := cleanup_funcs_fail env fs tr hd
    rw [hcl]
    refine ⟨pre, tr1, hpre, ?_, fun hc => absurd hc hne⟩
    simp [hfs, (detach_effect env f tr1).1]

theorem destroy_all_removed (env : Env) (objs : List kedr_object) (tr : Trace) :
    ∃ pre tr1, detach_each env pre tr = some tr1 ∧
      registry_ids objs =
        pre.map func_id ++ registry_ids (kedr_destroy_all_objects env objs tr).2.1 := by
  induction objs generalizing tr with
  | nil => exact ⟨[], tr, rfl, by simp [kedr_destroy_all_objects]⟩
  | cons o os ih =>
    obtain ⟨pre, tr1, hpre, hids, hok⟩ := cleanup_removed env o.funcs tr
    by_cases hc : (kedr_cleanup_funcs env o.funcs tr).1 = 0
    · obtain ⟨hnil, htr⟩ := hok hc
      obtain ⟨pre2, tr2, hpre2, hids2⟩ := ih tr1
      simp only [hnil, List.append_nil] at hids
      refine ⟨pre ++ pre2, tr2, by simp [detach_each_append, hpre, hpre2], ?_⟩
      simp only [kedr_destroy_all_objects, kedr_cleanup_object, hc, ne_eq, not_true_eq_false,
        if_false, htr]
      simp only [registry_ids, all_funcs, List.map_append, hids] at hids2 ⊢
      rw [hids2, List.append_assoc]
    · refine ⟨pre, tr1, hpre, ?_⟩
      simp only [kedr_destroy_all_objects, kedr_cleanup_object, hc, ne_eq, not_false_eq_true,
        if_true]
      simp only [registry_ids, all_funcs, List.map_append, hids, List.append_assoc]

theorem registry_ids_set (objs : List kedr_object) (i : Nat) (obj obj1 : kedr_object)
    (pre : List kedr_func) (hget : objs[i]? = some obj)
    (hids : obj.funcs.map func_id = (pre ++ obj1.funcs).map func_id) :
    List.Perm (registry_ids objs) (pre.map func_id ++ registry_ids (objs.set i obj1)) := by
  induction objs generalizing i with
  | nil => simp at hget
  | cons p ps ih =>
    cases i with
    | zero =>
      simp only [List.getElem?_cons_zero, Option.some.injEq] at hget
      subst hget
      simp only [registry_ids, all_funcs, List.set_cons_zero, List.map_append, hids,
        List.append_assoc]
      exact List.Perm.refl _
    | succ j =>
      simp only [List.getElem?_cons_succ] at hget
      have h1 := ih j hget
      simp only [registry_ids, all_funcs, List.set_cons_succ, List.map_append] at h1 ⊢
      exact (h1.append_left _).trans (List.perm_append_comm_assoc _ _ _)

theorem registry_ids_erase (objs : List kedr_object) (i : Nat) (obj : kedr_object)
    (pre : List kedr_func) (hget : objs[i]? = some obj)
    (hids : obj.funcs.map func_id = pre.map func_id) :
    List.Perm (registry_ids objs) (pre.map func_id ++ registry_ids (objs.eraseIdx i)) := by
  induction objs generalizing i with
  | nil => simp at hget
  | cons p ps ih =>
    cases i with
    | zero =>
      simp only [List.getElem?_cons_zero, Option.some.injEq] at hget
      subst hget
      simp only [registry_ids, all_funcs, List.eraseIdx_cons_zero, List.map_append, hids]
      exact List.Perm.refl _
    | succ j =>
      simp only [List.getElem?_cons_succ] at hget
      have h1 := ih j hget
      simp only [registry_ids, all_funcs, List.eraseIdx_cons_succ, List.map_append] at h1 ⊢
      exact (h1.append_left _).trans (List.perm_append_comm_assoc _ _ _)

theorem detach_handlers_removed (env : Env) (mod : Module) (st : State) :
    ∃ pre tr1, detach_each env pre st.trace = some tr1 ∧
      List.Perm (registry_ids st.kedr_objects)
        (pre.map func_id ++ registry_ids (kedr_detach_handlers env mod st).2.kedr_objects) := by
  by_cases hm : mod = none
  · obtain ⟨pre, tr1, hpre, hids⟩ := destroy_all_removed env st.kedr_objects st.trace
    refine ⟨pre, tr1, hpre, ?_⟩
    simp only [kedr_detach_handlers, hm, if_true]
    rw [← hids]
  · cases hf : kedr_find_object st.kedr_objects mod with
    | none =>
      refine ⟨[], st.trace, rfl, ?_⟩
      simp only [kedr_detach_handlers, hm, if_false, hf]
      exact List.Perm.refl _
    | some i =>
      cases ho : st.kedr_objects[i]? with
      | none =>
        refine ⟨[], st.trace, rfl, ?_⟩
        simp only [kedr_detach_handlers, hm, if_false, hf, ho]
        exact List.Perm.refl _
      | some obj =>
        obtain ⟨pre, tr1, hpre, hids, hok⟩ := cleanup_removed env obj.funcs st.trace
        refine ⟨pre, tr1, hpre, ?_⟩
        by_cases hc : (kedr_cleanup_funcs env obj.funcs st.trace).1 = 0
        · simp only [kedr_detach_handlers, hm, if_false, hf, ho, kedr_cleanup_object, hc,
            ne_eq, not_true_eq_false]
          apply registry_ids_erase _ i obj pre ho
          rw [hids, (hok hc).1, List.append_nil]
        · simp only [kedr_detach_handlers, hm, if_false, hf, ho, kedr_cleanup_object, hc,
            ne_eq, not_false_eq_true, if_true]
          exact registry_ids_set _ i obj
            { mod := obj.mod, funcs := (kedr_cleanup_funcs env obj.funcs st.trace).2.1 }
            pre ho hids

theorem registry_ids_modifyAt (objs : List kedr_object) (i : Nat) (f : kedr_func) :
    List.Sublist (registry_ids objs)
      (registry_ids (modifyAt (fun o => { o with funcs := f :: o.funcs }) objs i)) := by
  induction objs generalizing i with
  | nil => exact List.Sublist.refl _
  | cons p ps ih =>
    cases i with
    | zero =>
      simp only [registry_ids, all_funcs, modifyAt, List.cons_append, List.map_cons]
      exact List.sublist_cons_self _ _
    | succ j =>
      have h1 := ih j
      simp only [registry_ids, all_funcs, modifyAt, List.map_append] at h1 ⊢
      exact List.Sublist.append (List.Sublist.refl _) h1

theorem callback_add_func_ids (env : Env) (handler : Handler) (addr : Nat) (i : Nat)
    (st : State) :
    List.Sublist (registry_ids st.kedr_objects)
      (registry_ids (kedr_callback_add_func env handler addr i st).2.kedr_objects) := by
  unfold kedr_callback_add_func
  split
  · exact List.Sublist.refl _
  · exact registry_ids_modifyAt _ _ _

theorem callback_ids (env : Env) (data : Module) (name : CStr) (mod : Module) (addr : Nat)
    (st : State) :
    List.Sublist (registry_ids st.kedr_objects)
      (registry_ids (kedr_kallsyms_callback env data name mod addr st).2.kedr_objects) := by
  unfold kedr_kallsyms_callback
  split
  · exact List.Sublist.refl _
  · split
    · exact List.Sublist.refl _
    · split
      · exact List.Sublist.refl _
      · split
        · exact callback_add_func_ids _ _ _ _ _
        · by_cases hk : env st.trace Call.kzalloc = 0
          · simp only [kedr_create_object, extcall, hk, ne_eq, not_true_eq_false, if_false]
            exact List.Sublist.refl _
          · simp only [kedr_create_object, extcall, hk, ne_eq, not_false_eq_true, if_true]
            exact callback_add_func_ids env _ _ 0
              { st with
                  kedr_objects := { mod := mod, funcs := [] } :: st.kedr_objects,
                  trace := st.trace ++ [(Call.kzalloc, env st.trace Call.kzalloc)] }

theorem kallsyms_loop_ids (env : Env) (data : Module) (syms : List Symbol) (st : State) :
    List.Sublist (registry_ids st.kedr_objects)
      (registry_ids (kallsyms_loop (kedr_kallsyms_callback env data) syms
        st).2.kedr_objects) := by
  induction syms generalizing st with
  | nil => exact List.Sublist.refl _
  | cons s rest ih =>
    simp only [kallsyms_loop]
    split
    · exact callback_ids env data _ _ _ st
    · exact (callback_ids env data _ _ _ st).trans (ih _)

theorem attach_id (env : Env) (f : kedr_func) (tr : Trace) :
    func_id (kedr_func_attach env f tr).2.1 = func_id f := by
  rcases attach_result_cases env f tr with h | h <;> simp [h, func_id]

theorem attach_funcs_ids (env : Env) (fs : List kedr_func) (tr : Trace) :
    (kedr_attach_funcs env fs tr).2.1.map func_id = fs.map func_id := by
  induction fs generalizing tr with
  | nil => rfl
  | cons f fs ih =>
    simp only [kedr_attach_funcs]
    split
    · simp [ih]
    · split
      · simp [attach_id]
      · simp [attach_id, ih]

theorem attach_objects_ids (env : Env) (objs : List kedr_object) (tr : Trace) :
    registry_ids (kedr_attach_objects env objs tr).2.1 = registry_ids objs := by
  induction objs generalizing tr with
  | nil => rfl
  | cons o os ih =>
    have h1 := attach_funcs_ids env o.funcs tr
    simp only [kedr_attach_objects, kedr_attach_all_for_object]
    split
    · simp only [registry_ids, all_funcs, List.map_append, h1]
    · have h2 := ih (kedr_attach_funcs env o.funcs tr).2.2
      simp only [registry_ids, all_funcs, List.map_append, h1] at h2 ⊢
      rw [h2]

theorem registry_ids_set_same (objs : List kedr_object) (i : Nat) (obj obj1 : kedr_object)
    (hget : objs[i]? = some obj) (hids : obj1.funcs.map func_id = obj.funcs.map func_id) :
    registry_ids (objs.set i obj1) = registry_ids objs := by
  induction objs generalizing i with
  | nil => simp at hget
  | cons p ps ih =>
    cases i with
    | zero =>
      simp only [List.getElem?_cons_zero, Option.some.injEq] at hget
      subst hget
      simp only [registry_ids, all_funcs, List.set_cons_zero, List.map_append, hids]
    | succ j =>
      simp only [List.getElem?_cons_succ] at hget
      have h1 := ih j hget
      simp only [registry_ids, all_funcs, List.set_cons_succ, List.map_append] at h1 ⊢
      rw [h1]

theorem attach_step_ids (env : Env) (mod : Module) (st : State) :
    registry_ids (kedr_attach_step env mod st).2.kedr_objects = registry_ids st.kedr_objects := by
  by_cases hm : mod = none
  · simp only [kedr_attach_step, hm, ne_eq, not_true_eq_false, if_false]
    exact attach_objects_ids env _ _
  · cases hf : kedr_find_object st.kedr_objects mod with
    | none => simp only [kedr_attach_step, hm, ne_eq, not_false_eq_true, if_true, hf]
    | some i =>
      cases ho : st.kedr_objects[i]? with
      | none => simp only [kedr_attach_step, hm, ne_eq, not_false_eq_true, if_true, hf, ho]
      | some obj =>
        simp only [kedr_attach_step, hm, ne_eq, not_false_eq_true, if_true, hf, ho,
          kedr_attach_all_for_object]
        exact registry_ids_set_same _ i obj
          { mod := obj.mod, funcs := (kedr_attach_funcs env obj.funcs st.trace).2.1 } ho
          (attach_funcs_ids env obj.funcs st.trace)

theorem attach_handlers_removed (env : Env) (syms : List Symbol) (mod : Module) (st : State) :
    ∃ pre tr0 tr1, detach_each env pre tr0 = some tr1 ∧
      List.Subperm (registry_ids st.kedr_objects)
        (pre.map func_id ++
          registry_ids (kedr_attach_handlers env syms mod st).2.kedr_objects) := by
  unfold kedr_attach_handlers
  split
  · exact ⟨[], st.trace, st.trace, rfl, List.Subperm.refl _⟩
  · simp only [extcall]
    split
    · exact ⟨[], st.trace, st.trace, rfl, List.Subperm.refl _⟩
    · have h1 : List.Sublist (registry_ids st.kedr_objects)
          (registry_ids (kallsyms_on_each_symbol (kedr_kallsyms_callback env mod) mod syms
            { st with trace := st.trace ++ [(Call.mutex_lock_killable Lock.module_mutex,
              env st.trace (Call.mutex_lock_killable Lock.module_mutex))] }).2.kedr_objects) :=
        kallsyms_loop_ids env mod syms
          { st with trace := st.trace ++ [(Call.mutex_lock_killable Lock.module_mutex,
            env st.trace (Call.mutex_lock_killable Lock.module_mutex))] }
      split
      · exact ⟨[], st.trace, st.trace, rfl, h1.subperm⟩
      · split
        · obtain ⟨pre, tr1, hpre, hperm⟩ := detach_handlers_removed env mod
            (kedr_attach_step env mod
              (kallsyms_on_each_symbol (kedr_kallsyms_callback env mod) mod syms
                { st with trace := st.trace ++ [(Call.mutex_lock_killable Lock.module_mutex,
                  env st.trace (Call.mutex_lock_killable Lock.module_mutex))] }).2).2
          refine ⟨pre, _, tr1, hpre, ?_⟩
          rw [attach_step_ids] at hperm
          exact h1.subperm.trans hperm.subperm
        · refine ⟨[], st.trace, st.trace, rfl, ?_⟩
          simp only [List.map_nil, List.nil_append]
          rw [attach_step_ids]
          exact h1.subperm

theorem step_objects_cases (env : Env) (this_module : Module) (op : Op) (st : State) :
    (step env this_module op st).kedr_objects = st.kedr_objects ∨
      (∃ syms mod s, s.kedr_objects = st.kedr_objects ∧
        (step env this_module op st).kedr_objects =
          (kedr_attach_handlers env syms mod s).2.kedr_objects) ∨
      (∃ mod, (step env this_module op st).kedr_objects =
        (kedr_detach_handlers env mod st).2.kedr_objects) := by
  cases op with
  | enable syms =>
    simp only [step, kedr_enable, extcall]
    split
    · exact Or.inl rfl
    · split
      · exact Or.inl rfl
      · split
        · exact Or.inl rfl
        · split
          · exact Or.inr (Or.inl ⟨syms, none,
              { st with trace := (extcall env Call.try_module_get
                  (extcall env (Call.mutex_lock_killable Lock.kedr_mutex) st.trace).2).2 },
              rfl, rfl⟩)
          · exact Or.inr (Or.inl ⟨syms, none,
              { st with trace := (extcall env Call.try_module_get
                  (extcall env (Call.mutex_lock_killable Lock.kedr_mutex) st.trace).2).2 },
              rfl, rfl⟩)
  | disable =>
    simp only [step, kedr_disable]
    split
    · exact Or.inl rfl
    · split
      · exact Or.inr (Or.inr ⟨none, rfl⟩)
      · exact Or.inr (Or.inr ⟨none, rfl⟩)
  | notify syms action data =>
    simp only [step, kedr_module_notify]
    split
    · exact Or.inl rfl
    · split
      · exact Or.inl rfl
      · split
        · exact Or.inr (Or.inl ⟨syms, data,
            { st with trace := voidcall (Call.kedr_modmap_on_coming data) st.trace },
            rfl, rfl⟩)
        · split
          · exact Or.inl rfl
          · split
            · exact Or.inr (Or.inr ⟨data, rfl⟩)
            · exact Or.inl rfl

/-! ## The order of the function records of an object -/

theorem attach_funcs_log (env : Env) (fs : List kedr_func) (tr : Trace)
    (hfs : ∀ f ∈ fs, f.state = KEDR_FUNC_DISABLED ∧ f.addr ≠ 0)
    (hset : ∀ t ops ip, env t (Call.ftrace_set_filter_ip ops ip 0 0) = 0)
    (hreg : ∀ t ops, env t (Call.register_ftrace_function ops) = 0) :
    kedr_attach_funcs env fs tr =
      (0, fs.map (fun f => { f with state := KEDR_FUNC_ENABLED }), tr ++ attach_log fs) := by
  induction fs generalizing tr with
  | nil => simp [kedr_attach_funcs, attach_log]
  | cons f fs ih =>
    obtain ⟨hs, ha⟩ := hfs f (List.mem_cons_self _ _)
    have hd : kedr_func_attach env f tr =
        (0, { f with state := KEDR_FUNC_ENABLED },
          tr ++ [(Call.ftrace_set_filter_ip f.ops f.addr 0 0, 0)] ++
            [(Call.register_ftrace_function f.ops, 0)]) := by
      simp [kedr_func_attach, kedr_get_ftrace_location, extcall, hs, ha, hset, hreg]
    simp only [kedr_attach_funcs, hs, ne_eq, not_true_eq_false, if_false, hd]
    rw [ih _ (fun g hg => hfs g (List.mem_cons_of_mem _ hg))]
    simp [attach_log]

/-- C19 as stated fails: module 7 has the stub for `alloc` (address 4096)
before the stub for `free` (address 8192) in the symbol space, and after the
scan the list of its object holds the record for `free` first and the record
for `alloc`, the first one discovered, last. -/
theorem discovery_order_reversed :
    expected_funcs (some 7) syms_mod7 (some 7) =
        [(4096, Handler.kedr_handle_alloc, KEDR_FUNC_DISABLED),
         (8192, Handler.kedr_handle_free, KEDR_FUNC_DISABLED)] ∧
      (kallsyms_on_each_symbol (kedr_kallsyms_callback env_accept (some 7)) (some 7)
        syms_mod7 init_state).1 = 0 ∧
      (funcs_of (kallsyms_on_each_symbol (kedr_kallsyms_callback env_accept (some 7)) (some 7)
        syms_mod7 init_state).2.kedr_objects (some 7)).map func_view =
        [(8192, Handler.kedr_handle_free, KEDR_FUNC_DISABLED),
         (4096, Handler.kedr_handle_alloc, KEDR_FUNC_DISABLED)] := by
  decide

/-- C19, amended: after a scan that starts from an empty `kedr_objects` and
returns 0, the list of the object of each module holds the records of the
stub symbols of the module in the reverse of the order in which the symbols
were visited (the record of the last symbol first, that of the first symbol
last).  `kedr_attach_all_for_object` and `kedr_cleanup_object` visit a list
from its head: when ftrace accepts the calls, the calls made are those for
the first record of the list, then those for the second, and so on; so the
records are attached and detached in the reverse of the order of discovery. -/
theorem discovery_prepends (env : Env) (data : Module) (syms : List Symbol) (st : State)
    (hempty : st.kedr_objects = [])
    (hok : (kallsyms_on_each_symbol (kedr_kallsyms_callback env data) data syms st).1 = 0) :
    (∀ m, (funcs_of (kallsyms_on_each_symbol (kedr_kallsyms_callback env data) data syms
          st).2.kedr_objects m).map func_view = (expected_funcs data syms m).reverse) ∧
      (∀ (env1 : Env) (obj : kedr_object) (tr : Trace),
        (∀ f ∈ obj.funcs, f.state = KEDR_FUNC_DISABLED ∧ f.addr ≠ 0) →
        (∀ t ops ip, env1 t (Call.ftrace_set_filter_ip ops ip 0 0) = 0) →
        (∀ t ops, env1 t (Call.register_ftrace_function ops) = 0) →
        kedr_attach_all_for_object env1 obj tr =
          (0, { obj with
                  funcs := obj.funcs.map (fun f => { f with state := KEDR_FUNC_ENABLED }) },
            tr ++ attach_log obj.funcs)) ∧
      (∀ (env1 : Env) (obj : kedr_object) (tr : Trace),
        (∀ f ∈ obj.funcs, f.state = KEDR_FUNC_ENABLED ∧ f.addr ≠ 0) →
        (∀ t ops, env1 t (Call.unregister_ftrace_function ops) = 0) →
        (∀ t ops ip, env1 t (Call.ftrace_set_filter_ip ops ip 1 0) = 0) →
        kedr_cleanup_object env1 obj tr =
          (0, { obj with funcs := [] }, tr ++ detach_log obj.funcs)) := by
  have h0 : (kallsyms_loop (kedr_kallsyms_callback env data) syms st).1 = 0 := hok
  obtain ⟨h1, _, _⟩ := discovery_inv env data syms st h0 (by simp [hempty])
    (by simp [hempty])
  simp only [hempty, funcs_of, List.map_nil, List.append_nil] at h1
  refine ⟨h1, ?_, ?_⟩
  · intro env1 obj tr hfs hset hreg
    simp only [kedr_attach_all_for_object, attach_funcs_log env1 obj.funcs tr hfs hset hreg]
  · intro env1 obj tr hfs hunreg hrem
    simp only [kedr_cleanup_object, cleanup_funcs_enabled env1 obj.funcs tr hfs hunreg hrem]

/-- C19, amended, at the symbols of module 7. -/
theorem discovery_prepends_witness :
    (∀ m, (funcs_of (kallsyms_on_each_symbol (kedr_kallsyms_callback env_accept (some 7))
          (some 7) syms_mod7 init_state).2.kedr_objects m).map func_view =
        (expected_funcs (some 7) syms_mod7 m).reverse) ∧
      (∀ (env1 : Env) (obj : kedr_object) (tr : Trace),
        (∀ f ∈ obj.funcs, f.state = KEDR_FUNC_DISABLED ∧ f.addr ≠ 0) →
        (∀ t ops ip, env1 t (Call.ftrace_set_filter_ip ops ip 0 0) = 0) →
        (∀ t ops, env1 t (Call.register_ftrace_function ops) = 0) →
        kedr_attach_all_for_object env1 obj tr =
          (0, { obj with
                  funcs := obj.funcs.map (fun f => { f with state := KEDR_FUNC_ENABLED }) },
            tr ++ attach_log obj.funcs)) ∧
      (∀ (env1 : Env) (obj : kedr_object) (tr : Trace),
        (∀ f ∈ obj.funcs, f.state = KEDR_FUNC_ENABLED ∧ f.addr ≠ 0) →
        (∀ t ops, env1 t (Call.unregister_ftrace_function ops) = 0) →
        (∀ t ops ip, env1 t (Call.ftrace_set_filter_ip ops ip 1 0) = 0) →
        kedr_cleanup_object env1 obj tr =
          (0, { obj with funcs := [] }, tr ++ detach_log obj.funcs)) :=
  discovery_prepends env_accept (some 7) syms_mod7 init_state rfl (by decide)

/-! ## A failed attach pass: what was registered is unregistered -/

theorem registered_ops_append (a b : Trace) :
    registered_ops (a ++ b) = registered_ops a ++ registered_ops b := by
  simp [registered_ops, List.filterMap_append]

theorem unregistered_ops_append (a b : Trace) :
    unregistered_ops (a ++ b) = unregistered_ops a ++ unregistered_ops b := by
  simp [unregistered_ops, List.filterMap_append]

theorem ops_attach_log (fs : List kedr_func) :
    registered_ops (attach_log fs) = fs.map (fun f => f.ops) ∧
      unregistered_ops (attach_log fs) = [] := by
  induction fs with
  | nil => simp [attach_log, registered_ops, unregistered_ops]
  | cons f fs ih =>
    obtain ⟨h1, h2⟩ := ih
    constructor
    · simp only [registered_ops] at h1
      simp [attach_log, registered_ops, List.filterMap_cons, h1]
    · simp only [unregistered_ops] at h2
      simp [attach_log, unregistered_ops, List.filterMap_cons, h2]

theorem ops_detach_log (fs : List kedr_func) :
    registered_ops (detach_log fs) = [] ∧
      unregistered_ops (detach_log fs) = fs.map (fun f => f.ops) := by
  induction fs with
  | nil => simp [detach_log, registered_ops, unregistered_ops]
  | cons f fs ih =>
    obtain ⟨h1, h2⟩ := ih
    constructor
    · simp only [registered_ops] at h1
      simp [detach_log, registered_ops, List.filterMap_cons, h1]
    · simp only [unregistered_ops] at h2
      simp [detach_log, unregistered_ops, List.filterMap_cons, h2]

theorem ops_of_other_calls (ext : Trace) (h : ∀ e ∈ ext, call_ops e.1 = none) :
    registered_ops ext = [] ∧ unregistered_ops ext = [] := by
  induction ext with
  | nil => simp [registered_ops, unregistered_ops]
  | cons e es ih =>
    obtain ⟨h1, h2⟩ := ih (fun x hx => h x (List.mem_cons_of_mem _ hx))
    have he := h e (List.mem_cons_self _ _)
    simp only [registered_ops] at h1
    simp only [unregistered_ops] at h2
    obtain ⟨c, r⟩ := e
    cases c <;> simp [call_ops] at he <;>
      simp [registered_ops, unregistered_ops, List.filterMap_cons, h1, h2]

theorem attach_ok_spec (env : Env) (f : kedr_func) (tr : Trace)
    (hs : f.state = KEDR_FUNC_DISABLED) (h : (kedr_func_attach env f tr).1 = 0) :
    f.addr ≠ 0 ∧
      kedr_func_attach env f tr =
        (0, set_enabled f,
          tr ++ [(Call.ftrace_set_filter_ip f.ops f.addr 0 0, 0),
                 (Call.register_ftrace_function f.ops, 0)]) := by
  by_cases ha : f.addr = 0
  · simp [kedr_func_attach, kedr_get_ftrace_location, hs, ha, EINVAL] at h
  · by_cases h1 : env tr (Call.ftrace_set_filter_ip f.ops f.addr 0 0) = 0
    · by_cases h2 : env (tr ++ [(Call.ftrace_set_filter_ip f.ops f.addr 0 0, 0)])
          (Call.register_ftrace_function f.ops) = 0
      · refine ⟨ha, ?_⟩
        simp [kedr_func_attach, kedr_get_ftrace_location, extcall, hs, ha, h1, h2, set_enabled]
      · simp [kedr_func_attach, kedr_get_ftrace_location, extcall, hs, ha, h1, h2, EINVAL] at h
    · simp [kedr_func_attach, kedr_get_ftrace_location, extcall, hs, ha, h1, EINVAL] at h

theorem attach_fail_spec (env : Env) (f : kedr_func) (tr : Trace)
    (hs : f.state = KEDR_FUNC_DISABLED) (h : (kedr_func_attach env f tr).1 ≠ 0) :
    ∃ e, kedr_func_attach env f tr = ((kedr_func_attach env f tr).1, f, tr ++ e) ∧
      registered_ops e = [] ∧ unregistered_ops e = [] := by
  by_cases ha : f.addr = 0
  · refine ⟨[], ?_, rfl, rfl⟩
    simp [kedr_func_attach, kedr_get_ftrace_location, hs, ha]
  · by_cases h1 : env tr (Call.ftrace_set_filter_ip f.ops f.addr 0 0) = 0
    · by_cases h2 : env (tr ++ [(Call.ftrace_set_filter_ip f.ops f.addr 0 0, 0)])
          (Call.register_ftrace_function f.ops) = 0
      · simp [kedr_func_attach, kedr_get_ftrace_location, extcall, hs, ha, h1, h2] at h
      · refine ⟨[(Call.ftrace_set_filter_ip f.ops f.addr 0 0, 0),
          (Call.register_ftrace_function f.ops,
            env (tr ++ [(Call.ftrace_set_filter_ip f.ops f.addr 0 0, 0)])
              (Call.register_ftrace_function f.ops)),
          (Call.ftrace_set_filter_ip f.ops f.addr 1 0,
            env (tr ++ [(Call.ftrace_set_filter_ip f.ops f.addr 0 0, 0)] ++
              [(Call.register_ftrace_function f.ops,
                env (tr ++ [(Call.ftrace_set_filter_ip f.ops f.addr 0 0, 0)])
                  (Call.register_ftrace_function f.ops))])
              (Call.ftrace_set_filter_ip f.ops f.addr 1 0))], ?_, ?_, ?_⟩
        · simp [kedr_func_attach, kedr_get_ftrace_location, extcall, hs, ha, h1, h2]
        · simp [registered_ops, List.filterMap_cons, h2]
        · simp [unregistered_ops, List.filterMap_cons]
    · refine ⟨[(Call.ftrace_set_filter_ip f.ops f.addr 0 0,
          env tr (Call.ftrace_set_filter_ip f.ops f.addr 0 0))], ?_, ?_, ?_⟩
      · simp [kedr_func_attach, kedr_get_ftrace_location, extcall, hs, ha, h1]
      · simp [registered_ops, List.filterMap_cons]
      · simp [unregistered_ops, List.filterMap_cons]

theorem attach_funcs_fail_shape (env : Env) (fs : List kedr_func) (tr : Trace)
    (hfs : ∀ f ∈ fs, f.state = KEDR_FUNC_DISABLED)
    (h : (kedr_attach_funcs env fs tr).1 ≠ 0) :
    ∃ A f rest e, fs = A ++ f :: rest ∧ (∀ a ∈ A, a.addr ≠ 0) ∧
      kedr_attach_funcs env fs tr =
        ((kedr_attach_funcs env fs tr).1, A.map set_enabled ++ f :: rest,
          tr ++ attach_log A ++ e) ∧
      registered_ops e = [] ∧ unregistered_ops e = [] := by
  induction fs generalizing tr with
  | nil => simp [kedr_attach_funcs] at h
  | cons g gs ih =>
    have hg := hfs g (List.mem_cons_self _ _)
    by_cases ha : (kedr_func_attach env g tr).1 = 0
    · obtain ⟨hga, hgd⟩ := attach_ok_spec env g tr hg ha
      simp only [kedr_attach_funcs, hg, ne_eq, not_true_eq_false, if_false, hgd] at h ⊢
      obtain ⟨A, f, rest, e, hsplit, hA, heq, he1, he2⟩ :=
        ih _ (fun x hx => hfs x (List.mem_cons_of_mem _ hx)) h
      refine ⟨g :: A, f, rest, e, by simp [hsplit], ?_, ?_, he1, he2⟩
      · intro a ha2
        rcases List.mem_cons.mp ha2 with rfl | ha2
        · exact hga
        · exact hA a ha2
      · rw [heq]
        simp [attach_log]
    · obtain ⟨e, heq, he1, he2⟩ := attach_fail_spec env g tr hg ha
      refine ⟨[], g, gs, e, rfl, by simp, ?_, he1, he2⟩
      simp only [kedr_attach_funcs, hg, ne_eq, not_true_eq_false, if_false, ha,
        not_false_eq_true, if_true]
      rw [heq]
      simp [attach_log]

theorem cleanup_enabled_prefix (env : Env) (E : List kedr_func) (d : kedr_func)
    (rest : List kedr_func) (t : Trace)
    (hE : ∀ f ∈ E, f.state = KEDR_FUNC_ENABLED ∧ f.addr ≠ 0)
    (hd : d.state ≠ KEDR_FUNC_ENABLED)
    (hunreg : ∀ t ops, env t (Call.unregister_ftrace_function ops) = 0)
    (hrem : ∀ t ops ip, env t (Call.ftrace_set_filter_ip ops ip 1 0) = 0) :
    kedr_cleanup_funcs env (E ++ d :: rest) t = (-EINVAL, d :: rest, t ++ detach_log E) := by
  induction E generalizing t with
  | nil =>
    simp [kedr_cleanup_funcs, detach_not_enabled env d t hd, detach_log, EINVAL]
  | cons f fs ih =>
    obtain ⟨hs, ha⟩ := hE f (List.mem_cons_self _ _)
    have hdet : kedr_func_detach env f t =
        (0, { f with state := KEDR_FUNC_UNREGISTERED },
          t ++ [(Call.unregister_ftrace_function f.ops, 0)] ++
            [(Call.ftrace_set_filter_ip f.ops f.addr 1 0, 0)]) := by
      simp [kedr_func_detach, kedr_get_ftrace_location, extcall, hs, ha, hunreg, hrem]
    simp only [List.cons_append, kedr_cleanup_funcs, hdet, ne_eq, not_true_eq_false, if_false]
    refine (ih _ (fun g hg => hE g (List.mem_cons_of_mem _ hg))).trans ?_
    simp [detach_log]

theorem attach_funcs_append (env : Env) (a b : List kedr_func) (tr : Trace) :
    kedr_attach_funcs env (a ++ b) tr =
      if (kedr_attach_funcs env a tr).1 ≠ 0 then
        ((kedr_attach_funcs env a tr).1, (kedr_attach_funcs env a tr).2.1 ++ b,
          (kedr_attach_funcs env a tr).2.2)
      else
        ((kedr_attach_funcs env b (kedr_attach_funcs env a tr).2.2).1,
          (kedr_attach_funcs env a tr).2.1 ++
            (kedr_attach_funcs env b (kedr_attach_funcs env a tr).2.2).2.1,
          (kedr_attach_funcs env b (kedr_attach_funcs env a tr).2.2).2.2) := by
  induction a generalizing tr with
  | nil => simp [kedr_attach_funcs]
  | cons f fs ih =>
    by_cases hs : f.state ≠ KEDR_FUNC_DISABLED
    · have h1 : kedr_attach_funcs env (f :: (fs ++ b)) tr =
          ((kedr_attach_funcs env (fs ++ b) tr).1, f :: (kedr_attach_funcs env (fs ++ b) tr).2.1,
            (kedr_attach_funcs env (fs ++ b) tr).2.2) := by
        simp [kedr_attach_funcs, hs]
      have h2 : kedr_attach_funcs env (f :: fs) tr =
          ((kedr_attach_funcs env fs tr).1, f :: (kedr_attach_funcs env fs tr).2.1,
            (kedr_attach_funcs env fs tr).2.2) := by
        simp [kedr_attach_funcs, hs]
      rw [List.cons_append, h1, h2, ih]
      by_cases hc : (kedr_attach_funcs env fs tr).1 ≠ 0
      · simp [hc]
      · simp [hc]
    · by_cases ha : (kedr_func_attach env f tr).1 ≠ 0
      · have h1 : kedr_attach_funcs env (f :: (fs ++ b)) tr =
            ((kedr_func_attach env f tr).1, (kedr_func_attach env f tr).2.1 :: (fs ++ b),
              (kedr_func_attach env f tr).2.2) := by
          simp [kedr_attach_funcs, hs, ha]
        have h2 : kedr_attach_funcs env (f :: fs) tr =
            ((kedr_func_attach env f tr).1, (kedr_func_attach env f tr).2.1 :: fs,
              (kedr_func_attach env f tr).2.2) := by
          simp [kedr_attach_funcs, hs, ha]
        rw [List.cons_append, h1, h2]
        simp [ha]
      · have h1 : kedr_attach_funcs env (f :: (fs ++ b)) tr =
            ((kedr_attach_funcs env (fs ++ b) (kedr_func_attach env f tr).2.2).1,
              (kedr_func_attach env f tr).2.1 ::
                (kedr_attach_funcs env (fs ++ b) (kedr_func_attach env f tr).2.2).2.1,
              (kedr_attach_funcs env (fs ++ b) (kedr_func_attach env f tr).2.2).2.2) := by
          simp [kedr_attach_funcs, hs, ha]
        have h2 : kedr_attach_funcs env (f :: fs) tr =
            ((kedr_attach_funcs env fs (kedr_func_attach env f tr).2.2).1,
              (kedr_func_attach env f tr).2.1 ::
                (kedr_attach_funcs env fs (kedr_func_attach env f tr).2.2).2.1,
              (kedr_attach_funcs env fs (kedr_func_attach env f tr).2.2).2.2) := by
          simp [kedr_attach_funcs, hs, ha]
        rw [List.cons_append, h1, h2, ih]
        by_cases hc : (kedr_attach_funcs env fs (kedr_func_attach env f tr).2.2).1 ≠ 0
        · simp [hc]
        · simp [hc]

theorem attach_objects_flat (env : Env) (objs : List kedr_object) (tr : Trace) :
    (kedr_attach_objects env objs tr).1 = (kedr_attach_funcs env (all_funcs objs) tr).1 ∧
      all_funcs (kedr_attach_objects env objs tr).2.1 =
        (kedr_attach_funcs env (all_funcs objs) tr).2.1 ∧
      (kedr_attach_objects env objs tr).2.2 =
        (kedr_attach_funcs env (all_funcs objs) tr).2.2 := by
  induction objs generalizing tr with
  | nil => simp [kedr_attach_objects, all_funcs, kedr_attach_funcs]
  | cons o os ih =>
    obtain ⟨h1, h2, h3⟩ := ih (kedr_attach_funcs env o.funcs tr).2.2
    simp only [kedr_attach_objects, kedr_attach_all_for_object, all_funcs,
      attach_funcs_append]
    by_cases hc : (kedr_attach_funcs env o.funcs tr).1 ≠ 0
    · simp [hc, all_funcs]
    · simp [hc, all_funcs, h1, h2, h3]

theorem cleanup_funcs_zero (env : Env) (fs : List kedr_func) (tr : Trace)
    (h : (kedr_cleanup_funcs env fs tr).1 = 0) : (kedr_cleanup_funcs env fs tr).2.1 = [] := by
  induction fs generalizing tr with
  | nil => rfl
  | cons f fs ih =>
    by_cases hd : (kedr_func_detach env f tr).1 ≠ 0
    · simp [kedr_cleanup_funcs, hd] at h
    · simp only [kedr_cleanup_funcs, hd, if_false] at h ⊢
      exact ih _ h

theorem cleanup_funcs_append (env : Env) (a b : List kedr_func) (tr : Trace) :
    kedr_cleanup_funcs env (a ++ b) tr =
      if (kedr_cleanup_funcs env a tr).1 ≠ 0 then
        ((kedr_cleanup_funcs env a tr).1, (kedr_cleanup_funcs env a tr).2.1 ++ b,
          (kedr_cleanup_funcs env a tr).2.2)
      else kedr_cleanup_funcs env b (kedr_cleanup_funcs env a tr).2.2 := by
  induction a generalizing tr with
  | nil => simp [kedr_cleanup_funcs]
  | cons f fs ih =>
    simp only [List.cons_append, kedr_cleanup_funcs]
    by_cases hd : (kedr_func_detach env f tr).1 ≠ 0
    · simp [hd]
    · simp only [hd, if_false]
      exact ih _

theorem destroy_all_flat (env : Env) (objs : List kedr_object) (tr : Trace) :
    (kedr_destroy_all_objects env objs tr).1 = (kedr_cleanup_funcs env (all_funcs objs) tr).1 ∧
      all_funcs (kedr_destroy_all_objects env objs tr).2.1 =
        (kedr_cleanup_funcs env (all_funcs objs) tr).2.1 ∧
      (kedr_destroy_all_objects env objs tr).2.2 =
        (kedr_cleanup_funcs env (all_funcs objs) tr).2.2 := by
  induction objs generalizing tr with
  | nil => simp [kedr_destroy_all_objects, all_funcs, kedr_cleanup_funcs]
  | cons o os ih =>
    simp only [kedr_destroy_all_objects, kedr_cleanup_object, all_funcs, cleanup_funcs_append]
    by_cases hc : (kedr_cleanup_funcs env o.funcs tr).1 ≠ 0
    · simp [hc, all_funcs]
    · simp only [hc, if_false]
      exact ih _

theorem mem_all_funcs (objs : List kedr_object) (g : kedr_func) :
    g ∈ all_funcs objs ↔ ∃ o ∈ objs, g ∈ o.funcs := by
  induction objs with
  | nil => simp [all_funcs]
  | cons p ps ih => simp [all_funcs, ih]

theorem filter_set_out (p : kedr_object → Bool) (objs : List kedr_object) (i : Nat)
    (o o1 : kedr_object) (hget : objs[i]? = some o) (ho : p o = false) (ho1 : p o1 = false) :
    (objs.set i o1).filter p = objs.filter p := by
  induction objs generalizing i with
  | nil => simp at hget
  | cons q qs ih =>
    cases i with
    | zero =>
      simp only [List.getElem?_cons_zero, Option.some.injEq] at hget
      subst hget
      simp [List.filter_cons, ho, ho1]
    | succ j =>
      simp only [List.getElem?_cons_succ] at hget
      simp only [List.set_cons_succ, List.filter_cons, ih j hget]

theorem filter_modifyAt_out (p : kedr_object → Bool) (g : kedr_object → kedr_object)
    (objs : List kedr_object) (i : Nat) (o : kedr_object)
    (hget : objs[i]? = some o) (ho : p o = false) (hg : p (g o) = false) :
    (modifyAt g objs i).filter p = objs.filter p := by
  induction objs generalizing i with
  | nil => simp at hget
  | cons q qs ih =>
    cases i with
    | zero =>
      simp only [List.getElem?_cons_zero, Option.some.injEq] at hget
      subst hget
      simp [modifyAt, List.filter_cons, ho, hg]
    | succ j =>
      simp only [List.getElem?_cons_succ] at hget
      simp only [modifyAt, List.filter_cons, ih j hget]

theorem callback_add_func_trace (env : Env) (handler : Handler) (addr : Nat) (i : Nat)
    (st : State) :
    ∃ ext, (kedr_callback_add_func env handler addr i st).2.trace = st.trace ++ ext ∧
      ∀ e ∈ ext, call_ops e.1 = none := by
  by_cases hp : env st.trace Call.kzalloc = 0
  · refine ⟨[(Call.kzalloc, env st.trace Call.kzalloc)], ?_, by simp [call_ops]⟩
    simp [kedr_callback_add_func, kedr_create_func, extcall, hp]
  · by_cases hi : env (st.trace ++ [(Call.kzalloc, env st.trace Call.kzalloc)]) Call.kzalloc = 0
    · refine ⟨[(Call.kzalloc, env st.trace Call.kzalloc),
        (Call.kzalloc, env (st.trace ++ [(Call.kzalloc, env st.trace Call.kzalloc)])
          Call.kzalloc)], ?_, by simp [call_ops]⟩
      simp [kedr_callback_add_func, kedr_create_func, extcall, hp, hi]
    · refine ⟨[(Call.kzalloc, env st.trace Call.kzalloc),
        (Call.kzalloc, env (st.trace ++ [(Call.kzalloc, env st.trace Call.kzalloc)])
          Call.kzalloc)], ?_, by simp [call_ops]⟩
      simp [kedr_callback_add_func, kedr_create_func, extcall, hp, hi]

theorem callback_trace (env : Env) (data : Module) (name : CStr) (mod : Module) (addr : Nat)
    (st : State) :
    ∃ ext, (kedr_kallsyms_callback env data name mod addr st).2.trace = st.trace ++ ext ∧
      ∀ e ∈ ext, call_ops e.1 = none := by
  have hnone : ∃ ext, st.trace = st.trace ++ ext ∧ ∀ e ∈ ext, call_ops e.1 = none :=
    ⟨[], by simp, by simp⟩
  unfold kedr_kallsyms_callback
  split
  · exact hnone
  · split
    · exact hnone
    · split
      · exact hnone
      · split
        · exact callback_add_func_trace env _ _ _ st
        · by_cases hk : env st.trace Call.kzalloc = 0
          · simp only [kedr_create_object, extcall, hk, ne_eq, not_true_eq_false, if_false]
            exact ⟨[(Call.kzalloc, 0)], rfl, by simp [call_ops]⟩
          · simp only [kedr_create_object, extcall, hk, ne_eq, not_false_eq_true, if_true]
            obtain ⟨ext, h1, h2⟩ := callback_add_func_trace env ‹Handler› addr 0
              { st with
                  kedr_objects := { mod := mod, funcs := [] } :: st.kedr_objects,
                  trace := st.trace ++ [(Call.kzalloc, env st.trace Call.kzalloc)] }
            refine ⟨(Call.kzalloc, env st.trace Call.kzalloc) :: ext, ?_, ?_⟩
            · rw [h1]
              simp
            · intro e he
              rcases List.mem_cons.mp he with rfl | he
              · rfl
              · exact h2 e he

theorem kallsyms_loop_trace (env : Env) (data : Module) (syms : List Symbol) (st : State) :
    ∃ ext, (kallsyms_loop (kedr_kallsyms_callback env data) syms st).2.trace = st.trace ++ ext ∧
      ∀ e ∈ ext, call_ops e.1 = none := by
  induction syms generalizing st with
  | nil => exact ⟨[], by simp [kallsyms_loop], by simp⟩
  | cons s rest ih =>
    obtain ⟨e1, h1, h2⟩ := callback_trace env data s.name s.mod s.addr st
    simp only [kallsyms_loop]
    split
    · exact ⟨e1, h1, h2⟩
    · obtain ⟨e2, h3, h4⟩ := ih (kedr_kallsyms_callback env data s.name s.mod s.addr st).2
      refine ⟨e1 ++ e2, ?_, ?_⟩
      · rw [h3, h1, List.append_assoc]
      · intro e he
        rcases List.mem_append.mp he with he | he
        · exact h2 e he
        · exact h4 e he

theorem callback_add_func_frame (env : Env) (data : Module) (handler : Handler) (addr : Nat)
    (i : Nat) (st : State) (o : kedr_object) (hget : st.kedr_objects[i]? = some o)
    (ho : in_scope data o.mod = true) :
    (kedr_callback_add_func env handler addr i st).2.kedr_objects.filter
        (fun q => !in_scope data q.mod) =
      st.kedr_objects.filter (fun q => !in_scope data q.mod) := by
  unfold kedr_callback_add_func
  split
  · rfl
  · exact filter_modifyAt_out _ _ _ i o hget (by simp [ho]) (by simp [ho])

theorem callback_frame (env : Env) (data : Module) (name : CStr) (mod : Module) (addr : Nat)
    (st : State) :
    (kedr_kallsyms_callback env data name mod addr st).2.kedr_objects.filter
        (fun q => !in_scope data q.mod) =
      st.kedr_objects.filter (fun q => !in_scope data q.mod) := by
  unfold kedr_kallsyms_callback
  split
  · rfl
  · rename_i hsc
    have hin : in_scope data mod = true := by
      simp only [in_scope, decide_eq_true_eq]
      by_cases hd : data = none
      · exact Or.inl hd
      · by_cases hd2 : data = mod
        · exact Or.inr hd2
        · exact absurd ⟨hd, hd2⟩ hsc
    split
    · rfl
    · split
      · rfl
      · split
        · rename_i i hf
          obtain ⟨o, ho, hom⟩ := find_object_some _ _ _ hf
          exact callback_add_func_frame env data _ _ i st o ho (by rw [hom]; exact hin)
        · by_cases hk : env st.trace Call.kzalloc = 0
          · simp only [kedr_create_object, extcall, hk, ne_eq, not_true_eq_false, if_false]
          · simp only [kedr_create_object, extcall, hk, ne_eq, not_false_eq_true, if_true]
            rw [callback_add_func_frame env data _ _ 0
              { st with
                  kedr_objects := { mod := mod, funcs := [] } :: st.kedr_objects,
                  trace := st.trace ++ [(Call.kzalloc, env st.trace Call.kzalloc)] }
              { mod := mod, funcs := [] } (by simp) hin]
            simp [List.filter_cons, hin]

theorem kallsyms_loop_frame (env : Env) (data : Module) (syms : List Symbol) (st : State) :
    (kallsyms_loop (kedr_kallsyms_callback env data) syms st).2.kedr_objects.filter
        (fun q => !in_scope data q.mod) =
      st.kedr_objects.filter (fun q => !in_scope data q.mod) := by
  induction syms generalizing st with
  | nil => rfl
  | cons s rest ih =>
    simp only [kallsyms_loop]
    split
    · exact callback_frame env data _ _ _ st
    · rw [ih]
      exact callback_frame env data _ _ _ st

theorem failed_attach_cleanup_flat (env : Env) (fs : List kedr_func) (tr : Trace)
    (hfs : ∀ f ∈ fs, f.state = KEDR_FUNC_DISABLED)
    (hunreg : ∀ t ops, env t (Call.unregister_ftrace_function ops) = 0)
    (hrem : ∀ t ops ip, env t (Call.ftrace_set_filter_ip ops ip 1 0) = 0)
    (hfail : (kedr_attach_funcs env fs tr).1 ≠ 0) :
    ∃ kept ext, (∀ g ∈ kept, g.state = KEDR_FUNC_DISABLED) ∧
      kedr_cleanup_funcs env (kedr_attach_funcs env fs tr).2.1 (kedr_attach_funcs env fs tr).2.2 =
        (-EINVAL, kept, tr ++ ext) ∧
      registered_ops ext = unregistered_ops ext := by
  obtain ⟨A, f, rest, e, hsplit, hA, heq, he1, he2⟩ :=
    attach_funcs_fail_shape env fs tr hfs hfail
  have hf : f.state = KEDR_FUNC_DISABLED := hfs f (by simp [hsplit])
  have hE : ∀ g ∈ A.map set_enabled, g.state = KEDR_FUNC_ENABLED ∧ g.addr ≠ 0 := by
    intro g hg
    obtain ⟨a, ha, rfl⟩ := List.mem_map.mp hg
    exact ⟨rfl, hA a ha⟩
  have hcl := cleanup_enabled_prefix env (A.map set_enabled) f rest (tr ++ attach_log A ++ e)
    hE (by simp [hf]) hunreg hrem
  rw [heq]
  refine ⟨f :: rest, attach_log A ++ e ++ detach_log (A.map set_enabled), ?_, ?_, ?_⟩
  · intro g hg
    exact hfs g (by rw [hsplit]; exact List.mem_append_right _ hg)
  · rw [hcl]
    simp [List.append_assoc]
  · simp only [registered_ops_append, unregistered_ops_append, (ops_attach_log A).1,
      (ops_attach_log A).2, (ops_detach_log (A.map set_enabled)).1,
      (ops_detach_log (A.map set_enabled)).2, he1, he2, List.append_nil, List.nil_append,
      List.map_map]
    rfl

theorem failed_pass_one_unit (env : Env) (m : Nat) (s : State)
    (hQ : ∀ o ∈ s.kedr_objects, o.mod = some m → ∀ f ∈ o.funcs, f.state = KEDR_FUNC_DISABLED)
    (hunreg : ∀ t ops, env t (Call.unregister_ftrace_function ops) = 0)
    (hrem : ∀ t ops ip, env t (Call.ftrace_set_filter_ip ops ip 1 0) = 0)
    (hfail : (kedr_attach_step env (some m) s).1 ≠ 0) :
    (∀ o ∈ (kedr_detach_handlers env (some m) (kedr_attach_step env (some m) s).2).2.kedr_objects,
        o.mod = some m → ∀ f ∈ o.funcs, f.state = KEDR_FUNC_DISABLED) ∧
      (kedr_detach_handlers env (some m) (kedr_attach_step env (some m) s).2).2.kedr_objects.filter
          (fun q => !in_scope (some m) q.mod) =
        s.kedr_objects.filter (fun q => !in_scope (some m) q.mod) ∧
      ∃ ext, (kedr_detach_handlers env (some m) (kedr_attach_step env (some m) s).2).2.trace =
          s.trace ++ ext ∧
        registered_ops ext = unregistered_ops ext := by
  cases hf : kedr_find_object s.kedr_objects (some m) with
  | none => simp [kedr_attach_step, hf] at hfail
  | some i =>
    obtain ⟨obj, hobj, hmod⟩ := find_object_some _ _ _ hf
    have hdis := hQ obj (List.getElem?_mem hobj) hmod
    have hstep : kedr_attach_step env (some m) s =
        ((kedr_attach_funcs env obj.funcs s.trace).1,
          { s with
              kedr_objects := s.kedr_objects.set i
                { obj with funcs := (kedr_attach_funcs env obj.funcs s.trace).2.1 },
              trace := (kedr_attach_funcs env obj.funcs s.trace).2.2 }) := by
      simp [kedr_attach_step, hf, hobj, kedr_attach_all_for_object]
    rw [hstep] at hfail ⊢
    obtain ⟨kept, ext, hkept, hcl, hops⟩ :=
      failed_attach_cleanup_flat env obj.funcs s.trace hdis hunreg hrem hfail
    have hfind2 : kedr_find_object
        (s.kedr_objects.set i
          { obj with funcs := (kedr_attach_funcs env obj.funcs s.trace).2.1 }) (some m)
        = some i :=
      (find_object_set _ (some m) i obj
        { obj with funcs := (kedr_attach_funcs env obj.funcs s.trace).2.1 } hobj rfl).trans hf
    have hget2 := getElem_set_same s.kedr_objects i obj
      { obj with funcs := (kedr_attach_funcs env obj.funcs s.trace).2.1 } hobj
    have hout : kedr_detach_handlers env (some m)
        { s with
            kedr_objects := s.kedr_objects.set i
              { obj with funcs := (kedr_attach_funcs env obj.funcs s.trace).2.1 },
            trace := (kedr_attach_funcs env obj.funcs s.trace).2.2 } =
        (-EINVAL,
          { s with
              kedr_objects := s.kedr_objects.set i { obj with funcs := kept },
              trace := s.trace ++ ext }) := by
      simp [kedr_detach_handlers, hfind2, hget2, kedr_cleanup_object, hcl, EINVAL,
        List.set_set]
    rw [hout]
    have hscope : in_scope (some m) obj.mod = true := by simp [in_scope, hmod]
    refine ⟨?_, ?_, ext, rfl, hops⟩
    · intro o ho hom g hg
      rcases List.mem_or_eq_of_mem_set ho with h1 | h1
      · exact hQ o h1 hom g hg
      · subst h1
        exact hkept g hg
    · exact filter_set_out _ _ i obj _ hobj (by simp [hscope]) (by simp [hscope])

theorem failed_pass_all_units (env : Env) (s : State)
    (hQ : ∀ o ∈ s.kedr_objects, ∀ f ∈ o.funcs, f.state = KEDR_FUNC_DISABLED)
    (hunreg : ∀ t ops, env t (Call.unregister_ftrace_function ops) = 0)
    (hrem : ∀ t ops ip, env t (Call.ftrace_set_filter_ip ops ip 1 0) = 0)
    (hfail : (kedr_attach_step env none s).1 ≠ 0) :
    (∀ o ∈ (kedr_detach_handlers env none (kedr_attach_step env none s).2).2.kedr_objects,
        ∀ f ∈ o.funcs, f.state = KEDR_FUNC_DISABLED) ∧
      ∃ ext, (kedr_detach_handlers env none (kedr_attach_step env none s).2).2.trace =
          s.trace ++ ext ∧
        registered_ops ext = unregistered_ops ext := by
  obtain ⟨a1, a2, a3⟩ := attach_objects_flat env s.kedr_objects s.trace
  have hstep : kedr_attach_step env none s =
      ((kedr_attach_objects env s.kedr_objects s.trace).1,
        { s with
            kedr_objects := (kedr_attach_objects env s.kedr_objects s.trace).2.1,
            trace := (kedr_attach_objects env s.kedr_objects s.trace).2.2 }) := by
    simp [kedr_attach_step]
  rw [hstep] at hfail ⊢
  have hfail2 : (kedr_attach_funcs env (all_funcs s.kedr_objects) s.trace).1 ≠ 0 := by
    rw [← a1]; exact hfail
  have hflat : ∀ f ∈ all_funcs s.kedr_objects, f.state = KEDR_FUNC_DISABLED := by
    intro f hf
    obtain ⟨o, ho, hfo⟩ := (mem_all_funcs _ f).mp hf
    exact hQ o ho f hfo
  obtain ⟨kept, ext, hkept, hcl, hops⟩ :=
    failed_attach_cleanup_flat env (all_funcs s.kedr_objects) s.trace hflat hunreg hrem hfail2
  obtain ⟨d1, d2, d3⟩ := destroy_all_flat env
    (kedr_attach_objects env s.kedr_objects s.trace).2.1
    (kedr_attach_objects env s.kedr_objects s.trace).2.2
  have c2 : kedr_cleanup_funcs env
      (all_funcs (kedr_attach_objects env s.kedr_objects s.trace).2.1)
      (kedr_attach_objects env s.kedr_objects s.trace).2.2 =
      (-EINVAL, kept, s.trace ++ ext) := by
    rw [a2, a3]
    exact hcl
  rw [c2] at d2 d3
  simp only [kedr_detach_handlers, if_true]
  refine ⟨?_, ext, d3, hops⟩
  intro o ho g hg
  apply hkept
  have hmem : g ∈ all_funcs (kedr_destroy_all_objects env
      (kedr_attach_objects env s.kedr_objects s.trace).2.1
      (kedr_attach_objects env s.kedr_objects s.trace).2.2).2.1 :=
    (mem_all_funcs _ g).mpr ⟨o, ho, hg⟩
  rw [d2] at hmem
  exact hmem

theorem attach_handlers_failed_eq (env : Env) (syms : List Symbol) (mod : Module) (st : State)
    (hnew : kedr_find_object st.kedr_objects mod = none ∨ mod = none)
    (hlock : env st.trace (Call.mutex_lock_killable Lock.module_mutex) = 0)
    (hscan : (kallsyms_on_each_symbol (kedr_kallsyms_callback env mod) mod syms
        { st with trace := st.trace ++
            [(Call.mutex_lock_killable Lock.module_mutex, 0)] }).1 = 0)
    (hfail : (kedr_attach_handlers env syms mod st).1 ≠ 0) :
    (kedr_attach_step env mod
        (kallsyms_on_each_symbol (kedr_kallsyms_callback env mod) mod syms
          { st with trace := st.trace ++
              [(Call.mutex_lock_killable Lock.module_mutex, 0)] }).2).1 ≠ 0 ∧
      (kedr_attach_handlers env syms mod st).2 =
        (kedr_detach_handlers env mod
          (kedr_attach_step env mod
            (kallsyms_on_each_symbol (kedr_kallsyms_callback env mod) mod syms
              { st with trace := st.trace ++
                  [(Call.mutex_lock_killable Lock.module_mutex, 0)] }).2).2).2 := by
  have hcond : ¬ (mod ≠ none ∧ (kedr_find_object st.kedr_objects mod).isSome = true) := by
    rintro ⟨h1, h2⟩
    rcases hnew with h | h
    · simp [h] at h2
    · exact h1 h
  simp only [kedr_attach_handlers, hcond, extcall, hlock, hscan, ne_eq, if_false,
    not_true_eq_false] at hfail ⊢
  split at hfail
  · rename_i h2
    simp only [h2, not_false_eq_true, if_true, and_self]
  · rename_i h2
    exact absurd hfail h2

theorem find_none_of_fresh (objs : List kedr_object) (m : Module)
    (h : ∀ o ∈ objs, o.mod ≠ m) : kedr_find_object objs m = none := by
  induction objs with
  | nil => rfl
  | cons p ps ih =>
    have hp := h p (List.mem_cons_self _ _)
    simp [kedr_find_object, hp, ih (fun o ho => h o (List.mem_cons_of_mem _ ho))]

/-- C21 as stated fails: the registry holds the objects of modules 1 and 2,
each with an attached function, and none for module 7; ftrace accepts every
unregister and every removal of a filter but rejects registering.  The
attach pass for module 7 fails, and on return the registry still holds the
function of module 1 in state ENABLED. -/
theorem failed_pass_other_unit_enabled :
    kedr_find_object st_two_units.kedr_objects (some 7) = none ∧
      (kedr_attach_handlers env_reject_register syms_mod7 (some 7) st_two_units).1 = -22 ∧
      func_enabled ∈ all_funcs
        (kedr_attach_handlers env_reject_register syms_mod7 (some 7)
          st_two_units).2.kedr_objects ∧
      func_enabled.state = KEDR_FUNC_ENABLED := by
  decide

/-- C21, amended: let an attach pass `kedr_attach_handlers(mod)` start from a
registry that holds no object in the scope of the pass (no object of the
module, or an empty registry when `mod` is NULL), let ftrace accept every
unregister and every removal of a filter, and let the pass fail in its
attach step (the module mutex was acquired and the scan of the symbols
succeeded).  Then on return (a) every function record of every object in
the scope of the pass is in state DISABLED, so none is ENABLED; (b) the
objects outside the scope are exactly those that were in the registry
before, unchanged, whatever the state of their functions; (c) among the
calls made during the pass, the `ops` of the successful calls to
`register_ftrace_function` are, in the same order, the `ops` of the calls
to `unregister_ftrace_function`: there are as many of the ones as of the
others, each on the same `ops`. -/
theorem failed_pass_scope_disabled (env : Env) (syms : List Symbol) (mod : Module)
    (st : State)
    (hfresh : ∀ o ∈ st.kedr_objects, in_scope mod o.mod = false)
    (hunreg : ∀ t ops, env t (Call.unregister_ftrace_function ops) = 0)
    (hrem : ∀ t ops ip, env t (Call.ftrace_set_filter_ip ops ip 1 0) = 0)
    (hlock : env st.trace (Call.mutex_lock_killable Lock.module_mutex) = 0)
    (hscan : (kallsyms_on_each_symbol (kedr_kallsyms_callback env mod) mod syms
        { st with trace := st.trace ++
            [(Call.mutex_lock_killable Lock.module_mutex, 0)] }).1 = 0)
    (hfail : (kedr_attach_handlers env syms mod st).1 ≠ 0) :
    (∀ o ∈ (kedr_attach_handlers env syms mod st).2.kedr_objects,
        in_scope mod o.mod = true → ∀ f ∈ o.funcs, f.state = KEDR_FUNC_DISABLED) ∧
      (kedr_attach_handlers env syms mod st).2.kedr_objects.filter
          (fun o => !in_scope mod o.mod) = st.kedr_objects ∧
      ∃ ext, (kedr_attach_handlers env syms mod st).2.trace = st.trace ++ ext ∧
        registered_ops ext = unregistered_ops ext ∧
        (registered_ops ext).length = (unregistered_ops ext).length := by
  have hne : ∀ o ∈ st.kedr_objects, o.mod ≠ mod := by
    intro o ho hc
    have := hfresh o ho
    simp [in_scope, hc] at this
  have hnew : kedr_find_object st.kedr_objects mod = none ∨ mod = none :=
    Or.inl (find_none_of_fresh _ _ hne)
  obtain ⟨hstep, hout⟩ := attach_handlers_failed_eq env syms mod st hnew hlock hscan hfail
  rw [hout]
  -- the state after the scan
  have hsQ : ∀ o ∈ (kallsyms_on_each_symbol (kedr_kallsyms_callback env mod) mod syms
      { st with trace := st.trace ++
          [(Call.mutex_lock_killable Lock.module_mutex, 0)] }).2.kedr_objects,
      in_scope mod o.mod = true → ∀ f ∈ o.funcs, f.state = KEDR_FUNC_DISABLED :=
    kallsyms_loop_inv env
      (fun o => in_scope mod o.mod = true → ∀ f ∈ o.funcs, f.state = KEDR_FUNC_DISABLED)
      (by
        intro obj f hq hd hs g hg
        rcases List.mem_cons.mp hg with rfl | hg
        · exact hd
        · exact hq hs g hg)
      (by intro m _ f hf; simp at hf)
      mod syms _
      (by
        intro o ho hs
        have := hfresh o ho
        rw [hs] at this
        cases this)
  have hsF : (kallsyms_on_each_symbol (kedr_kallsyms_callback env mod) mod syms
      { st with trace := st.trace ++
          [(Call.mutex_lock_killable Lock.module_mutex, 0)] }).2.kedr_objects.filter
        (fun q => !in_scope mod q.mod) = st.kedr_objects := by
    have h1 := kallsyms_loop_frame env mod syms
      { st with trace := st.trace ++ [(Call.mutex_lock_killable Lock.module_mutex, 0)] }
    have h2 : st.kedr_objects.filter (fun q => !in_scope mod q.mod) = st.kedr_objects := by
      rw [List.filter_eq_self]
      intro o ho
      simp [hfresh o ho]
    exact h1.trans h2
  have hpre : ∃ pre0, (kallsyms_on_each_symbol (kedr_kallsyms_callback env mod) mod syms
      { st with trace := st.trace ++
          [(Call.mutex_lock_killable Lock.module_mutex, 0)] }).2.trace = st.trace ++ pre0 ∧
      registered_ops pre0 = [] ∧ unregistered_ops pre0 = [] := by
    obtain ⟨e0, hT0, hO0⟩ := kallsyms_loop_trace env mod syms
      { st with trace := st.trace ++ [(Call.mutex_lock_killable Lock.module_mutex, 0)] }
    refine ⟨[(Call.mutex_lock_killable Lock.module_mutex, 0)] ++ e0 ++
      [(Call.kallsyms_on_each_symbol mod,
        (kallsyms_loop (kedr_kallsyms_callback env mod) syms
          { st with trace := st.trace ++
              [(Call.mutex_lock_killable Lock.module_mutex, 0)] }).1)], ?_, ?_⟩
    · simp only [kallsyms_on_each_symbol, hT0, List.append_assoc]
    · apply ops_of_other_calls
      intro e he
      simp only [List.mem_append, List.mem_singleton] at he
      rcases he with (rfl | he) | rfl
      · rfl
      · exact hO0 e he
      · rfl
  obtain ⟨pre0, hsT, hr0, hu0⟩ := hpre
  cases mod with
  | none =>
    have hall : ∀ o ∈ (kallsyms_on_each_symbol (kedr_kallsyms_callback env none) none syms
        { st with trace := st.trace ++
            [(Call.mutex_lock_killable Lock.module_mutex, 0)] }).2.kedr_objects,
        ∀ f ∈ o.funcs, f.state = KEDR_FUNC_DISABLED :=
      fun o ho => hsQ o ho (by simp [in_scope])
    obtain ⟨b1, ext, b2, b3⟩ := failed_pass_all_units env _ hall hunreg hrem hstep
    have hst : st.kedr_objects = [] := by
      rw [List.eq_nil_iff_forall_not_mem]
      intro o ho
      have := hfresh o ho
      simp [in_scope] at this
    refine ⟨fun o ho _ => b1 o ho, ?_, pre0 ++ ext, ?_, ?_, ?_⟩
    · rw [hst, List.filter_eq_nil_iff]
      intro o _
      simp [in_scope]
    · rw [b2, hsT, List.append_assoc]
    · rw [registered_ops_append, unregistered_ops_append, hr0, hu0, b3]
    · rw [registered_ops_append, unregistered_ops_append, hr0, hu0, b3]
  | some m =>
    have hone : ∀ o ∈ (kallsyms_on_each_symbol (kedr_kallsyms_callback env (some m)) (some m)
        syms { st with trace := st.trace ++
            [(Call.mutex_lock_killable Lock.module_mutex, 0)] }).2.kedr_objects,
        o.mod = some m → ∀ f ∈ o.funcs, f.state = KEDR_FUNC_DISABLED :=
      fun o ho hm => hsQ o ho (by simp [in_scope, hm])
    obtain ⟨b1, bF, ext, b2, b3⟩ := failed_pass_one_unit env m _ hone hunreg hrem hstep
    refine ⟨?_, bF.trans hsF, pre0 ++ ext, ?_, ?_, ?_⟩
    · intro o ho hs
      have hm : o.mod = some m := by
        simp only [in_scope, reduceCtorEq, false_or, decide_eq_true_eq] at hs
        exact hs.symm
      exact b1 o ho hm
    · rw [b2, hsT, List.append_assoc]
    · rw [registered_ops_append, unregistered_ops_append, hr0, hu0, b3]
    · rw [registered_ops_append, unregistered_ops_append, hr0, hu0, b3]

/-- C21, amended, at two inputs.  First the pass over the whole symbol space
from the initial state, where the second registration fails: one function
was registered (`ops` 5) and the same one is unregistered.  Then the pass for
module 7 in the registry with the objects of modules 1 and 2, where
registering fails: the objects of modules 1 and 2 are unchanged. -/
theorem failed_pass_scope_disabled_witness :
    (kedr_attach_handlers env_second_register_fails syms_mod7 none init_state).1 = -22 ∧
      registered_ops
        (kedr_attach_handlers env_second_register_fails syms_mod7 none init_state).2.trace
        = [5] ∧
      unregistered_ops
        (kedr_attach_handlers env_second_register_fails syms_mod7 none init_state).2.trace
        = [5] ∧
      ((∀ o ∈ (kedr_attach_handlers env_second_register_fails syms_mod7 none
            init_state).2.kedr_objects,
          in_scope none o.mod = true → ∀ f ∈ o.funcs, f.state = KEDR_FUNC_DISABLED) ∧
        (kedr_attach_handlers env_second_register_fails syms_mod7 none
            init_state).2.kedr_objects.filter (fun o => !in_scope none o.mod)
          = init_state.kedr_objects ∧
        ∃ ext, (kedr_attach_handlers env_second_register_fails syms_mod7 none
            init_state).2.trace = init_state.trace ++ ext ∧
          registered_ops ext = unregistered_ops ext ∧
          (registered_ops ext).length = (unregistered_ops ext).length) ∧
      (kedr_attach_handlers env_reject_register syms_mod7 (some 7)
          st_two_units).2.kedr_objects.filter (fun o => !in_scope (some 7) o.mod)
        = st_two_units.kedr_objects :=
  ⟨by decide, by decide, by decide,
    failed_pass_scope_disabled env_second_register_fails syms_mod7 none init_state
      (by simp [init_state]) (fun _ _ => rfl) (fun _ _ _ => rfl) (by decide) (by decide)
      (by decide),
    (failed_pass_scope_disabled env_reject_register syms_mod7 (some 7) st_two_units
      (by decide) (fun _ _ => rfl) (fun _ _ _ => rfl) (by decide) (by decide)
      (by decide)).2.1⟩

/-! ## Records are unlinked only by a successful detach -/

end Kedr
